import Mathlib

/-!
# Streaming audio player of `static/app.js`

A shallow embedding of the `StreamingAudioPlayer` class and of the read loop of
`generateWithStreaming`, followed by the properties proved about them.

Conventions of the embedding

* JavaScript numbers that hold times or samples are exact rationals (`ℚ`): the
  fields and the operations of the player are computed without rounding. The
  rounding of IEEE doubles is modelled on its own (`roundDouble`), for the
  comparison of the running sum `totalDuration` with the duration of the combined
  buffer, two values that agree only without rounding.
* Integers stored through a `DataView` are natural numbers reduced modulo the
  width of the field, one list element per byte.
* Strings that are only inspected by `split`, `startsWith` and `slice` are
  lists of characters.
* Platform services (`JSON.parse`, `atob`, `decodeAudioData`, the DOM lookups,
  the readings of `performance.now`) are fields of an environment record `Env`.
* Calls that only show something (`showToast`, `console.error`, writes of the
  metric elements, `URL.createObjectURL`) are recorded as a list of `Effect`s.
-/

namespace StreamingTTS

/-! ## Audio buffers -/

/-- An `AudioBuffer` of the Web Audio API: `sampleRate`, `length` (frames per
channel) and the sample data of each channel (`getChannelData`). -/
structure AudioBuffer where
  sampleRate : Nat
  length : Nat
  channels : List (List ℚ)
deriving DecidableEq

/-- The attribute `numberOfChannels`. -/
def AudioBuffer.numberOfChannels (b : AudioBuffer) : Nat := b.channels.length

/-- The attribute `duration`: frames divided by the sample rate, in seconds. -/
def AudioBuffer.duration (b : AudioBuffer) : ℚ := (b.length : ℚ) / (b.sampleRate : ℚ)

/-- The method `getChannelData(channel)`; `none` stands for the `IndexSizeError`
raised when the channel does not exist. -/
def AudioBuffer.getChannelData (b : AudioBuffer) (channel : Nat) : Option (List ℚ) :=
  b.channels[channel]?

/-- What the platform guarantees of every `AudioBuffer` it hands out: at least
one channel, at least one frame, and `length` samples on every channel. -/
def AudioBuffer.WF (b : AudioBuffer) : Prop :=
  0 < b.numberOfChannels ∧ 0 < b.length ∧ ∀ ch ∈ b.channels, ch.length = b.length

instance (b : AudioBuffer) : Decidable b.WF := by
  unfold AudioBuffer.WF; infer_instance

/-- The call `audioContext.createBuffer(numChannels, length, sampleRate)`: a silent
buffer; `none` stands for the `NotSupportedError` raised for zero channels or
zero frames. -/
def createBuffer (numChannels length sampleRate : Nat) : Option AudioBuffer :=
  if numChannels = 0 ∨ length = 0 then none
  else some { sampleRate := sampleRate, length := length,
              channels := List.replicate numChannels (List.replicate length 0) }

/-- The call `channelData.set(source, offset)` on a `Float32Array`; `none` stands for
the `RangeError` raised when the source does not fit. -/
def float32Set (channelData source : List ℚ) (offset : Nat) : Option (List ℚ) :=
  if offset + source.length ≤ channelData.length then
    some (channelData.take offset ++ source ++ channelData.drop (offset + source.length))
  else none

/-- The inner loop of `combineBuffers` for one channel:
`for (const buffer of this.allBuffers) { channelData.set(buffer.getChannelData(channel), offset);
offset += buffer.length; }`. -/
def copyChannel (channel : Nat) : List AudioBuffer → List ℚ → Nat → Option (List ℚ)
  | [], channelData, _ => some channelData
  | buffer :: rest, channelData, offset =>
    match buffer.getChannelData channel with
    | none => none
    | some source =>
      match float32Set channelData source offset with
      | none => none
      | some channelData1 => copyChannel channel rest channelData1 (offset + buffer.length)

/-- The outer loop of `combineBuffers`, `for (let channel = 0; channel < numChannels; channel++)`,
run over the channels of the freshly created buffer from index `channel` on. -/
def copyChannels (allBuffers : List AudioBuffer) : Nat → List (List ℚ) → Option (List (List ℚ))
  | _, [] => some []
  | channel, channelData :: rest =>
    match copyChannel channel allBuffers channelData 0 with
    | none => none
    | some filled =>
      match copyChannels allBuffers (channel + 1) rest with
      | none => none
      | some others => some (filled :: others)

/-- The accumulation `for (const buffer of this.allBuffers) totalLength += buffer.length`. -/
def totalLength (allBuffers : List AudioBuffer) : Nat :=
  allBuffers.foldl (fun acc buffer => acc + buffer.length) 0

/-- The method `combineBuffers()` on the retained buffers. `Except.error` is an exception
thrown by the platform, `Except.ok none` is the JavaScript `null`. -/
def combineBuffers (allBuffers : List AudioBuffer) : Except String (Option AudioBuffer) :=
  match allBuffers with
  | [] => Except.ok none
  | [only] => Except.ok (some only)
  | first :: _ =>
    match createBuffer first.numberOfChannels (totalLength allBuffers) first.sampleRate with
    | none => Except.error "NotSupportedError"
    | some combined =>
      match copyChannels allBuffers 0 combined.channels with
      | none => Except.error "IndexSizeError"
      | some channels => Except.ok (some { combined with channels := channels })

/-! ## WAV encoding -/

/-- Little-endian bytes written by `view.setUint16(_, value, true)` (`width = 2`) and
`view.setUint32(_, value, true)` (`width = 4`): the value is reduced modulo `256 ^ width`. -/
def leBytes : Nat → Nat → List Nat
  | 0, _ => []
  | width + 1, value => value % 256 :: leBytes width (value / 256)

/-- The unsigned integer that a little-endian byte sequence denotes. -/
def leValue : List Nat → Nat
  | [] => 0
  | byte :: rest => byte + 256 * leValue rest

/-- The bytes stored by the helper `writeString`: `view.setUint8(offset + i, string.charCodeAt(i))`. -/
def charCodes (string : String) : List Nat :=
  string.data.map (fun c => c.toNat % 256)

/-- A write of consecutive bytes into the `DataView` at `offset`; `none` stands for the
`RangeError` of a write that leaves the buffer. -/
def setBytes (view : List Nat) (offset : Nat) (bytes : List Nat) : Option (List Nat) :=
  if offset + bytes.length ≤ view.length then
    some (view.take offset ++ bytes ++ view.drop (offset + bytes.length))
  else none

/-- The clamp `Math.max(-1, Math.min(1, interleaved[i]))`. -/
def clampSample (x : ℚ) : ℚ := max (-1) (min 1 x)

/-- The scaling `sample < 0 ? sample * 0x8000 : sample * 0x7FFF` of the clamped sample. -/
def intSample (x : ℚ) : ℚ :=
  let sample := clampSample x
  if sample < 0 then sample * 32768 else sample * 32767

/-- The integer part of a number, rounding toward zero, as the `DataView` setters take it. -/
def truncate (v : ℚ) : ℤ := Int.tdiv v.num (v.den : ℤ)

/-- The two bytes stored by `view.setInt16(_, value, true)`: the value is truncated and
reduced modulo `2 ^ 16` (two's complement), low byte first. -/
def int16Bytes (value : ℚ) : List Nat :=
  leBytes 2 (Int.toNat (truncate value % 65536))

/-- The stereo branch of the interleaving loop: `interleaved[i * 2] = left[i]`,
`interleaved[i * 2 + 1] = right[i]` for `i < left.length`. A missing `right[i]` is the
sample `0`, which is stored as the same two bytes as the `NaN` the source gets there. -/
def interleaveStereo : List ℚ → List ℚ → List ℚ
  | [], _ => []
  | l :: ls, [] => l :: 0 :: interleaveStereo ls []
  | l :: ls, r :: rs => l :: r :: interleaveStereo ls rs

/-- The block `if (numChannels === 2) { ... } else { interleaved = buffer.getChannelData(0); }`. -/
def interleave (buffer : AudioBuffer) : Option (List ℚ) :=
  if buffer.numberOfChannels = 2 then
    match buffer.getChannelData 0, buffer.getChannelData 1 with
    | some left, some right => some (interleaveStereo left right)
    | _, _ => none
  else buffer.getChannelData 0

/-- The loop `for (let i = 0; i < interleaved.length; i++) view.setInt16(offset + i * 2, intSample, true)`
with `offset = 44`, run from index `i` on. -/
def writeSamples : List ℚ → Nat → List Nat → Option (List Nat)
  | [], _, view => some view
  | x :: rest, i, view =>
    match setBytes view (44 + i * 2) (int16Bytes (intSample x)) with
    | none => none
    | some view1 => writeSamples rest (i + 1) view1

/-- The header writes of `audioBufferToWav`, in source order, on the given view. -/
def writeHeader (numChannels sampleRate dataLength : Nat) (view : List Nat) : Option (List Nat) := do
  let format := 1
  let bitDepth := 16
  let bytesPerSample := bitDepth / 8
  let blockAlign := numChannels * bytesPerSample
  let view ← setBytes view 0 (charCodes "RIFF")
  let view ← setBytes view 4 (leBytes 4 (36 + dataLength))
  let view ← setBytes view 8 (charCodes "WAVE")
  let view ← setBytes view 12 (charCodes "fmt ")
  let view ← setBytes view 16 (leBytes 4 16)
  let view ← setBytes view 20 (leBytes 2 format)
  let view ← setBytes view 22 (leBytes 2 numChannels)
  let view ← setBytes view 24 (leBytes 4 sampleRate)
  let view ← setBytes view 28 (leBytes 4 (sampleRate * blockAlign))
  let view ← setBytes view 32 (leBytes 2 blockAlign)
  let view ← setBytes view 34 (leBytes 2 bitDepth)
  let view ← setBytes view 36 (charCodes "data")
  setBytes view 40 (leBytes 4 dataLength)

/-- The value `dataLength = interleaved.length * bytesPerSample` of `audioBufferToWav`. -/
def wavDataLength (buffer : AudioBuffer) : Option Nat :=
  (interleave buffer).map (fun interleaved => interleaved.length * (16 / 8))

/-- The method `audioBufferToWav(buffer)`: the bytes of the returned blob; `none` stands for
an exception thrown by the platform. -/
def audioBufferToWav (buffer : AudioBuffer) : Option (List Nat) :=
  match interleave buffer with
  | none => none
  | some interleaved =>
    let dataLength := interleaved.length * (16 / 8)
    let headerLength := 44
    let wavBuffer := List.replicate (headerLength + dataLength) 0
    match writeHeader buffer.numberOfChannels buffer.sampleRate dataLength wavBuffer with
    | none => none
    | some view => writeSamples interleaved 0 view

/-! ## The player -/

/-- The `AudioContext` owned by a player: whether its state is `'suspended'`, and the
reading of its output clock `currentTime`, in seconds. -/
structure AudioContext where
  suspended : Bool
  currentTime : ℚ
deriving DecidableEq

/-- An `AudioBufferSourceNode` made by `playNext`: its buffer, the time given to
`source.start`, and whether `source.stop()` has been called on it. -/
structure SourceNode where
  buffer : AudioBuffer
  startAt : ℚ
  stopped : Bool
deriving DecidableEq

/-- One call `source.start(startAt)`: the chunk and the time on the output clock. -/
structure Segment where
  buffer : AudioBuffer
  startAt : ℚ
deriving DecidableEq

/-! ## Numbers of the script -/

/-- Rounding to the nearest integer, a tie going to the even one. -/
def roundHalfEven (y : ℚ) : ℤ :=
  if y - ⌊y⌋ < 1 / 2 then ⌊y⌋
  else if 1 / 2 < y - ⌊y⌋ then ⌊y⌋ + 1
  else if ⌊y⌋ % 2 = 0 then ⌊y⌋ else ⌊y⌋ + 1

/-- The binary64 Number nearest to a rational: 53 significant bits, a tie going to the
even significand. The range of the exponent is not limited; the quotients of frame
counts by sample rates and their sums lie far inside it. -/
def roundDouble (x : ℚ) : ℚ :=
  if x = 0 then 0
  else (roundHalfEven (x / 2 ^ (Int.log 2 |x| - 52)) : ℚ) * 2 ^ (Int.log 2 |x| - 52)

/-- The sum of two Numbers, as `+` computes it. -/
def doubleAdd (a b : ℚ) : ℚ := roundDouble (a + b)

/-- The quotient of two Numbers, as `/` computes it. -/
def doubleDiv (a b : ℚ) : ℚ := roundDouble (a / b)

/-- The attribute `duration` as the Number that the script reads: the frames divided by
the sample rate, rounded to binary64. -/
def AudioBuffer.durationNumber (b : AudioBuffer) : ℚ :=
  doubleDiv (b.length : ℚ) (b.sampleRate : ℚ)

/-- The Number in `this.totalDuration` after `this.totalDuration += audioBuffer.duration`
has run for each of the buffers in turn, from the `0` that `init()` stores. -/
def totalDurationNumber (buffers : List AudioBuffer) : ℚ :=
  buffers.foldl (fun total b => doubleAdd total b.durationNumber) 0

/-- The method `toFixed(fractionDigits)` of a Number: the digits of the integer `n` for
which `n / 10 ^ fractionDigits` is nearest to the value, the larger `n` on a tie, padded
with zeros to at least one digit before the point, and a minus sign for a negative
value. From `10 ^ 21` on the result is `ToString` of the value, passed as
`numberToString`. -/
def toFixed (numberToString : ℚ → List Char) (fractionDigits : Nat) (x : ℚ) : List Char :=
  if 10 ^ 21 ≤ |x| then (if x < 0 then ['-'] else []) ++ numberToString |x|
  else
    let n : Nat := ⌊|x| * 10 ^ fractionDigits + 1 / 2⌋.toNat
    let m := Nat.toDigits 10 n
    let m := if fractionDigits = 0 then m
      else
        let m := List.replicate (fractionDigits + 1 - m.length) '0' ++ m
        m.take (m.length - fractionDigits) ++ ['.'] ++ m.drop (m.length - fractionDigits)
    (if x < 0 then ['-'] else []) ++ m

/-- Which of the page elements looked up by the player exist. -/
structure Dom where
  /-- The element `-generate-btn`. -/
  generateBtn : Bool
  /-- The element `-streaming-play-pause`. -/
  playPauseBtn : Bool
  /-- The element `-streaming-waveform`, holding at least one `.waveform-bar`. -/
  streamingWaveform : Bool
  /-- The element `-audio-player`. -/
  audioPlayer : Bool
  /-- The element `-metric-time`. -/
  metricTime : Bool
  /-- The element `-metric-duration`. -/
  metricDuration : Bool
  /-- The element `-metric-rtf`. -/
  metricRtf : Bool
deriving DecidableEq

/-- The fields of a `StreamingAudioPlayer`. Handles of timers and animation frames are
`true` when set and `false` when `null`. `scheduled` is not a field of the class: it
records every `source.start(startAt)` made so far, oldest first. -/
structure Player where
  audioContext : Option AudioContext
  audioQueue : List AudioBuffer
  isPlaying : Bool
  isPaused : Bool
  currentSource : Option SourceNode
  nextStartTime : ℚ
  allBuffers : List AudioBuffer
  totalChunks : Nat
  receivedChunks : Nat
  startTime : ℚ
  sampleRate : Nat
  totalDuration : ℚ
  playbackStartTime : ℚ
  playedDuration : ℚ
  pausedAtPosition : ℚ
  progressInterval : Bool
  waveformAnimationFrame : Bool
  playPauseHandler : Bool
  scheduled : List Segment
deriving DecidableEq

/-- The kind argument of `showToast`. -/
inductive ToastType where
  | info
  | success
  | error
deriving DecidableEq

/-- What the code shows or hands to the page, in the order it happens. -/
inductive Effect where
  /-- A call `showToast(message, type)`. -/
  | toast (message : String) (type : ToastType)
  /-- A call `console.error(tag, ...)`. -/
  | consoleError (tag : String)
  /-- A call `URL.createObjectURL(wavBlob)` on the blob with these bytes. -/
  | objectURL (wav : List Nat)
  /-- The assignment `player.src = audioUrl`. -/
  | playerSrc
  /-- A write of `textContent` of the element `-metric-time`. -/
  | metricTime (text : List Char)
  /-- A write of `textContent` of the element `-metric-duration`. -/
  | metricDuration (text : List Char)
  /-- A write of `textContent` of the element `-metric-rtf`. -/
  | metricRtf (text : List Char)
deriving DecidableEq

/-- The result of `atob` followed by `decodeAudioData` on the payload of a chunk. -/
inductive DecodeOutcome where
  /-- The call `atob(base64Audio)` throws an exception with this message. -/
  | invalidBase64 (message : String)
  /-- The promise of `decodeAudioData` is rejected. -/
  | rejected
  /-- The promise of `decodeAudioData` resolves to this buffer. -/
  | decoded (audioBuffer : AudioBuffer)
deriving DecidableEq

/-- The constructor `new StreamingAudioPlayer(prefix)`. -/
def Player.new : Player :=
  { audioContext := none, audioQueue := [], isPlaying := false, isPaused := false,
    currentSource := none, nextStartTime := 0, allBuffers := [], totalChunks := 0,
    receivedChunks := 0, startTime := 0, sampleRate := 24000, totalDuration := 0,
    playbackStartTime := 0, playedDuration := 0, pausedAtPosition := 0,
    progressInterval := false, waveformAnimationFrame := false, playPauseHandler := false,
    scheduled := [] }

/-- The method `showStreamingUI()`, as far as it changes the player: the click handler is
stored when the play/pause button exists. -/
def showStreamingUI (dom : Dom) (p : Player) : Player :=
  if dom.playPauseBtn then { p with playPauseHandler := true } else p

/-- The method `init()`. `fresh` is the context that `new AudioContext()` returns and
`performanceNow` the reading of `performance.now()`. -/
def init (dom : Dom) (fresh : AudioContext) (performanceNow : ℚ) (p : Player) : Player :=
  let ctx := match p.audioContext with
    | none => fresh
    | some ctx => ctx
  let ctx := if ctx.suspended then { ctx with suspended := false } else ctx
  showStreamingUI dom
    { p with audioContext := some ctx, audioQueue := [], allBuffers := [], isPlaying := false,
             isPaused := false, nextStartTime := 0, receivedChunks := 0, totalDuration := 0,
             playbackStartTime := 0, playedDuration := 0, pausedAtPosition := 0,
             startTime := performanceNow }

/-- The method `startProgressUpdates()`: the interval is installed unless one is running. -/
def startProgressUpdates (p : Player) : Player :=
  if p.progressInterval then p else { p with progressInterval := true }

/-- The method `startWaveformAnimation()`, up to the first run of `animate`: a frame is
requested when none is pending, the bars exist, and the player is playing and not paused. -/
def startWaveformAnimation (dom : Dom) (p : Player) : Player :=
  if p.waveformAnimationFrame then p
  else if !dom.streamingWaveform then p
  else if p.isPaused || !p.isPlaying then p
  else { p with waveformAnimationFrame := true }

/-- The method `stopWaveformAnimation()`. -/
def stopWaveformAnimation (p : Player) : Player :=
  if p.waveformAnimationFrame then { p with waveformAnimationFrame := false } else p

/-- The method `hideStreamingUI()`, as far as it changes the player. -/
def hideStreamingUI (dom : Dom) (p : Player) : Player :=
  let p := if dom.playPauseBtn && p.playPauseHandler then { p with playPauseHandler := false } else p
  let p := if p.progressInterval then { p with progressInterval := false } else p
  stopWaveformAnimation p

/-- The method `playNext()`. With no audio context the call `createBufferSource` throws;
the result is then the player as the exception leaves it. -/
def playNext (dom : Dom) (p : Player) : Player :=
  match p.audioQueue with
  | [] => { p with isPlaying := false }
  | buffer :: queue =>
    let p := { p with isPlaying := true, audioQueue := queue }
    match p.audioContext with
    | none => p
    | some ctx =>
      let now := ctx.currentTime
      let startAt := max now p.nextStartTime
      let p := { p with scheduled := p.scheduled ++ [{ buffer := buffer, startAt := startAt }] }
      let p := if p.playbackStartTime = 0 then
          startWaveformAnimation dom (startProgressUpdates { p with playbackStartTime := startAt })
        else p
      { p with nextStartTime := startAt + buffer.duration,
               currentSource := some { buffer := buffer, startAt := startAt, stopped := false } }

/-! ## Events and the environment -/

/-- The value of `JSON.parse(line.slice(6))` as the branches on `data.type` see it, with
the fields each branch reads. -/
inductive SSEEvent where
  | start (total_chunks : Nat)
  | chunk (audio : List Char) (sample_rate : Nat)
  | done
  | error (error : String)
  /-- A value whose `type` is none of the four: no branch is taken. -/
  | other
deriving DecidableEq

/-- The platform as one session sees it. `parse` is `JSON.parse` followed by the read of
`data.type`; `Except.error` carries the `message` of the exception thrown. -/
structure Env where
  parse : List Char → Except String SSEEvent
  decode : List Char → DecodeOutcome
  dom : Dom
  /-- The context returned by `new AudioContext()`. -/
  newAudioContext : AudioContext
  /-- The reading of `performance.now()` made by `init()`, in milliseconds. -/
  performanceNow : ℚ
  /-- The reading of `performance.now()` made by `updateProgress()`, as a function of
  the number of chunks received by then. -/
  progressNow : Nat → ℚ
  /-- The reading of `performance.now()` made by `finalize()`. -/
  finalizeNow : ℚ
  /-- The operation `ToString` on a Number, which `toFixed` returns from `10 ^ 21` on. -/
  numberToString : ℚ → List Char

/-- The method `updateProgress()`: the writes of the metric elements, the time with one
decimal and the duration followed by the count of chunks. -/
def updateProgress (env : Env) (p : Player) : List Effect :=
  let genTime := (env.progressNow p.receivedChunks - p.startTime) / 1000
  (if env.dom.metricTime then
    [Effect.metricTime (toFixed env.numberToString 1 genTime ++ ['s'])] else []) ++
  (if env.dom.metricDuration then
    [Effect.metricDuration (toFixed env.numberToString 1 p.totalDuration ++ "s (".data ++
      Nat.toDigits 10 p.receivedChunks ++ ['/'] ++ Nat.toDigits 10 p.totalChunks ++ [')'])]
   else [])

/-- The method `addChunk(base64Audio, sampleRate)`: the player afterwards, what was shown,
and the message of the exception that leaves the method, if one does. -/
def addChunk (env : Env) (p : Player) (base64Audio : List Char) (sampleRate : Nat) :
    Player × List Effect × Option String :=
  let p := { p with sampleRate := sampleRate, receivedChunks := p.receivedChunks + 1 }
  match env.decode base64Audio with
  | DecodeOutcome.invalidBase64 message => (p, [], some message)
  | outcome =>
    let decoded : Option AudioBuffer :=
      match p.audioContext, outcome with
      | some _, DecodeOutcome.decoded audioBuffer => some audioBuffer
      | _, _ => none
    match decoded with
    | none => (p, Effect.consoleError "Error decoding audio chunk:" :: updateProgress env p, none)
    | some audioBuffer =>
      let p := { p with allBuffers := p.allBuffers ++ [audioBuffer],
                        totalDuration := p.totalDuration + audioBuffer.duration,
                        audioQueue := p.audioQueue ++ [audioBuffer] }
      let p := if !p.isPlaying then playNext env.dom p else p
      (p, updateProgress env p, none)

/-- The method `finalize()`: the player afterwards, what was shown, and the message of
the exception that leaves the method, if one does. -/
def finalize (env : Env) (p : Player) : Player × List Effect × Option String :=
  let p := hideStreamingUI env.dom p
  match combineBuffers p.allBuffers with
  | Except.error message => (p, [], some message)
  | Except.ok none => (p, [Effect.consoleError "[Streaming] No buffers to combine"], none)
  | Except.ok (some combinedBuffer) =>
    match audioBufferToWav combinedBuffer with
    | none => (p, [], some "IndexSizeError")
    | some wavBlob =>
      let genTime := (env.finalizeNow - p.startTime) / 1000
      (p,
       [Effect.objectURL wavBlob] ++
       (if env.dom.audioPlayer then [Effect.playerSrc] else []) ++
       (if env.dom.metricTime then
          [Effect.metricTime (toFixed env.numberToString 2 genTime ++ ['s'])] else []) ++
       (if env.dom.metricDuration then
          [Effect.metricDuration (toFixed env.numberToString 1 p.totalDuration ++ ['s'])]
        else []) ++
       (if env.dom.metricRtf && decide (p.totalDuration > 0) && decide (genTime > 0) then
          [Effect.metricRtf (toFixed env.numberToString 2 (genTime / p.totalDuration) ++ ['x'])]
        else []),
       none)

/-- The method `stop()`. -/
def stop (dom : Dom) (p : Player) : Player :=
  let p := match p.currentSource with
    | some source => { p with currentSource := some { source with stopped := true } }
    | none => p
  let p := { p with audioQueue := [], isPlaying := false, isPaused := false }
  let p := if p.progressInterval then { p with progressInterval := false } else p
  hideStreamingUI dom (stopWaveformAnimation p)

/-! ## The read loop of `generateWithStreaming` -/

/-- The call `text.split('\n')`: the pieces between newlines, never an empty array. -/
def splitNewline : List Char → List (List Char)
  | [] => [[]]
  | c :: rest =>
    if c = '\n' then [] :: splitNewline rest
    else
      match splitNewline rest with
      | [] => [[c]]
      | piece :: pieces => (c :: piece) :: pieces

/-- The inner `catch (e)` of the read loop: the exception is logged unless its message is
`'Unexpected end of JSON input'`. -/
def catchSSE (message : String) : List Effect :=
  if message ≠ "Unexpected end of JSON input" then
    [Effect.consoleError "[Streaming] Error parsing SSE:"]
  else []

/-- The `try` block run on the payload of a line that starts with `data: `. -/
def handleData (env : Env) (p : Player) (payload : List Char) : Player × List Effect :=
  match env.parse payload with
  | Except.error message => (p, catchSSE message)
  | Except.ok (SSEEvent.start total_chunks) =>
    ({ p with totalChunks := total_chunks },
     [Effect.toast ("Streaming " ++ toString total_chunks ++ " chunks...") ToastType.info])
  | Except.ok (SSEEvent.chunk audio sample_rate) =>
    match addChunk env p audio sample_rate with
    | (p1, effects, none) => (p1, effects)
    | (p1, effects, some message) => (p1, effects ++ catchSSE message)
  | Except.ok SSEEvent.done =>
    match finalize env p with
    | (p1, effects, none) => (p1, effects ++ [Effect.toast "Generation complete!" ToastType.success])
    | (p1, effects, some message) => (p1, effects ++ catchSSE message)
  | Except.ok (SSEEvent.error error) =>
    (p, Effect.consoleError "[Streaming] Server error:" :: catchSSE error)
  | Except.ok SSEEvent.other => (p, [])

/-- The body of `for (const line of lines)`: only a line with `line.startsWith('data: ')`
is parsed, from `line.slice(6)`. -/
def handleLine (env : Env) (s : Player × List Effect) (line : List Char) : Player × List Effect :=
  if "data: ".data.isPrefixOf line then
    let r := handleData env s.1 (line.drop 6)
    (r.1, s.2 ++ r.2)
  else s

/-- The `while (true)` loop over the fragments returned by `reader.read()` and decoded
to text: append to `buffer`, split, keep `lines.pop() || ''`, handle the other lines. The
result is the state after the last fragment and the text left in `buffer`. -/
def readLoop {σ : Type} (handle : σ → List Char → σ) : σ → List Char → List (List Char) → σ × List Char
  | s, buffer, [] => (s, buffer)
  | s, buffer, decoded :: rest =>
    let lines := splitNewline (buffer ++ decoded)
    let buffer1 := (lines.getLast?).getD []
    readLoop handle (lines.dropLast.foldl handle s) buffer1 rest

/-- What `fetch` and the reader deliver to one call of `generateWithStreaming`. -/
inductive Response where
  /-- The promise of `fetch` is rejected with this message. -/
  | fetchFailed (message : String)
  /-- The response has `ok` false. -/
  | notOk
  /-- The reader yields these fragments and then reports `done` (`failure = none`) or
  rejects with a message. -/
  | body (fragments : List (List Char)) (failure : Option String)

/-- The outer `catch (error)`: the toast and `streamingPlayer.stop()`. -/
def catchFetch (env : Env) (s : Player × List Effect) (message : String) : Player × List Effect :=
  (stop env.dom s.1, s.2 ++ [Effect.consoleError "[Streaming] Fetch error:",
                             Effect.toast message ToastType.error])

/-- The function `generateWithStreaming(prefix, endpoint, requestBody)`: the new player at
the end of the call and everything shown during it. -/
def generateWithStreaming (env : Env) (response : Response) : Player × List Effect :=
  let streamingPlayer := init env.dom env.newAudioContext env.performanceNow Player.new
  if !env.dom.generateBtn then (streamingPlayer, [])
  else
    match response with
    | Response.fetchFailed message => catchFetch env (streamingPlayer, []) message
    | Response.notOk => catchFetch env (streamingPlayer, []) "Streaming request failed"
    | Response.body fragments failure =>
      let s := (readLoop (handleLine env) (streamingPlayer, []) [] fragments).1
      match failure with
      | none => s
      | some message => catchFetch env s message

/-! ## Lines of the stream -/

/-- The lines of a text that end in a newline: all pieces of the split but the last. -/
def terminatedLines (text : List Char) : List (List Char) := (splitNewline text).dropLast

/-- The text after the last newline: the last piece of the split. -/
def unterminatedTail (text : List Char) : List Char := ((splitNewline text).getLast?).getD []

/-- The payloads handed to `JSON.parse`: `line.slice(6)` of the lines with
`line.startsWith('data: ')`. -/
def dataPayloads (lines : List (List Char)) : List (List Char) :=
  (lines.filter (fun line => "data: ".data.isPrefixOf line)).map (List.drop 6)

/-- One event payload handled on a session state: the player moves on and what is shown
is appended. -/
def handlePayload (env : Env) (s : Player × List Effect) (payload : List Char) :
    Player × List Effect :=
  ((handleData env s.1 payload).1, s.2 ++ (handleData env s.1 payload).2)


/-! ## A concrete session, for evaluating the code -/

/-- One frame of silence on one channel at 24000 Hz. -/
def monoFrame : AudioBuffer := { sampleRate := 24000, length := 1, channels := [[0]] }

/-- Two frames on one channel at 24000 Hz. -/
def monoPair : AudioBuffer := { sampleRate := 24000, length := 2, channels := [[1 / 2, -1]] }

/-- One frame on three channels at 24000 Hz. -/
def threeChannelFrame : AudioBuffer :=
  { sampleRate := 24000, length := 1, channels := [[0], [0], [0]] }

/-- The line `data: ` followed by a `start` record announcing three chunks. -/
def startLine : List Char := "data: \x7b\"type\":\"start\",\"total_chunks\":3\x7d".data

/-- The line of a `chunk` record whose audio is `AAAA`. -/
def chunkLineA : List Char :=
  "data: \x7b\"type\":\"chunk\",\"chunk_index\":0,\"audio\":\"AAAA\",\"sample_rate\":24000\x7d".data

/-- The line of a `done` record. -/
def doneLine : List Char := "data: \x7b\"type\":\"done\"\x7d".data

/-- The line of an `error` record with the message `boom`. -/
def errorLine : List Char := "data: \x7b\"type\":\"error\",\"error\":\"boom\"\x7d".data

/-- A line cut in the middle of its record. -/
def brokenLine : List Char := "data: \x7b\"type\":\"chu".data

/-- The outcome of `JSON.parse` on the payloads of the lines above, and a syntax error on
every other text. -/
def fixtureParse (payload : List Char) : Except String SSEEvent :=
  if payload = startLine.drop 6 then Except.ok (SSEEvent.start 3)
  else if payload = chunkLineA.drop 6 then Except.ok (SSEEvent.chunk "AAAA".data 24000)
  else if payload = doneLine.drop 6 then Except.ok SSEEvent.done
  else if payload = errorLine.drop 6 then Except.ok (SSEEvent.error "boom")
  else Except.error "Unexpected token"

/-- Whether `atob` accepts a text: without ASCII whitespace, and without one or two
final `=` when the length is a multiple of four, it has only letters, digits, `+` and
`/`, and its length is not one more than a multiple of four. -/
def isBase64 (text : List Char) : Bool :=
  let text := text.filter (fun c => !(c = ' ' || c = '\t' || c = '\n' || c = '\x0c' || c = '\r'))
  let text :=
    if text.length % 4 = 0 then
      if ['=', '='].isSuffixOf text then text.dropLast.dropLast
      else if ['='].isSuffixOf text then text.dropLast
      else text
    else text
  decide (text.length % 4 ≠ 1) &&
    text.all (fun c => c.isAlphanum || c = '+' || c = '/')

/-- One frame on two channels at 24000 Hz. -/
def stereoFrame : AudioBuffer :=
  { sampleRate := 24000, length := 1, channels := [[1 / 2], [-1 / 2]] }

/-- The decoder of the concrete session: a payload that is not base64 makes `atob` throw;
`AAAA` is one frame of silence, `BBBB` two frames, `CCCC` one frame on two channels;
every other payload is rejected by `decodeAudioData`. -/
def fixtureDecode (base64Audio : List Char) : DecodeOutcome :=
  if !isBase64 base64Audio then DecodeOutcome.invalidBase64 "InvalidCharacterError"
  else if base64Audio = "AAAA".data then DecodeOutcome.decoded monoFrame
  else if base64Audio = "BBBB".data then DecodeOutcome.decoded monoPair
  else if base64Audio = "CCCC".data then DecodeOutcome.decoded stereoFrame
  else DecodeOutcome.rejected

/-- A page on which every element exists. -/
def fullDom : Dom :=
  { generateBtn := true, playPauseBtn := true, streamingWaveform := true, audioPlayer := true,
    metricTime := true, metricDuration := true, metricRtf := true }

/-- The environment of the concrete session: `performance.now()` reads 0 in `init()`,
100 ms more at each update of the progress and 1500 in `finalize()`; no Number that is
formatted reaches `10 ^ 21`. -/
def fixtureEnv : Env :=
  { parse := fixtureParse, decode := fixtureDecode, dom := fullDom,
    newAudioContext := { suspended := true, currentTime := 0 }, performanceNow := 0,
    progressNow := fun receivedChunks => 100 * receivedChunks, finalizeNow := 1500,
    numberToString := fun _ => [] }

/-! ## Reading the record of effects -/

/-- The notifications shown to the user: the calls of `showToast`, in order. -/
def toasts (effects : List Effect) : List (String × ToastType) :=
  effects.filterMap (fun e => match e with
    | Effect.toast message type => some (message, type)
    | _ => none)

/-- The tags of the calls of `console.error`, in order. -/
def consoleErrors (effects : List Effect) : List String :=
  effects.filterMap (fun e => match e with
    | Effect.consoleError tag => some tag
    | _ => none)

/-! ## Sequences of chunk events -/

/-- The buffer that the payload of a chunk decodes to, when `atob` and `decodeAudioData`
both succeed on it. -/
def decodedBuffer (env : Env) (base64Audio : List Char) : Option AudioBuffer :=
  match env.decode base64Audio with
  | DecodeOutcome.decoded audioBuffer => some audioBuffer
  | _ => none

/-- The player after a sequence of calls of `addChunk`, one per chunk event, each given
as the pair of its `audio` and `sample_rate`. -/
def addChunks (env : Env) (p : Player) (chunks : List (List Char × Nat)) : Player :=
  chunks.foldl (fun p chunk => (addChunk env p chunk.1 chunk.2).1) p

/-- The samples of a buffer on one channel, empty when the channel does not exist. -/
def channelSamples (buffer : AudioBuffer) (channel : Nat) : List ℚ :=
  (buffer.getChannelData channel).getD []


/-! ## Pause, resume, the progress timer and the end of a chunk -/

/-- The method `pause()`. Suspending the context also suspends its clock. -/
def pause (p : Player) : Player :=
  if p.isPaused then p
  else
    match p.audioContext with
    | none => p
    | some ctx =>
      let p := { p with isPaused := true }
      let p := if p.isPlaying && decide (p.playbackStartTime > (0 : ℚ)) then
          { p with pausedAtPosition := p.playedDuration + (ctx.currentTime - p.playbackStartTime) }
        else p
      let p := { p with audioContext := some { ctx with suspended := true } }
      stopWaveformAnimation p

/-- The method `resume()`. -/
def resume (dom : Dom) (p : Player) : Player :=
  if !p.isPaused then p
  else
    match p.audioContext with
    | none => p
    | some ctx =>
      let p := { p with isPaused := false }
      let p := { p with audioContext := some { ctx with suspended := false } }
      startWaveformAnimation dom p

/-- One run of the callback installed by `startProgressUpdates()`: the arguments
`(currentPosition, this.totalDuration)` it passes to `updateStreamingUI`, or `none` when
it returns without updating the display. -/
def progressTick (p : Player) : Option (ℚ × ℚ) :=
  if p.isPaused then none
  else if p.isPlaying && decide (p.playbackStartTime > (0 : ℚ)) then
    match p.audioContext with
    | none => none
    | some ctx =>
      let elapsed := ctx.currentTime - p.playbackStartTime
      let currentPosition := p.playedDuration + elapsed
      some (currentPosition, p.totalDuration)
  else none

/-- The position shown by the progress display after the timer has run once at each of
the given readings of the output clock, starting from the value `shown`. -/
def displayAfterTicks (p : Player) : List ℚ → Option ℚ → Option ℚ
  | [], shown => shown
  | clock :: rest, shown =>
    let ticked := { p with audioContext := p.audioContext.map (fun ctx => { ctx with currentTime := clock }) }
    match progressTick ticked with
    | none => displayAfterTicks p rest shown
    | some update => displayAfterTicks p rest (some update.1)

/-- The callback `source.onended` of a source whose buffer lasts `bufferDuration`. With no
audio context the read of `currentTime` throws; the result is then the player as the
exception leaves it. -/
def onended (dom : Dom) (bufferDuration : ℚ) (p : Player) : Player :=
  let p := { p with playedDuration := p.playedDuration + bufferDuration }
  match p.audioContext with
  | none => p
  | some ctx => playNext dom { p with playbackStartTime := ctx.currentTime }

/-- The output clock moves on by `dt` seconds; it stands still while the context is
suspended. -/
def advanceClock (dt : ℚ) (p : Player) : Player :=
  match p.audioContext with
  | none => p
  | some ctx =>
    if ctx.suspended then p
    else { p with audioContext := some { ctx with currentTime := ctx.currentTime + dt } }

/-- Whether the platform may deliver `onended` for the current source: the source was
stopped, or the output clock has reached the end of its buffer. -/
def endedDue (p : Player) : Bool :=
  match p.currentSource, p.audioContext with
  | some source, some ctx =>
    source.stopped || decide (source.startAt + source.buffer.duration ≤ ctx.currentTime)
  | _, _ => false

/-- What can happen to a player during a session. -/
inductive Action where
  /-- A chunk event: `addChunk(audio, sample_rate)`. -/
  | chunk (audio : List Char) (sample_rate : Nat)
  /-- The platform delivers `onended` of the current source. -/
  | ended
  /-- The output clock moves on. -/
  | advance (dt : ℚ)
  /-- The user pauses. -/
  | pause
  /-- The user resumes. -/
  | resume
  /-- The method `stop()` is called. -/
  | stop

/-- One action on the player. `ended` has an effect only when it is due. -/
def step (env : Env) (p : Player) : Action → Player
  | Action.chunk audio sample_rate => (addChunk env p audio sample_rate).1
  | Action.ended =>
    match p.currentSource with
    | none => p
    | some source => if endedDue p then onended env.dom source.buffer.duration p else p
  | Action.advance dt => advanceClock dt p
  | Action.pause => pause p
  | Action.resume => resume env.dom p
  | Action.stop => stop env.dom p

/-- The player after a sequence of actions. -/
def runActions (env : Env) (p : Player) (actions : List Action) : Player :=
  actions.foldl (step env) p

/-- One second of silence on one channel at 24000 Hz. -/
def oneSecond : AudioBuffer :=
  { sampleRate := 24000, length := 24000, channels := [List.replicate 24000 0] }

/-- An environment in which every chunk decodes to one second of audio and the context
is created running with its clock at zero; `performance.now()` reads as in `fixtureEnv`. -/
def timingEnv : Env :=
  { parse := fixtureParse, decode := fun _ => DecodeOutcome.decoded oneSecond, dom := fullDom,
    newAudioContext := { suspended := false, currentTime := 0 }, performanceNow := 0,
    progressNow := fun receivedChunks => 100 * receivedChunks, finalizeNow := 1500,
    numberToString := fun _ => [] }

/-- The player of the timing scenarios, right after `init()`. -/
def timingStart : Player :=
  init timingEnv.dom timingEnv.newAudioContext timingEnv.performanceNow Player.new

/-! ## Reading a WAV file back -/

/-- The signed 16-bit integer that two bytes denote, low byte first, as
`view.getInt16(_, true)` reads it. -/
def int16Value (bytes : List Nat) : ℤ :=
  if leValue bytes < 32768 then (leValue bytes : ℤ) else (leValue bytes : ℤ) - 65536

/-- The 16-bit integers of a data section, two bytes each. -/
def int16Values : List Nat → List ℤ
  | low :: high :: rest => int16Value [low, high] :: int16Values rest
  | _ => []

/-- The decoding of one 16-bit value that the round-trip property names: divided by
32768 if negative, else by 32767. -/
def specDequantize (value : ℤ) : ℚ :=
  if value < 0 then (value : ℚ) / 32768 else (value : ℚ) / 32767

/-- The decoder that the round-trip property names, for one channel: the data section
after the 44 bytes of header is read as 16-bit values, each is divided as in
`specDequantize`, and frame `i` of the channel is the value at index
`i * numChannels + channel`. -/
def specDecodeChannel (numChannels channel : Nat) (wav : List Nat) : List ℚ :=
  let decoded := (int16Values (wav.drop 44)).map specDequantize
  (List.range (decoded.length / numChannels)).map
    (fun frame => decoded.getD (frame * numChannels + channel) 0)

/-! ## The global player, the phases of `addChunk`, and runs of a session -/

/-- The players that exist on the page: the value of the global `streamingPlayer`, and the
players that the global no longer refers to. Those stay alive through the callbacks of
their sources and timers. -/
structure Page where
  streamingPlayer : Option Player
  replaced : List Player

/-- A call of `generateWithStreaming` on the page. The assignment
`streamingPlayer = new StreamingAudioPlayer(prefix)` overwrites the global; no method of
the player it referred to is called. -/
def startSession (env : Env) (page : Page) (response : Response) : Page × List Effect :=
  let run := generateWithStreaming env response
  ({ streamingPlayer := some run.1,
     replaced := page.replaced ++ page.streamingPlayer.toList }, run.2)

/-- The part of `addChunk` that runs before `await decodeAudioData` suspends it, as far as
it changes the player. -/
def addChunkStart (p : Player) (sampleRate : Nat) : Player :=
  { p with sampleRate := sampleRate, receivedChunks := p.receivedChunks + 1 }

/-- The part of `addChunk` that runs once the outcome of `atob` and `decodeAudioData` is
known, on the player as it is at that moment. -/
def addChunkFinish (env : Env) (p : Player) (outcome : DecodeOutcome) :
    Player × List Effect × Option String :=
  match outcome with
  | DecodeOutcome.invalidBase64 message => (p, [], some message)
  | outcome =>
    let decoded : Option AudioBuffer :=
      match p.audioContext, outcome with
      | some _, DecodeOutcome.decoded audioBuffer => some audioBuffer
      | _, _ => none
    match decoded with
    | none => (p, Effect.consoleError "Error decoding audio chunk:" :: updateProgress env p, none)
    | some audioBuffer =>
      let p := { p with allBuffers := p.allBuffers ++ [audioBuffer],
                        totalDuration := p.totalDuration + audioBuffer.duration,
                        audioQueue := p.audioQueue ++ [audioBuffer] }
      let p := if !p.isPlaying then playNext env.dom p else p
      (p, updateProgress env p, none)

/-- Whether an action is a call of `stop()`. -/
def Action.isStop : Action → Bool
  | Action.stop => true
  | _ => false

/-- Whether an action is a chunk event. -/
def Action.isChunk : Action → Bool
  | Action.chunk _ _ => true
  | _ => false

/-- The buffer that an action adds to the retained buffers: the decoded payload of a
chunk event. -/
def Action.retained (env : Env) : Action → Option AudioBuffer
  | Action.chunk audio _ => decodedBuffer env audio
  | _ => none

/-- The player of a new session: constructed and initialised as `generateWithStreaming`
does. -/
def sessionStart (env : Env) : Player :=
  init env.dom env.newAudioContext env.performanceNow Player.new

/-- The fields that record what a session has started, queued, retained and counted. -/
def sessionCore (p : Player) : List Segment × ℚ × List AudioBuffer × List AudioBuffer × Nat :=
  (p.scheduled, p.nextStartTime, p.audioQueue, p.allBuffers, p.receivedChunks)

/-- No two started segments overlap: each one starts no earlier than the one before it
ends, and none ends after `nextStartTime`. -/
def NoOverlap (p : Player) : Prop :=
  List.Chain' (fun s t : Segment => s.startAt + s.buffer.duration ≤ t.startAt) p.scheduled
  ∧ ∀ s ∈ p.scheduled, s.startAt + s.buffer.duration ≤ p.nextStartTime

/-- The chunks started so far, in the order they were started, followed by the chunks
still waiting in the queue, are the retained chunks. -/
def OrderKept (p : Player) : Prop :=
  p.scheduled.map Segment.buffer ++ p.audioQueue = p.allBuffers

/-- A sequence of calls of `playNext`, each made at some reading of the output clock after
some chunks have been added to the queue. -/
def playNextCalls (dom : Dom) : Player → List (ℚ × List AudioBuffer) → Player
  | p, [] => p
  | p, (clock, arrived) :: rest =>
    playNextCalls dom
      (playNext dom
        { p with audioContext := p.audioContext.map (fun ctx => { ctx with currentTime := clock }),
                 audioQueue := p.audioQueue ++ arrived }) rest

/-! ## Sessions that show the rounding of durations and a mix of channel counts -/

/-- A tenth of a second of silence on one channel at 24000 Hz: 2400 frames. -/
def tenthSecond : AudioBuffer :=
  { sampleRate := 24000, length := 2400, channels := [List.replicate 2400 0] }

/-- A fifth of a second of silence on one channel at 24000 Hz: 4800 frames. -/
def fifthSecond : AudioBuffer :=
  { sampleRate := 24000, length := 4800, channels := [List.replicate 4800 0] }

/-- The environment of the concrete session with another decoder: `AAAA` is a tenth of
a second of silence, `BBBB` a fifth of a second. -/
def roundingEnv : Env :=
  { fixtureEnv with
    decode := fun base64Audio =>
      if base64Audio = "AAAA".data then DecodeOutcome.decoded tenthSecond
      else if base64Audio = "BBBB".data then DecodeOutcome.decoded fifthSecond
      else fixtureDecode base64Audio }

/-! # Properties -/

/-! ## Splitting the stream into lines -/

theorem splitNewline_ne_nil (text : List Char) : splitNewline text ≠ [] := by
  induction text with
  | nil => simp [splitNewline]
  | cons c rest ih =>
    unfold splitNewline
    split
    · simp
    · split <;> simp

theorem splitNewline_cons_newline (rest : List Char) :
    splitNewline ('\n' :: rest) = [] :: splitNewline rest := by
  simp [splitNewline]

theorem splitNewline_cons_other (c : Char) (rest : List Char) (hc : c ≠ '\n')
    (piece : List Char) (pieces : List (List Char)) (h : splitNewline rest = piece :: pieces) :
    splitNewline (c :: rest) = (c :: piece) :: pieces := by
  rw [splitNewline, if_neg hc, h]

theorem splitNewline_append (a b : List Char) :
    splitNewline (a ++ b) =
      (splitNewline a).dropLast ++ splitNewline (((splitNewline a).getLast?).getD [] ++ b) := by
  induction a with
  | nil => simp [splitNewline]
  | cons c rest ih =>
    have hne := splitNewline_ne_nil rest
    by_cases hc : c = '\n'
    · subst hc
      rw [List.cons_append, splitNewline_cons_newline, splitNewline_cons_newline, ih]
      cases hsp : splitNewline rest with
      | nil => exact absurd hsp hne
      | cons piece pieces => simp [List.dropLast, List.getLast?_cons_cons]
    · cases hsp : splitNewline rest with
      | nil => exact absurd hsp hne
      | cons piece pieces =>
        rw [hsp] at ih
        cases pieces with
        | nil =>
          simp only [List.dropLast_single, List.nil_append, List.getLast?_singleton,
            Option.getD_some] at ih
          rw [splitNewline_cons_other c rest hc piece [] hsp]
          simp only [List.dropLast_single, List.nil_append, List.getLast?_singleton,
            Option.getD_some, List.cons_append]
          cases hsp2 : splitNewline (piece ++ b) with
          | nil => exact absurd hsp2 (splitNewline_ne_nil _)
          | cons q qs =>
            rw [splitNewline_cons_other c (rest ++ b) hc q qs (by rw [ih, hsp2])]
            rw [splitNewline_cons_other c (piece ++ b) hc q qs hsp2]
        | cons piece2 pieces2 =>
          rw [splitNewline_cons_other c rest hc piece (piece2 :: pieces2) hsp]
          simp only [List.dropLast_cons₂, List.getLast?_cons_cons, List.cons_append] at ih ⊢
          exact splitNewline_cons_other c (rest ++ b) hc _ _ ih

theorem splitNewline_pieces (text : List Char) :
    ∀ piece ∈ splitNewline text, '\n' ∉ piece := by
  induction text with
  | nil => simp [splitNewline]
  | cons c rest ih =>
    by_cases hc : c = '\n'
    · subst hc
      rw [splitNewline_cons_newline]
      intro piece hp
      rcases List.mem_cons.mp hp with h | h
      · subst h; simp
      · exact ih piece h
    · cases hsp : splitNewline rest with
      | nil => exact absurd hsp (splitNewline_ne_nil rest)
      | cons q qs =>
        rw [splitNewline_cons_other c rest hc q qs hsp]
        rw [hsp] at ih
        intro piece hp
        rcases List.mem_cons.mp hp with h | h
        · subst h
          have hq := ih q (List.mem_cons_self _ _)
          intro hmem
          rcases List.mem_cons.mp hmem with h1 | h1
          · exact hc h1.symm
          · exact hq h1
        · exact ih piece (List.mem_cons_of_mem _ h)

theorem splitNewline_of_not_mem (text : List Char) (h : '\n' ∉ text) :
    splitNewline text = [text] := by
  induction text with
  | nil => simp [splitNewline]
  | cons c rest ih =>
    have hc : c ≠ '\n' := fun hc => h (by simp [hc])
    have hrest : '\n' ∉ rest := fun hm => h (List.mem_cons_of_mem _ hm)
    exact splitNewline_cons_other c rest hc rest [] (ih hrest)

theorem unterminatedTail_no_newline (text : List Char) : '\n' ∉ unterminatedTail text := by
  unfold unterminatedTail
  cases hl : (splitNewline text).getLast? with
  | none => simp
  | some piece =>
    exact splitNewline_pieces text piece (List.mem_of_getLast?_eq_some hl)

theorem splitNewline_rebuild (text : List Char) :
    text = ((terminatedLines text).map (fun line => line ++ ['\n'])).flatten
      ++ unterminatedTail text := by
  unfold terminatedLines unterminatedTail
  induction text with
  | nil => simp [splitNewline]
  | cons c rest ih =>
    cases hsp : splitNewline rest with
    | nil => exact absurd hsp (splitNewline_ne_nil rest)
    | cons q qs =>
      rw [hsp] at ih
      by_cases hc : c = '\n'
      · subst hc
        rw [splitNewline_cons_newline, hsp]
        simp only [List.dropLast_cons₂, List.getLast?_cons_cons, List.map_cons,
          List.flatten_cons, List.nil_append, List.cons_append]
        rw [← ih]
      · rw [splitNewline_cons_other c rest hc q qs hsp]
        cases qs with
        | nil =>
          simp only [List.dropLast_single, List.map_nil, List.flatten_nil, List.nil_append,
            List.getLast?_singleton, Option.getD_some] at ih ⊢
          rw [← ih]
        | cons q2 qs2 =>
          simp only [List.dropLast_cons₂, List.getLast?_cons_cons, List.map_cons,
            List.flatten_cons, List.cons_append, List.append_assoc] at ih ⊢
          rw [← ih]

theorem readLoop_eq {σ : Type} (handle : σ → List Char → σ) (fragments : List (List Char)) :
    ∀ (s : σ) (buffer : List Char), '\n' ∉ buffer →
      readLoop handle s buffer fragments =
        ((terminatedLines (buffer ++ fragments.flatten)).foldl handle s,
         unterminatedTail (buffer ++ fragments.flatten)) := by
  induction fragments with
  | nil =>
    intro s buffer hb
    simp [readLoop, terminatedLines, unterminatedTail, splitNewline_of_not_mem buffer hb]
  | cons decoded rest ih =>
    intro s buffer _
    have hb1 := unterminatedTail_no_newline (buffer ++ decoded)
    unfold unterminatedTail at hb1
    simp only [readLoop, ih _ _ hb1, List.flatten_cons, terminatedLines, unterminatedTail]
    rw [← List.append_assoc, splitNewline_append (buffer ++ decoded) rest.flatten]
    have hne := splitNewline_ne_nil
      (((splitNewline (buffer ++ decoded)).getLast?).getD [] ++ rest.flatten)
    rw [List.dropLast_append_of_ne_nil _ hne, List.foldl_append,
      List.getLast?_append_of_ne_nil _ hne]

theorem foldl_handleLine (env : Env) (lines : List (List Char)) :
    ∀ s : Player × List Effect,
      lines.foldl (handleLine env) s = (dataPayloads lines).foldl (handlePayload env) s := by
  induction lines with
  | nil => intro s; rfl
  | cons line rest ih =>
    intro s
    by_cases hp : "data: ".data.isPrefixOf line = true
    · simp only [List.foldl_cons, dataPayloads, List.filter_cons, hp, if_true, List.map_cons]
      rw [ih]
      simp [handleLine, hp, handlePayload, dataPayloads]
    · simp only [List.foldl_cons, dataPayloads, List.filter_cons, hp, if_false]
      rw [ih]
      simp [handleLine, hp, dataPayloads]

/-- C1: for every list of read fragments, the read loop of `generateWithStreaming` handles
exactly the newline-terminated lines of the concatenated text, in order, whatever the
handler and however the text is cut: the result depends on the fragments only through
their concatenation. Those lines and the unterminated tail rebuild the text and hold no
newline. With the handler of the source, only the payloads of the lines that start with
`data: ` reach the event handling, in the same order. -/
theorem readLoop_lines_independent_of_cuts {σ : Type} (handle : σ → List Char → σ) (s0 : σ)
    (env : Env) (s : Player × List Effect) (fragments : List (List Char)) :
    readLoop handle s0 [] fragments =
        ((terminatedLines fragments.flatten).foldl handle s0, unterminatedTail fragments.flatten)
    ∧ (readLoop (fun handed line => handed ++ [line]) [] [] fragments).1 =
        terminatedLines fragments.flatten
    ∧ readLoop (handleLine env) s [] fragments =
        ((dataPayloads (terminatedLines fragments.flatten)).foldl (handlePayload env) s,
         unterminatedTail fragments.flatten)
    ∧ fragments.flatten =
        ((terminatedLines fragments.flatten).map (fun line => line ++ ['\n'])).flatten
          ++ unterminatedTail fragments.flatten
    ∧ (∀ line ∈ terminatedLines fragments.flatten, '\n' ∉ line)
    ∧ '\n' ∉ unterminatedTail fragments.flatten := by
  have hnil : '\n' ∉ ([] : List Char) := by simp
  refine ⟨?_, ?_, ?_, splitNewline_rebuild _, ?_, unterminatedTail_no_newline _⟩
  · simpa using readLoop_eq handle fragments s0 [] hnil
  · have h := readLoop_eq (fun (handed : List (List Char)) line => handed ++ [line])
      fragments [] [] hnil
    rw [h]
    simp only [List.nil_append]
    generalize terminatedLines fragments.flatten = lines
    have key : ∀ (acc : List (List Char)),
        lines.foldl (fun handed line => handed ++ [line]) acc = acc ++ lines := by
      induction lines with
      | nil => intro acc; simp
      | cons l ls ih => intro acc; simp [ih]
    simpa using key []
  · have h := readLoop_eq (handleLine env) fragments s [] hnil
    rw [h, foldl_handleLine]
    simp
  · intro line hl
    exact splitNewline_pieces _ line (List.mem_of_mem_dropLast hl)

/-! ## Events of the stream -/

theorem handleLine_shown (env : Env) (p : Player) (shown : List Effect) (line : List Char) :
    handleLine env (p, shown) line =
      ((handleLine env (p, []) line).1, shown ++ (handleLine env (p, []) line).2) := by
  unfold handleLine
  split <;> simp

theorem foldl_handleLine_shown (env : Env) (lines : List (List Char)) :
    ∀ (p : Player) (shown : List Effect),
      lines.foldl (handleLine env) (p, shown) =
        ((lines.foldl (handleLine env) (p, [])).1,
         shown ++ (lines.foldl (handleLine env) (p, [])).2) := by
  induction lines with
  | nil => intro p shown; simp
  | cons line rest ih =>
    intro p shown
    simp only [List.foldl_cons]
    rw [handleLine_shown env p shown line, ih,
      ih (handleLine env (p, []) line).1 (handleLine env (p, []) line).2]
    simp [List.append_assoc]

theorem handleLine_parse_error (env : Env) (s : Player × List Effect) (line : List Char)
    (message : String) (hline : "data: ".data.isPrefixOf line = true)
    (hparse : env.parse (line.drop 6) = Except.error message) :
    handleLine env s line = (s.1, s.2 ++ catchSSE message) := by
  simp [handleLine, hline, handleData, hparse]

theorem handleLine_error_event (env : Env) (s : Player × List Effect) (line : List Char)
    (message : String) (hline : "data: ".data.isPrefixOf line = true)
    (hparse : env.parse (line.drop 6) = Except.ok (SSEEvent.error message)) :
    handleLine env s line =
      (s.1, s.2 ++ Effect.consoleError "[Streaming] Server error:" :: catchSSE message) := by
  simp [handleLine, hline, handleData, hparse]

set_option maxRecDepth 4000 in
/-- C2, evaluated on the code: a stream carrying a good chunk, then an `error` record,
then a `start` record. The `error` record raises no notification and does not stop the
player: the exception it throws is caught by the `catch` of its own line and logged, and
the `start` record after it is still handled. The same chunk followed by a failure of the
transport does raise one error notification and stops the player. -/
theorem error_event_is_swallowed :
    (let run := generateWithStreaming fixtureEnv
        (Response.body [chunkLineA ++ ['\n'] ++ errorLine ++ ['\n'] ++ startLine ++ ['\n']] none)
     toasts run.2 = [("Streaming 3 chunks...", ToastType.info)]
     ∧ consoleErrors run.2 = ["[Streaming] Server error:", "[Streaming] Error parsing SSE:"]
     ∧ run.1.isPlaying = true
     ∧ run.1.currentSource.map (fun source => source.stopped) = some false
     ∧ run.1.totalChunks = 3)
    ∧ (let run := generateWithStreaming fixtureEnv (Response.body [chunkLineA ++ ['\n']] (some "boom"))
       toasts run.2 = [("boom", ToastType.error)]
       ∧ run.1.isPlaying = false
       ∧ run.1.currentSource.map (fun source => source.stopped) = some true) := by
  with_unfolding_all decide

/-- C3: a line that starts with `data: ` and whose payload does not parse leaves the
player as it was and adds only what the `catch` logs: nothing when the message is
`Unexpected end of JSON input`, one `console.error` otherwise, and never a toast. The
lines after it are handled as if it were absent: the run over `before`, the bad line and
`after` ends with the same player as the run over `before` and `after`, and shows the
same effects with the log entry of the bad line put in between. -/
theorem malformed_line_is_skipped (env : Env) (s : Player × List Effect)
    (before after : List (List Char)) (line : List Char) (message : String)
    (hline : "data: ".data.isPrefixOf line = true)
    (hparse : env.parse (line.drop 6) = Except.error message) :
    handleLine env (before.foldl (handleLine env) s) line =
        ((before.foldl (handleLine env) s).1, (before.foldl (handleLine env) s).2 ++ catchSSE message)
    ∧ toasts (catchSSE message) = []
    ∧ consoleErrors (catchSSE message) =
        (if message = "Unexpected end of JSON input" then []
         else ["[Streaming] Error parsing SSE:"])
    ∧ (before ++ line :: after).foldl (handleLine env) s =
        ((after.foldl (handleLine env) ((before.foldl (handleLine env) s).1, [])).1,
         (before.foldl (handleLine env) s).2 ++ catchSSE message ++
           (after.foldl (handleLine env) ((before.foldl (handleLine env) s).1, [])).2)
    ∧ (before ++ after).foldl (handleLine env) s =
        ((after.foldl (handleLine env) ((before.foldl (handleLine env) s).1, [])).1,
         (before.foldl (handleLine env) s).2 ++
           (after.foldl (handleLine env) ((before.foldl (handleLine env) s).1, [])).2) := by
  have hbad := handleLine_parse_error env (before.foldl (handleLine env) s) line message hline hparse
  refine ⟨hbad, ?_, ?_, ?_, ?_⟩
  · unfold catchSSE; split <;> simp [toasts]
  · unfold catchSSE; split <;> simp_all [consoleErrors]
  · rw [List.foldl_append, List.foldl_cons, hbad, foldl_handleLine_shown]
  · rw [List.foldl_append]
    conv_lhs => rw [show before.foldl (handleLine env) s =
      ((before.foldl (handleLine env) s).1, (before.foldl (handleLine env) s).2) from rfl]
    rw [foldl_handleLine_shown]

/-- Witness of C3: a record cut in the middle, between a `start` line and a `done` line. -/
theorem malformed_line_is_skipped_witness :
    handleLine fixtureEnv ([startLine].foldl (handleLine fixtureEnv) (Player.new, [])) brokenLine =
        (([startLine].foldl (handleLine fixtureEnv) (Player.new, [])).1,
         ([startLine].foldl (handleLine fixtureEnv) (Player.new, [])).2 ++ catchSSE "Unexpected token")
    ∧ toasts (catchSSE "Unexpected token") = []
    ∧ consoleErrors (catchSSE "Unexpected token") =
        (if "Unexpected token" = "Unexpected end of JSON input" then []
         else ["[Streaming] Error parsing SSE:"])
    ∧ ([startLine] ++ brokenLine :: [doneLine]).foldl (handleLine fixtureEnv) (Player.new, []) =
        (([doneLine].foldl (handleLine fixtureEnv)
            (([startLine].foldl (handleLine fixtureEnv) (Player.new, [])).1, [])).1,
         ([startLine].foldl (handleLine fixtureEnv) (Player.new, [])).2 ++ catchSSE "Unexpected token" ++
           ([doneLine].foldl (handleLine fixtureEnv)
            (([startLine].foldl (handleLine fixtureEnv) (Player.new, [])).1, [])).2)
    ∧ ([startLine] ++ [doneLine]).foldl (handleLine fixtureEnv) (Player.new, []) =
        (([doneLine].foldl (handleLine fixtureEnv)
            (([startLine].foldl (handleLine fixtureEnv) (Player.new, [])).1, [])).1,
         ([startLine].foldl (handleLine fixtureEnv) (Player.new, [])).2 ++
           ([doneLine].foldl (handleLine fixtureEnv)
            (([startLine].foldl (handleLine fixtureEnv) (Player.new, [])).1, [])).2) :=
  malformed_line_is_skipped fixtureEnv (Player.new, []) [startLine] [doneLine] brokenLine
    "Unexpected token" (by decide) (by rfl)

/-! ## Chunks -/

theorem playNext_keeps (dom : Dom) (p : Player) :
    (playNext dom p).allBuffers = p.allBuffers
    ∧ (playNext dom p).totalDuration = p.totalDuration
    ∧ (playNext dom p).audioContext = p.audioContext
    ∧ (playNext dom p).receivedChunks = p.receivedChunks
    ∧ (playNext dom p).sampleRate = p.sampleRate := by
  obtain ⟨ctx, queue, _, _, _, _, _, _, _, _, _, _, _, _, _, _, _, _, _⟩ := p
  cases queue with
  | nil => simp [playNext]
  | cons buffer rest =>
    cases ctx with
    | none => simp [playNext]
    | some c =>
      simp only [playNext, startProgressUpdates, startWaveformAnimation]
      split_ifs <;> simp

theorem addChunk_rejected (env : Env) (p : Player) (base64Audio : List Char) (sampleRate : Nat)
    (h : env.decode base64Audio = DecodeOutcome.rejected) :
    addChunk env p base64Audio sampleRate =
      ({ p with sampleRate := sampleRate, receivedChunks := p.receivedChunks + 1 },
       Effect.consoleError "Error decoding audio chunk:" ::
         updateProgress env { p with sampleRate := sampleRate, receivedChunks := p.receivedChunks + 1 },
       none) := by
  unfold addChunk
  simp only [h]
  cases p.audioContext <;> rfl

theorem addChunk_decoded (env : Env) (p : Player) (base64Audio : List Char) (sampleRate : Nat)
    (ctx : AudioContext) (audioBuffer : AudioBuffer) (hctx : p.audioContext = some ctx)
    (h : env.decode base64Audio = DecodeOutcome.decoded audioBuffer) :
    (addChunk env p base64Audio sampleRate).1 =
      (let p1 := { p with sampleRate := sampleRate, receivedChunks := p.receivedChunks + 1,
                          allBuffers := p.allBuffers ++ [audioBuffer],
                          totalDuration := p.totalDuration + audioBuffer.duration,
                          audioQueue := p.audioQueue ++ [audioBuffer] }
       if !p1.isPlaying then playNext env.dom p1 else p1)
    ∧ (addChunk env p base64Audio sampleRate).2.2 = none := by
  unfold addChunk
  simp [h, hctx]

theorem addChunk_invalidBase64 (env : Env) (p : Player) (base64Audio : List Char)
    (sampleRate : Nat) (message : String)
    (h : env.decode base64Audio = DecodeOutcome.invalidBase64 message) :
    addChunk env p base64Audio sampleRate =
      ({ p with sampleRate := sampleRate, receivedChunks := p.receivedChunks + 1 }, [],
       some message) := by
  unfold addChunk
  simp only [h]

theorem addChunk_no_context (env : Env) (p : Player) (base64Audio : List Char)
    (sampleRate : Nat) (hctx : p.audioContext = none) :
    (addChunk env p base64Audio sampleRate).1 =
      { p with sampleRate := sampleRate, receivedChunks := p.receivedChunks + 1 } := by
  unfold addChunk
  cases h : env.decode base64Audio <;> simp only [h, hctx]

theorem addChunk_counters (env : Env) (p : Player) (base64Audio : List Char)
    (rate rate0 received : Nat) :
    (addChunk env { p with sampleRate := rate0, receivedChunks := received } base64Audio rate).1 =
      { (addChunk env p base64Audio rate).1 with receivedChunks := received + 1 } := by
  obtain ⟨ctx, queue, playing, _, _, _, _, _, _, _, _, _, _, _, _, _, _, _, _⟩ := p
  cases h : env.decode base64Audio with
  | invalidBase64 message => simp [addChunk, h]
  | rejected => cases ctx <;> simp [addChunk, h]
  | decoded audioBuffer =>
    cases ctx with
    | none => simp [addChunk, h]
    | some c =>
      cases playing
      · cases queue <;>
          simp only [addChunk, h, playNext, startProgressUpdates, startWaveformAnimation,
            List.nil_append, List.cons_append, Bool.not_false, if_true] <;>
          split_ifs <;> simp
      · simp [addChunk, h]

theorem updateProgress_silent (env : Env) (p : Player) :
    toasts (updateProgress env p) = [] ∧ consoleErrors (updateProgress env p) = [] := by
  unfold updateProgress
  constructor <;> split_ifs <;> simp [toasts, consoleErrors]

theorem init_fields (dom : Dom) (fresh : AudioContext) (performanceNow : ℚ) (q : Player) :
    (∃ ctx, (init dom fresh performanceNow q).audioContext = some ctx)
    ∧ (init dom fresh performanceNow q).allBuffers = []
    ∧ (init dom fresh performanceNow q).totalDuration = 0
    ∧ (init dom fresh performanceNow q).receivedChunks = 0 := by
  unfold init showStreamingUI
  split_ifs <;> simp

theorem addChunk_retains (env : Env) (p : Player) (base64Audio : List Char) (sampleRate : Nat)
    (ctx : AudioContext) (hctx : p.audioContext = some ctx) :
    (addChunk env p base64Audio sampleRate).1.audioContext = some ctx
    ∧ (addChunk env p base64Audio sampleRate).1.allBuffers =
        p.allBuffers ++ (decodedBuffer env base64Audio).toList
    ∧ (addChunk env p base64Audio sampleRate).1.totalDuration =
        p.totalDuration + (((decodedBuffer env base64Audio).toList).map AudioBuffer.duration).sum
    ∧ (addChunk env p base64Audio sampleRate).1.receivedChunks = p.receivedChunks + 1 := by
  cases h : env.decode base64Audio with
  | invalidBase64 message =>
    rw [addChunk_invalidBase64 env p _ _ message h]
    simp [decodedBuffer, h, hctx]
  | rejected =>
    rw [addChunk_rejected env p _ _ h]
    simp [decodedBuffer, h, hctx]
  | decoded audioBuffer =>
    rw [(addChunk_decoded env p _ _ ctx audioBuffer hctx h).1]
    simp only []
    split_ifs
    · have hk := playNext_keeps env.dom
        { p with sampleRate := sampleRate, receivedChunks := p.receivedChunks + 1,
                 allBuffers := p.allBuffers ++ [audioBuffer],
                 totalDuration := p.totalDuration + audioBuffer.duration,
                 audioQueue := p.audioQueue ++ [audioBuffer] }
      simp only [] at hk
      obtain ⟨h1, h2, h3, h4, _⟩ := hk
      rw [h1, h2, h3, h4]
      simp [decodedBuffer, h, hctx]
    · simp [decodedBuffer, h, hctx]

theorem addChunks_retains (env : Env) (chunks : List (List Char × Nat)) :
    ∀ (p : Player) (ctx : AudioContext), p.audioContext = some ctx →
      (addChunks env p chunks).audioContext = some ctx
      ∧ (addChunks env p chunks).allBuffers =
          p.allBuffers ++ chunks.filterMap (fun chunk => decodedBuffer env chunk.1)
      ∧ (addChunks env p chunks).totalDuration =
          p.totalDuration +
            ((chunks.filterMap (fun chunk => decodedBuffer env chunk.1)).map AudioBuffer.duration).sum
      ∧ (addChunks env p chunks).receivedChunks = p.receivedChunks + chunks.length := by
  induction chunks with
  | nil => intro p ctx hctx; simp [addChunks, hctx]
  | cons chunk rest ih =>
    intro p ctx hctx
    obtain ⟨h1, h2, h3, h4⟩ := addChunk_retains env p chunk.1 chunk.2 ctx hctx
    obtain ⟨i1, i2, i3, i4⟩ := ih (addChunk env p chunk.1 chunk.2).1 ctx h1
    have hfold : addChunks env p (chunk :: rest) =
        addChunks env (addChunk env p chunk.1 chunk.2).1 rest := rfl
    rw [hfold, i2, i3, i4, h2, h3, h4]
    refine ⟨i1, ?_, ?_, ?_⟩
    · cases hd : decodedBuffer env chunk.1 <;> simp [List.filterMap_cons, hd]
    · cases hd : decodedBuffer env chunk.1 <;> simp [List.filterMap_cons, hd, add_assoc]
    · simp; omega

/-- When `decodeAudioData` rejects the payload of a chunk, `addChunk` returns without
an exception, logs the failure, shows no toast, and changes only `sampleRate` and
`receivedChunks`: `allBuffers`, `audioQueue`, `totalDuration`, `isPlaying` and
`nextStartTime` are as before. A chunk handled after the failure leaves the player as it
would without the failed chunk, but for the chunk counter. After `init()`, one failing
chunk followed by two chunks that decode leaves exactly those two buffers retained. -/
theorem rejected_decode_is_absorbed (env : Env) (p q : Player)
    (audio1 audio2 audio3 : List Char) (rate1 rate2 rate3 : Nat) (buffer2 buffer3 : AudioBuffer)
    (h1 : env.decode audio1 = DecodeOutcome.rejected)
    (h2 : env.decode audio2 = DecodeOutcome.decoded buffer2)
    (h3 : env.decode audio3 = DecodeOutcome.decoded buffer3) :
    (addChunk env p audio1 rate1).2.2 = none
    ∧ (addChunk env p audio1 rate1).1 =
        { p with sampleRate := rate1, receivedChunks := p.receivedChunks + 1 }
    ∧ (addChunk env p audio1 rate1).1.allBuffers = p.allBuffers
    ∧ (addChunk env p audio1 rate1).1.audioQueue = p.audioQueue
    ∧ (addChunk env p audio1 rate1).1.totalDuration = p.totalDuration
    ∧ (addChunk env p audio1 rate1).1.isPlaying = p.isPlaying
    ∧ (addChunk env p audio1 rate1).1.nextStartTime = p.nextStartTime
    ∧ consoleErrors (addChunk env p audio1 rate1).2.1 = ["Error decoding audio chunk:"]
    ∧ toasts (addChunk env p audio1 rate1).2.1 = []
    ∧ (addChunk env (addChunk env p audio1 rate1).1 audio2 rate2).1 =
        { (addChunk env p audio2 rate2).1 with receivedChunks := p.receivedChunks + 2 }
    ∧ (addChunks env (init env.dom env.newAudioContext env.performanceNow q)
          [(audio1, rate1), (audio2, rate2), (audio3, rate3)]).allBuffers = [buffer2, buffer3]
    ∧ (addChunks env (init env.dom env.newAudioContext env.performanceNow q)
          [(audio1, rate1), (audio2, rate2), (audio3, rate3)]).allBuffers.length = 2 := by
  have hrej := addChunk_rejected env p audio1 rate1 h1
  have hsilent := updateProgress_silent env
    { p with sampleRate := rate1, receivedChunks := p.receivedChunks + 1 }
  obtain ⟨hctx, hbuf, _, _⟩ := init_fields env.dom env.newAudioContext env.performanceNow q
  obtain ⟨ctx, hctx⟩ := hctx
  have hall := (addChunks_retains env [(audio1, rate1), (audio2, rate2), (audio3, rate3)]
    _ ctx hctx).2.1
  have hlist : (init env.dom env.newAudioContext env.performanceNow q).allBuffers ++
      [(audio1, rate1), (audio2, rate2), (audio3, rate3)].filterMap
        (fun chunk => decodedBuffer env chunk.1) = [buffer2, buffer3] := by
    simp [hbuf, decodedBuffer, h1, h2, h3]
  rw [hlist] at hall
  refine ⟨by rw [hrej], by rw [hrej], by rw [hrej], by rw [hrej], by rw [hrej], by rw [hrej],
    by rw [hrej], ?_, ?_, ?_, hall, by rw [hall]; rfl⟩
  · rw [hrej]
    simp only [consoleErrors, List.filterMap_cons]
    have := hsilent.2
    simp only [consoleErrors] at this
    rw [this]
  · rw [hrej]
    simp only [toasts, List.filterMap_cons]
    have := hsilent.1
    simp only [toasts] at this
    rw [this]
  · rw [hrej]
    exact addChunk_counters env p audio2 rate2 rate1 (p.receivedChunks + 1)

/-- An instance: the payload `////` is base64 that `decodeAudioData` rejects, `AAAA` and
`BBBB` decode. -/
theorem rejected_decode_is_absorbed_instance :
    (addChunks fixtureEnv
        (init fixtureEnv.dom fixtureEnv.newAudioContext fixtureEnv.performanceNow Player.new)
        [("////".data, 24000), ("AAAA".data, 24000), ("BBBB".data, 24000)]).allBuffers =
      [monoFrame, monoPair] :=
  (rejected_decode_is_absorbed fixtureEnv Player.new Player.new "////".data "AAAA".data
    "BBBB".data 24000 24000 24000 monoFrame monoPair (by rfl) (by rfl) (by rfl)).2.2.2.2.2.2.2.2.2.2.1

/-- C4, evaluated on the code: a chunk event whose `audio` is `????`, which is not
base64. `atob` throws before the `try` of `addChunk` is entered, so the exception leaves
`addChunk`: the `catch` that logs `Error decoding audio chunk:` is not reached and
`updateProgress()` does not run. The fields are left as after a rejected decode, and the
chunks that follow are retained. A payload that is base64 and that `decodeAudioData`
rejects (`////`) is caught inside `addChunk`, which then returns. -/
theorem invalid_base64_escapes_addChunk :
    fixtureEnv.decode "????".data = DecodeOutcome.invalidBase64 "InvalidCharacterError"
    ∧ (addChunk fixtureEnv (sessionStart fixtureEnv) "????".data 24000).2.2 =
        some "InvalidCharacterError"
    ∧ (addChunk fixtureEnv (sessionStart fixtureEnv) "????".data 24000).2.1 = []
    ∧ (addChunk fixtureEnv (sessionStart fixtureEnv) "????".data 24000).1 =
        (addChunk fixtureEnv (sessionStart fixtureEnv) "////".data 24000).1
    ∧ (addChunk fixtureEnv (sessionStart fixtureEnv) "////".data 24000).2.2 = none
    ∧ consoleErrors (addChunk fixtureEnv (sessionStart fixtureEnv) "////".data 24000).2.1 =
        ["Error decoding audio chunk:"]
    ∧ (addChunks fixtureEnv (sessionStart fixtureEnv)
        [("????".data, 24000), ("AAAA".data, 24000), ("BBBB".data, 24000)]).allBuffers =
          [monoFrame, monoPair] := by
  have hbad : fixtureEnv.decode "????".data =
      DecodeOutcome.invalidBase64 "InvalidCharacterError" := by rfl
  have hrej : fixtureEnv.decode "////".data = DecodeOutcome.rejected := by rfl
  have h1 := addChunk_invalidBase64 fixtureEnv (sessionStart fixtureEnv) "????".data 24000 _ hbad
  have h2 := addChunk_rejected fixtureEnv (sessionStart fixtureEnv) "////".data 24000 hrej
  refine ⟨hbad, by rw [h1], by rw [h1], by rw [h1, h2], by rw [h2], ?_, ?_⟩
  · rw [h2]
    have key : ∀ P : Player, consoleErrors
        (Effect.consoleError "Error decoding audio chunk:" :: updateProgress fixtureEnv P) =
          ["Error decoding audio chunk:"] := by
      intro P
      have := (updateProgress_silent fixtureEnv P).2
      simp only [consoleErrors, List.filterMap_cons] at this ⊢
      rw [this]
    exact key _
  · obtain ⟨hctx, hbuf, _, _⟩ := init_fields fixtureEnv.dom fixtureEnv.newAudioContext
      fixtureEnv.performanceNow Player.new
    obtain ⟨ctx, hctx⟩ := hctx
    have hall := (addChunks_retains fixtureEnv
      [("????".data, 24000), ("AAAA".data, 24000), ("BBBB".data, 24000)] _ ctx hctx).2.1
    unfold sessionStart
    rw [hall, hbuf]
    rfl

/-! ## Combining the retained buffers -/

theorem foldl_length_acc (buffers : List AudioBuffer) :
    ∀ acc : Nat, buffers.foldl (fun acc buffer => acc + buffer.length) acc =
      acc + (buffers.map AudioBuffer.length).sum := by
  induction buffers with
  | nil => intro acc; simp
  | cons b rest ih => intro acc; simp [ih, Nat.add_assoc]

theorem totalLength_eq_sum (buffers : List AudioBuffer) :
    totalLength buffers = (buffers.map AudioBuffer.length).sum := by
  simp [totalLength, foldl_length_acc]

theorem duration_sum_same_rate (rate : Nat) (buffers : List AudioBuffer)
    (hrate : ∀ b ∈ buffers, b.sampleRate = rate) :
    (buffers.map AudioBuffer.duration).sum = ((totalLength buffers : Nat) : ℚ) / (rate : ℚ) := by
  rw [totalLength_eq_sum]
  induction buffers with
  | nil => simp
  | cons b rest ih =>
    have hb : b.sampleRate = rate := hrate b (List.mem_cons_self _ _)
    have hrest : ∀ b ∈ rest, b.sampleRate = rate := fun x hx => hrate x (List.mem_cons_of_mem _ hx)
    simp only [List.map_cons, List.sum_cons, ih hrest, AudioBuffer.duration, hb]
    push_cast
    rw [add_div]

theorem combineBuffers_shape (first second : AudioBuffer) (rest : List AudioBuffer)
    (combined : AudioBuffer)
    (h : combineBuffers (first :: second :: rest) = Except.ok (some combined)) :
    combined.sampleRate = first.sampleRate
    ∧ combined.length = totalLength (first :: second :: rest) := by
  unfold combineBuffers at h
  cases hc : createBuffer first.numberOfChannels (totalLength (first :: second :: rest))
      first.sampleRate with
  | none => simp only [hc] at h; cases h
  | some created =>
    simp only [hc] at h
    have hcreated : created.sampleRate = first.sampleRate
        ∧ created.length = totalLength (first :: second :: rest) := by
      unfold createBuffer at hc
      split_ifs at hc
      cases hc
      exact ⟨rfl, rfl⟩
    cases hcc : copyChannels (first :: second :: rest) 0 created.channels with
    | none => simp only [hcc] at h; cases h
    | some channels =>
      simp only [hcc, Except.ok.injEq, Option.some.injEq] at h
      subst h
      exact hcreated

theorem getChannelData_of_lt (b : AudioBuffer) (hwf : b.WF) (c : Nat)
    (hc : c < b.numberOfChannels) :
    ∃ source, b.getChannelData c = some source ∧ source.length = b.length
      ∧ channelSamples b c = source := by
  unfold AudioBuffer.numberOfChannels at hc
  refine ⟨b.channels[c], ?_, ?_, ?_⟩
  · simp [AudioBuffer.getChannelData, List.getElem?_eq_getElem hc]
  · exact hwf.2.2 _ (List.getElem_mem hc)
  · simp [channelSamples, AudioBuffer.getChannelData, List.getElem?_eq_getElem hc]

theorem copyChannel_spec (c : Nat) (buffers : List AudioBuffer) :
    ∀ (channelData : List ℚ) (offset : Nat),
      (∀ b ∈ buffers, b.WF ∧ c < b.numberOfChannels) →
      offset + totalLength buffers ≤ channelData.length →
      copyChannel c buffers channelData offset =
        some (channelData.take offset ++ (buffers.map (fun b => channelSamples b c)).flatten
          ++ channelData.drop (offset + totalLength buffers)) := by
  induction buffers with
  | nil =>
    intro channelData offset _ _
    simp [copyChannel, totalLength]
  | cons b rest ih =>
    intro channelData offset hall hfit
    have hb := hall b (List.mem_cons_self _ _)
    have hrest : ∀ x ∈ rest, x.WF ∧ c < x.numberOfChannels :=
      fun x hx => hall x (List.mem_cons_of_mem _ hx)
    obtain ⟨source, hsrc, hlen, hsamples⟩ := getChannelData_of_lt b hb.1 c hb.2
    have htl : totalLength (b :: rest) = b.length + totalLength rest := by
      simp [totalLength_eq_sum]
    rw [htl] at hfit ⊢
    have hset : float32Set channelData source offset =
        some (channelData.take offset ++ source ++ channelData.drop (offset + source.length)) := by
      unfold float32Set
      rw [if_pos (by omega)]
    have htake : (channelData.take offset).length = offset := by
      rw [List.length_take]; omega
    have hlen1 : (channelData.take offset ++ source ++
        channelData.drop (offset + source.length)).length = channelData.length := by
      simp only [List.length_append, htake, List.length_drop]; omega
    have hpre : (channelData.take offset ++ source).length = offset + b.length := by
      simp [htake, hlen]
    simp only [copyChannel, hsrc, hset]
    rw [ih _ (offset + b.length) hrest (by rw [hlen1]; omega)]
    rw [List.take_left' hpre]
    have hdrop : (channelData.take offset ++ source ++
          channelData.drop (offset + source.length)).drop (offset + b.length + totalLength rest) =
        channelData.drop (offset + (b.length + totalLength rest)) := by
      rw [← hpre, List.drop_append, List.drop_drop, hlen]
      congr 1
      omega
    rw [hdrop]
    simp [hsamples, List.append_assoc]

theorem copyChannels_spec (buffers : List AudioBuffer) (k : Nat) :
    ∀ c : Nat, (∀ b ∈ buffers, b.WF ∧ c + k ≤ b.numberOfChannels) →
      copyChannels buffers c (List.replicate k (List.replicate (totalLength buffers) 0)) =
        some ((List.range k).map
          (fun i => (buffers.map (fun b => channelSamples b (c + i))).flatten)) := by
  induction k with
  | zero => intro c _; simp [copyChannels]
  | succ k ih =>
    intro c hall
    have hone : ∀ b ∈ buffers, b.WF ∧ c < b.numberOfChannels :=
      fun b hb => ⟨(hall b hb).1, by have := (hall b hb).2; omega⟩
    have hmore : ∀ b ∈ buffers, b.WF ∧ c + 1 + k ≤ b.numberOfChannels :=
      fun b hb => ⟨(hall b hb).1, by have := (hall b hb).2; omega⟩
    have hcopy := copyChannel_spec c buffers (List.replicate (totalLength buffers) 0) 0 hone
      (by simp)
    simp only [List.take_zero, List.nil_append, Nat.zero_add] at hcopy
    rw [List.drop_of_length_le (by simp), List.append_nil] at hcopy
    simp only [List.replicate_succ, copyChannels, hcopy, ih (c + 1) hmore]
    rw [List.range_succ_eq_map]
    simp [Function.comp_def, Nat.add_assoc, Nat.add_comm 1]

theorem combineBuffers_many (first second : AudioBuffer) (rest : List AudioBuffer)
    (numChannels : Nat)
    (hwf : ∀ b ∈ first :: second :: rest, b.WF)
    (hch : ∀ b ∈ first :: second :: rest, b.numberOfChannels = numChannels) :
    combineBuffers (first :: second :: rest) =
      Except.ok (some
        { sampleRate := first.sampleRate,
          length := totalLength (first :: second :: rest),
          channels := (List.range numChannels).map
            (fun c => ((first :: second :: rest).map (fun b => channelSamples b c)).flatten) }) := by
  have hfirst := hwf first (List.mem_cons_self _ _)
  have hn : first.numberOfChannels = numChannels := hch first (List.mem_cons_self _ _)
  have hpos : 0 < totalLength (first :: second :: rest) := by
    have := hfirst.2.1
    simp only [totalLength_eq_sum, List.map_cons, List.sum_cons]
    omega
  have hcreate : createBuffer first.numberOfChannels (totalLength (first :: second :: rest))
      first.sampleRate =
      some { sampleRate := first.sampleRate, length := totalLength (first :: second :: rest),
             channels := List.replicate numChannels
               (List.replicate (totalLength (first :: second :: rest)) 0) } := by
    unfold createBuffer
    have h0 : 0 < first.numberOfChannels := hfirst.1
    rw [if_neg (by omega), hn]
  have hcopy := copyChannels_spec (first :: second :: rest) numChannels 0
    (fun b hb => ⟨hwf b hb, by rw [hch b hb]; omega⟩)
  simp only [Nat.zero_add] at hcopy
  unfold combineBuffers
  simp only [hcreate, hcopy]

/-- C6: for a non-empty list of retained buffers with the same number of channels,
`combineBuffers` returns a buffer with that number of channels whose length is the sum
of the chunk lengths and whose samples on each channel are the samples of the chunks on
that channel, one chunk after the other in retention order with nothing in between: the
samples of a chunk come after those of all chunks before it and before those of all
chunks after it. A single retained buffer is returned as it is. -/
theorem combineBuffers_is_concatenation (buffers : List AudioBuffer) (numChannels : Nat)
    (hne : buffers ≠ []) (hwf : ∀ b ∈ buffers, b.WF)
    (hch : ∀ b ∈ buffers, b.numberOfChannels = numChannels) :
    ∃ combined, combineBuffers buffers = Except.ok (some combined)
      ∧ combined.numberOfChannels = numChannels
      ∧ combined.length = (buffers.map AudioBuffer.length).sum
      ∧ (∀ c, c < numChannels →
          combined.getChannelData c =
            some ((buffers.map (fun b => channelSamples b c)).flatten))
      ∧ (∀ c, c < numChannels → ∀ (before after : List AudioBuffer) (chunk : AudioBuffer),
          buffers = before ++ chunk :: after →
          combined.getChannelData c =
            some ((before.map (fun b => channelSamples b c)).flatten ++ channelSamples chunk c
              ++ (after.map (fun b => channelSamples b c)).flatten))
      ∧ (∀ only, buffers = [only] → combined = only) := by
  have horder : ∀ (combined : AudioBuffer),
      (∀ c, c < numChannels →
          combined.getChannelData c =
            some ((buffers.map (fun b => channelSamples b c)).flatten)) →
      (∀ c, c < numChannels → ∀ (before after : List AudioBuffer) (chunk : AudioBuffer),
          buffers = before ++ chunk :: after →
          combined.getChannelData c =
            some ((before.map (fun b => channelSamples b c)).flatten ++ channelSamples chunk c
              ++ (after.map (fun b => channelSamples b c)).flatten)) := by
    intro combined hall c hc before after chunk hsplit
    rw [hall c hc, hsplit]
    simp [List.append_assoc]
  match buffers, hne, hwf, hch, horder with
  | [only], _, hwf, hch, horder =>
    have hw := hwf only (List.mem_cons_self _ _)
    have hn := hch only (List.mem_cons_self _ _)
    have hall : ∀ c, c < numChannels →
        only.getChannelData c = some (([only].map (fun b => channelSamples b c)).flatten) := by
      intro c hc
      obtain ⟨source, hsrc, _, hsamples⟩ := getChannelData_of_lt only hw c (by omega)
      simp [hsrc, hsamples]
    exact ⟨only, rfl, hn, by simp, hall, horder only hall, fun x hx => by simpa using hx⟩
  | first :: second :: rest, _, hwf, hch, horder =>
    have hcomb := combineBuffers_many first second rest numChannels hwf hch
    have hall : ∀ c, c < numChannels →
        ({ sampleRate := first.sampleRate,
           length := totalLength (first :: second :: rest),
           channels := (List.range numChannels).map
            (fun c => ((first :: second :: rest).map (fun b => channelSamples b c)).flatten) }
          : AudioBuffer).getChannelData c =
          some (((first :: second :: rest).map (fun b => channelSamples b c)).flatten) := by
      intro c hc
      simp [AudioBuffer.getChannelData, List.getElem?_eq_getElem, hc]
    refine ⟨_, hcomb, ?_, ?_, hall, horder _ hall, ?_⟩
    · simp [AudioBuffer.numberOfChannels]
    · simp only [totalLength_eq_sum]
    · intro only hx
      simp at hx

/-- Witness of C6: a chunk of one frame followed by a chunk of two frames, both mono. -/
theorem combineBuffers_is_concatenation_witness :
    ∃ combined, combineBuffers [monoFrame, monoPair] = Except.ok (some combined)
      ∧ combined.numberOfChannels = 1
      ∧ combined.length = ([monoFrame, monoPair].map AudioBuffer.length).sum
      ∧ (∀ c, c < 1 →
          combined.getChannelData c =
            some (([monoFrame, monoPair].map (fun b => channelSamples b c)).flatten))
      ∧ (∀ c, c < 1 → ∀ (before after : List AudioBuffer) (chunk : AudioBuffer),
          [monoFrame, monoPair] = before ++ chunk :: after →
          combined.getChannelData c =
            some ((before.map (fun b => channelSamples b c)).flatten ++ channelSamples chunk c
              ++ (after.map (fun b => channelSamples b c)).flatten))
      ∧ (∀ only, [monoFrame, monoPair] = [only] → combined = only) :=
  combineBuffers_is_concatenation [monoFrame, monoPair] 1 (by simp) (by decide) (by decide)

/-! ## The WAV container -/

theorem leBytes_length (width value : Nat) : (leBytes width value).length = width := by
  induction width generalizing value with
  | zero => rfl
  | succ w ih => simp [leBytes, ih]

theorem leValue_leBytes (width value : Nat) :
    leValue (leBytes width value) = value % 256 ^ width := by
  induction width generalizing value with
  | zero => simp [leBytes, leValue, Nat.mod_one]
  | succ w ih =>
    simp only [leBytes, leValue, ih]
    rw [pow_succ, Nat.mul_comm (256 ^ w) 256, Nat.mod_mul, Nat.add_comm]

theorem writeHeader_spec (numChannels sampleRate dataLength : Nat) (tail : List Nat) :
    writeHeader numChannels sampleRate dataLength (List.replicate 44 0 ++ tail) =
      some ([82, 73, 70, 70] ++ leBytes 4 (36 + dataLength) ++ [87, 65, 86, 69]
        ++ [102, 109, 116, 32] ++ leBytes 4 16 ++ leBytes 2 1 ++ leBytes 2 numChannels
        ++ leBytes 4 sampleRate ++ leBytes 4 (sampleRate * (numChannels * 2))
        ++ leBytes 2 (numChannels * 2) ++ leBytes 2 16 ++ [100, 97, 116, 97]
        ++ leBytes 4 dataLength ++ tail) := by
  simp [writeHeader, setBytes, leBytes, charCodes, List.replicate]

theorem int16Bytes_length (value : ℚ) : (int16Bytes value).length = 2 := by
  simp [int16Bytes, leBytes_length]

theorem flatten_int16_length (samples : List ℚ) :
    ((samples.map (fun x => int16Bytes (intSample x))).flatten).length = samples.length * 2 := by
  induction samples with
  | nil => rfl
  | cons x rest ih =>
    simp only [List.map_cons, List.flatten_cons, List.length_append, int16Bytes_length, ih,
      List.length_cons]
    omega

theorem writeSamples_spec (samples : List ℚ) :
    ∀ (i : Nat) (view : List Nat), 44 + (i + samples.length) * 2 ≤ view.length →
      writeSamples samples i view =
        some (view.take (44 + i * 2) ++ (samples.map (fun x => int16Bytes (intSample x))).flatten
          ++ view.drop (44 + (i + samples.length) * 2)) := by
  induction samples with
  | nil =>
    intro i view _
    simp [writeSamples]
  | cons x rest ih =>
    intro i view hfit
    simp only [List.length_cons] at hfit
    have hset : setBytes view (44 + i * 2) (int16Bytes (intSample x)) =
        some (view.take (44 + i * 2) ++ int16Bytes (intSample x) ++ view.drop (44 + i * 2 + 2)) := by
      unfold setBytes
      rw [int16Bytes_length, if_pos (by omega)]
    have htake : (view.take (44 + i * 2)).length = 44 + i * 2 := by
      rw [List.length_take]; omega
    have hpre : (view.take (44 + i * 2) ++ int16Bytes (intSample x)).length = 44 + (i + 1) * 2 := by
      simp only [List.length_append, htake, int16Bytes_length]; omega
    have hlen1 : (view.take (44 + i * 2) ++ int16Bytes (intSample x) ++
        view.drop (44 + i * 2 + 2)).length = view.length := by
      simp only [List.length_append, htake, int16Bytes_length, List.length_drop]; omega
    simp only [writeSamples, hset]
    rw [ih (i + 1) _ (by rw [hlen1]; omega), List.take_left' hpre]
    have hdrop : (view.take (44 + i * 2) ++ int16Bytes (intSample x) ++
          view.drop (44 + i * 2 + 2)).drop (44 + (i + 1 + rest.length) * 2) =
        view.drop (44 + (i + (rest.length + 1)) * 2) := by
      have hsplit : 44 + (i + 1 + rest.length) * 2 =
          (view.take (44 + i * 2) ++ int16Bytes (intSample x)).length + rest.length * 2 := by
        rw [hpre]; omega
      rw [hsplit, List.drop_append, List.drop_drop]
      congr 1
      omega
    rw [hdrop]
    simp [List.append_assoc]

theorem audioBufferToWav_spec (buffer : AudioBuffer) (interleaved : List ℚ)
    (h : interleave buffer = some interleaved) :
    audioBufferToWav buffer =
      some ([82, 73, 70, 70] ++ leBytes 4 (36 + interleaved.length * 2) ++ [87, 65, 86, 69]
        ++ [102, 109, 116, 32] ++ leBytes 4 16 ++ leBytes 2 1
        ++ leBytes 2 buffer.numberOfChannels
        ++ leBytes 4 buffer.sampleRate
        ++ leBytes 4 (buffer.sampleRate * (buffer.numberOfChannels * 2))
        ++ leBytes 2 (buffer.numberOfChannels * 2) ++ leBytes 2 16 ++ [100, 97, 116, 97]
        ++ leBytes 4 (interleaved.length * 2)
        ++ (interleaved.map (fun x => int16Bytes (intSample x))).flatten) := by
  unfold audioBufferToWav
  simp only [h, List.replicate_add, show (16 / 8 : Nat) = 2 from rfl]
  rw [writeHeader_spec]
  simp only []
  rw [writeSamples_spec interleaved 0 _ (by simp [leBytes_length]; omega)]
  have hhead : ∀ (tail : List Nat),
      ([82, 73, 70, 70] ++ leBytes 4 (36 + interleaved.length * 2) ++ [87, 65, 86, 69]
        ++ [102, 109, 116, 32] ++ leBytes 4 16 ++ leBytes 2 1
        ++ leBytes 2 buffer.numberOfChannels
        ++ leBytes 4 buffer.sampleRate
        ++ leBytes 4 (buffer.sampleRate * (buffer.numberOfChannels * 2))
        ++ leBytes 2 (buffer.numberOfChannels * 2) ++ leBytes 2 16 ++ [100, 97, 116, 97]
        ++ leBytes 4 (interleaved.length * 2)).length = 44 := by
    intro _
    simp [leBytes_length]
  rw [Nat.zero_mul, Nat.add_zero, List.take_left' (hhead []), Nat.zero_add,
    show 44 + interleaved.length * 2 =
      ([82, 73, 70, 70] ++ leBytes 4 (36 + interleaved.length * 2) ++ [87, 65, 86, 69]
        ++ [102, 109, 116, 32] ++ leBytes 4 16 ++ leBytes 2 1
        ++ leBytes 2 buffer.numberOfChannels
        ++ leBytes 4 buffer.sampleRate
        ++ leBytes 4 (buffer.sampleRate * (buffer.numberOfChannels * 2))
        ++ leBytes 2 (buffer.numberOfChannels * 2) ++ leBytes 2 16 ++ [100, 97, 116, 97]
        ++ leBytes 4 (interleaved.length * 2)).length + interleaved.length * 2 from by
      rw [hhead []],
    List.drop_append, List.drop_of_length_le (by simp), List.append_nil]

theorem interleave_of_channels (buffer : AudioBuffer) (hch : 0 < buffer.numberOfChannels) :
    ∃ interleaved, interleave buffer = some interleaved := by
  obtain ⟨rate, len, channels⟩ := buffer
  match channels, hch with
  | [c0], _ => exact ⟨c0, by simp [interleave, AudioBuffer.numberOfChannels, AudioBuffer.getChannelData]⟩
  | [c0, c1], _ =>
    exact ⟨interleaveStereo c0 c1,
      by simp [interleave, AudioBuffer.numberOfChannels, AudioBuffer.getChannelData]⟩
  | c0 :: c1 :: c2 :: rest, _ =>
    exact ⟨c0, by simp [interleave, AudioBuffer.numberOfChannels, AudioBuffer.getChannelData]⟩

theorem interleaveStereo_length (left : List ℚ) :
    ∀ right : List ℚ, (interleaveStereo left right).length = left.length * 2 := by
  induction left with
  | nil => intro right; simp [interleaveStereo]
  | cons l ls ih =>
    intro right
    cases right with
    | nil => simp [interleaveStereo, ih]; omega
    | cons r rs => simp [interleaveStereo, ih]; omega

theorem wavDataLength_mono_stereo (buffer : AudioBuffer) (hwf : buffer.WF)
    (hch : buffer.numberOfChannels ≤ 2) :
    wavDataLength buffer = some (buffer.length * buffer.numberOfChannels * 2) := by
  obtain ⟨rate, len, channels⟩ := buffer
  obtain ⟨hpos, _, hlen⟩ := hwf
  match channels, hpos, hch, hlen with
  | [c0], _, _, hlen =>
    have h0 : c0.length = len := hlen c0 (by simp)
    simp [wavDataLength, interleave, AudioBuffer.numberOfChannels, AudioBuffer.getChannelData, h0]
  | [c0, c1], _, _, hlen =>
    have h0 : c0.length = len := hlen c0 (by simp)
    simp [wavDataLength, interleave, AudioBuffer.numberOfChannels, AudioBuffer.getChannelData,
      interleaveStereo_length, h0, Nat.mul_assoc]
  | c0 :: c1 :: c2 :: rest, _, hch, _ =>
    simp [AudioBuffer.numberOfChannels] at hch

theorem hideStreamingUI_allBuffers (dom : Dom) (p : Player) :
    (hideStreamingUI dom p).allBuffers = p.allBuffers := by
  simp only [hideStreamingUI, stopWaveformAnimation]
  split_ifs <;> rfl

theorem finalize_of_no_buffers (env : Env) (p : Player) (h : p.allBuffers = []) :
    finalize env p =
      (hideStreamingUI env.dom p, [Effect.consoleError "[Streaming] No buffers to combine"], none) := by
  unfold finalize
  simp only [hideStreamingUI_allBuffers, h, combineBuffers]

theorem handleData_done_of_no_buffers (env : Env) (p : Player) (payload : List Char)
    (hparse : env.parse payload = Except.ok SSEEvent.done) (h : p.allBuffers = []) :
    handleData env p payload =
      (hideStreamingUI env.dom p,
       [Effect.consoleError "[Streaming] No buffers to combine",
        Effect.toast "Generation complete!" ToastType.success]) := by
  simp [handleData, hparse, finalize_of_no_buffers env p h]

/-- C7: with no retained chunk, `combineBuffers` returns `null` and `finalize` only hides
the streaming UI and logs `No buffers to combine`: no exception leaves it, and what it
shows holds no object URL (so no encoded WAV), no assignment of the audio player source
and no write of a metric element. -/
theorem finalize_without_chunks (env : Env) (p : Player) (h : p.allBuffers = []) :
    combineBuffers p.allBuffers = Except.ok none
    ∧ finalize env p =
        (hideStreamingUI env.dom p, [Effect.consoleError "[Streaming] No buffers to combine"], none)
    ∧ (∀ e ∈ (finalize env p).2.1,
        (∀ wav, e ≠ Effect.objectURL wav) ∧ e ≠ Effect.playerSrc
        ∧ (∀ seconds, e ≠ Effect.metricTime seconds)
        ∧ (∀ seconds, e ≠ Effect.metricDuration seconds)
        ∧ (∀ factor, e ≠ Effect.metricRtf factor)) := by
  have hfin := finalize_of_no_buffers env p h
  refine ⟨by rw [h]; rfl, hfin, ?_⟩
  intro e he
  rw [hfin] at he
  simp only [List.mem_singleton] at he
  subst he
  simp

/-- Witness of C7: the player as constructed, before any chunk. -/
theorem finalize_without_chunks_witness :
    finalize fixtureEnv Player.new =
      (hideStreamingUI fixtureEnv.dom Player.new,
       [Effect.consoleError "[Streaming] No buffers to combine"], none) :=
  (finalize_without_chunks fixtureEnv Player.new rfl).2.1

set_option maxRecDepth 4000 in
/-- C8, evaluated on the code: a stream whose only record is `done`. No chunk was
retained, `finalize` logs `No buffers to combine` to the console and returns, and the
read loop then shows the toast `Generation complete!` of type success. The user gets no
failure notification and one success notification. -/
theorem done_without_chunks_toasts_success :
    toasts (generateWithStreaming fixtureEnv (Response.body [doneLine ++ ['\n']] none)).2 =
        [("Generation complete!", ToastType.success)]
    ∧ consoleErrors (generateWithStreaming fixtureEnv (Response.body [doneLine ++ ['\n']] none)).2 =
        ["[Streaming] No buffers to combine"]
    ∧ (generateWithStreaming fixtureEnv (Response.body [doneLine ++ ['\n']] none)).1.allBuffers = []
    ∧ (generateWithStreaming fixtureEnv (Response.body [doneLine ++ ['\n']] none)).1.receivedChunks = 0 := by
  with_unfolding_all decide

/-- C9: for every buffer with at least one channel, `audioBufferToWav` returns
`44 + dataLength` bytes, where `dataLength` is two bytes per interleaved sample, and the
first 44 are, in order and little-endian: `RIFF`, `36 + dataLength` on four bytes, `WAVE`,
`fmt `, 16 on four bytes, format 1 on two, the channel count on two, the sample rate on
four, the byte rate `sampleRate * channels * 2` on four, the block align `channels * 2`
on two, the bit depth 16 on two, `data`, and `dataLength` on four. A field of `width`
bytes holds its value modulo `256 ^ width`. -/
theorem wav_header_layout (buffer : AudioBuffer) (hch : 0 < buffer.numberOfChannels) :
    ∃ wav dataLength, audioBufferToWav buffer = some wav
      ∧ wavDataLength buffer = some dataLength
      ∧ wav.length = 44 + dataLength
      ∧ wav.take 44 =
          charCodes "RIFF" ++ leBytes 4 (36 + dataLength) ++ charCodes "WAVE"
            ++ charCodes "fmt " ++ leBytes 4 16 ++ leBytes 2 1
            ++ leBytes 2 buffer.numberOfChannels
            ++ leBytes 4 buffer.sampleRate
            ++ leBytes 4 (buffer.sampleRate * buffer.numberOfChannels * 2)
            ++ leBytes 2 (buffer.numberOfChannels * 2) ++ leBytes 2 16 ++ charCodes "data"
            ++ leBytes 4 dataLength
      ∧ (∀ width value, (leBytes width value).length = width
          ∧ leValue (leBytes width value) = value % 256 ^ width) := by
  obtain ⟨interleaved, hint⟩ := interleave_of_channels buffer hch
  have hspec := audioBufferToWav_spec buffer interleaved hint
  have hheader :
      ([82, 73, 70, 70] ++ leBytes 4 (36 + interleaved.length * 2) ++ [87, 65, 86, 69]
        ++ [102, 109, 116, 32] ++ leBytes 4 16 ++ leBytes 2 1
        ++ leBytes 2 buffer.numberOfChannels
        ++ leBytes 4 buffer.sampleRate
        ++ leBytes 4 (buffer.sampleRate * (buffer.numberOfChannels * 2))
        ++ leBytes 2 (buffer.numberOfChannels * 2) ++ leBytes 2 16 ++ [100, 97, 116, 97]
        ++ leBytes 4 (interleaved.length * 2)).length = 44 := by
    simp [leBytes_length]
  refine ⟨_, interleaved.length * 2, hspec, ?_, ?_, ?_,
    fun width value => ⟨leBytes_length width value, leValue_leBytes width value⟩⟩
  · simp [wavDataLength, hint]
  · rw [List.length_append, hheader, flatten_int16_length]
  · rw [List.take_left' hheader, Nat.mul_assoc]
    rfl

/-- Witness of C9: a mono buffer of two frames. -/
theorem wav_header_layout_witness :
    ∃ wav dataLength, audioBufferToWav monoPair = some wav
      ∧ wavDataLength monoPair = some dataLength
      ∧ wav.length = 44 + dataLength
      ∧ wav.take 44 =
          charCodes "RIFF" ++ leBytes 4 (36 + dataLength) ++ charCodes "WAVE"
            ++ charCodes "fmt " ++ leBytes 4 16 ++ leBytes 2 1
            ++ leBytes 2 monoPair.numberOfChannels
            ++ leBytes 4 monoPair.sampleRate
            ++ leBytes 4 (monoPair.sampleRate * monoPair.numberOfChannels * 2)
            ++ leBytes 2 (monoPair.numberOfChannels * 2) ++ leBytes 2 16 ++ charCodes "data"
            ++ leBytes 4 dataLength
      ∧ (∀ width value, (leBytes width value).length = width
          ∧ leValue (leBytes width value) = value % 256 ^ width) :=
  wav_header_layout monoPair (by decide)

/-- C10, evaluated on the code: a buffer of one frame on three channels. The header
records three channels and a block align of six bytes, but only channel 0 is written:
the data-length field and the number of bytes after the header are both 2, not
`frames * channels * 2 = 6`. -/
theorem three_channel_data_is_mono :
    ∃ wav, audioBufferToWav threeChannelFrame = some wav
      ∧ leValue ((wav.drop 22).take 2) = 3
      ∧ leValue ((wav.drop 32).take 2) = 6
      ∧ leValue ((wav.drop 40).take 4) = 2
      ∧ (wav.drop 44).length = 2
      ∧ threeChannelFrame.length * threeChannelFrame.numberOfChannels * 2 = 6
      ∧ wavDataLength threeChannelFrame = some 2 := by
  refine ⟨_, audioBufferToWav_spec threeChannelFrame [0] rfl, ?_, ?_, ?_, ?_, by decide, by rfl⟩
  · simp [leBytes, leValue, threeChannelFrame, AudioBuffer.numberOfChannels]
  · simp [leBytes, leValue, threeChannelFrame, AudioBuffer.numberOfChannels]
  · simp [leBytes, leValue, threeChannelFrame, AudioBuffer.numberOfChannels]
  · simp [leBytes, threeChannelFrame, AudioBuffer.numberOfChannels, int16Bytes_length]

/-! ## Quantisation of samples -/

theorem truncate_of_nonneg (v : ℚ) (h : 0 ≤ v) : truncate v = ⌊v⌋ := by
  unfold truncate
  rw [Int.tdiv_eq_ediv (Rat.num_nonneg.mpr h) (Int.ofNat_nonneg _), Rat.floor_def]

theorem truncate_neg (v : ℚ) : truncate (-v) = -truncate v := by
  unfold truncate
  rw [Rat.neg_num, Rat.neg_den, Int.neg_tdiv]

theorem truncate_of_nonpos (v : ℚ) (h : v ≤ 0) : truncate v = ⌈v⌉ := by
  have h1 : truncate (-v) = ⌊-v⌋ := truncate_of_nonneg (-v) (by linarith)
  rw [truncate_neg, Int.floor_neg] at h1
  exact neg_injective h1

theorem truncate_bounds (v : ℚ) (lo hi : ℤ) (hlo : (lo : ℚ) ≤ v) (hhi : v ≤ (hi : ℚ))
    (hl0 : lo ≤ 0) (hh0 : 0 ≤ hi) : lo ≤ truncate v ∧ truncate v ≤ hi := by
  rcases le_total 0 v with h | h
  · rw [truncate_of_nonneg v h]
    refine ⟨le_trans hl0 (Int.floor_nonneg.mpr h), ?_⟩
    have : ((⌊v⌋ : ℤ) : ℚ) ≤ (hi : ℚ) := le_trans (Int.floor_le v) hhi
    exact_mod_cast this
  · rw [truncate_of_nonpos v h]
    refine ⟨?_, le_trans (Int.ceil_le.mpr (by simpa using h)) hh0⟩
    have : (lo : ℚ) ≤ ((⌈v⌉ : ℤ) : ℚ) := le_trans hlo (Int.le_ceil v)
    exact_mod_cast this

theorem clampSample_range (x : ℚ) : -1 ≤ clampSample x ∧ clampSample x ≤ 1 := by
  unfold clampSample
  exact ⟨le_max_left _ _, max_le (by norm_num) (min_le_left _ _)⟩

theorem clampSample_of_mem (x : ℚ) (h1 : -1 ≤ x) (h2 : x ≤ 1) : clampSample x = x := by
  unfold clampSample
  rw [min_eq_right h2, max_eq_right h1]

theorem quantized_range (x : ℚ) :
    -32768 ≤ truncate (intSample x) ∧ truncate (intSample x) ≤ 32767 := by
  obtain ⟨h1, h2⟩ := clampSample_range x
  unfold intSample
  simp only []
  split_ifs with hneg
  · obtain ⟨a, b⟩ := truncate_bounds (clampSample x * 32768) (-32768) 0
      (by push_cast; linarith) (by push_cast; linarith) (by norm_num) (by norm_num)
    exact ⟨a, by omega⟩
  · push_neg at hneg
    obtain ⟨a, b⟩ := truncate_bounds (clampSample x * 32767) 0 32767
      (by push_cast; positivity) (by push_cast; linarith) (by norm_num) (by norm_num)
    exact ⟨by omega, b⟩

theorem int16Value_int16Bytes (v : ℚ) (hlo : -32768 ≤ truncate v) (hhi : truncate v ≤ 32767) :
    int16Value (int16Bytes v) = truncate v := by
  unfold int16Value int16Bytes
  rw [leValue_leBytes]
  have hmod : (truncate v % 65536).toNat % 256 ^ 2 = (truncate v % 65536).toNat := by
    apply Nat.mod_eq_of_lt
    have := Int.emod_lt_of_pos (truncate v) (show (0 : ℤ) < 65536 by norm_num)
    have := Int.emod_nonneg (truncate v) (show (65536 : ℤ) ≠ 0 by norm_num)
    omega
  rw [hmod]
  have hnn := Int.emod_nonneg (truncate v) (show (65536 : ℤ) ≠ 0 by norm_num)
  have hcast : (((truncate v % 65536).toNat : ℕ) : ℤ) = truncate v % 65536 := Int.toNat_of_nonneg hnn
  split_ifs with hlt
  · rw [hcast]; omega
  · rw [hcast]; omega

theorem truncate_intCast (n : ℤ) : truncate (n : ℚ) = n := by
  rcases le_total 0 n with h | h
  · rw [truncate_of_nonneg _ (by exact_mod_cast h), Int.floor_intCast]
  · rw [truncate_of_nonpos _ (by exact_mod_cast h), Int.ceil_intCast]

theorem intSample_of_le_neg_one (x : ℚ) (h : x ≤ -1) : intSample x = ((-32768 : ℤ) : ℚ) := by
  have hc : clampSample x = -1 := by
    unfold clampSample
    rw [min_eq_right (by linarith), max_eq_left h]
  unfold intSample
  simp only [hc]
  norm_num

theorem intSample_of_one_le (x : ℚ) (h : 1 ≤ x) : intSample x = ((32767 : ℤ) : ℚ) := by
  have hc : clampSample x = 1 := by
    unfold clampSample
    rw [min_eq_left h, max_eq_right (by norm_num)]
  unfold intSample
  simp only [hc]
  norm_num

theorem intSample_zero : intSample 0 = ((0 : ℤ) : ℚ) := by
  have hc : clampSample 0 = 0 := clampSample_of_mem 0 (by norm_num) (by norm_num)
  unfold intSample
  simp only [hc]
  norm_num

/-- C11: for every sample, taken as an exact rational, the 16-bit integer that
`audioBufferToWav` stores is the scaled clamped sample rounded toward zero:
`trunc(c * 32768)` when `c < 0` and `trunc(c * 32767)` otherwise, with `c` the sample
clamped to `[-1, 1]`. It lies between -32768 and 32767, so the two bytes written read
back as the same signed integer. The samples -1, 0 and 1 give -32768, 0 and 32767, and a
sample below -1 or above 1 gives the value of the bound next to it. -/
theorem quantization_is_clamped_truncation (x : ℚ) :
    truncate (intSample x) =
        (if clampSample x < 0 then truncate (clampSample x * 32768)
         else truncate (clampSample x * 32767))
    ∧ clampSample x = max (-1) (min 1 x)
    ∧ (-1 ≤ clampSample x ∧ clampSample x ≤ 1)
    ∧ (∀ v : ℚ, truncate v = if 0 ≤ v then ⌊v⌋ else ⌈v⌉)
    ∧ (-32768 ≤ truncate (intSample x) ∧ truncate (intSample x) ≤ 32767)
    ∧ int16Value (int16Bytes (intSample x)) = truncate (intSample x)
    ∧ truncate (intSample (-1)) = -32768
    ∧ truncate (intSample 0) = 0
    ∧ truncate (intSample 1) = 32767
    ∧ (x ≤ -1 → truncate (intSample x) = truncate (intSample (-1)))
    ∧ (1 ≤ x → truncate (intSample x) = truncate (intSample 1)) := by
  have hrange := quantized_range x
  have hlow : ∀ y : ℚ, y ≤ -1 → truncate (intSample y) = -32768 := fun y hy => by
    rw [intSample_of_le_neg_one y hy, truncate_intCast]
  have hhigh : ∀ y : ℚ, 1 ≤ y → truncate (intSample y) = 32767 := fun y hy => by
    rw [intSample_of_one_le y hy, truncate_intCast]
  refine ⟨?_, rfl, clampSample_range x, ?_, hrange,
    int16Value_int16Bytes _ hrange.1 hrange.2, hlow (-1) le_rfl, ?_, hhigh 1 le_rfl, ?_, ?_⟩
  · unfold intSample
    simp only []
    split_ifs <;> rfl
  · intro v
    split_ifs with h
    · exact truncate_of_nonneg v h
    · exact truncate_of_nonpos v (le_of_lt (not_le.mp h))
  · rw [intSample_zero, truncate_intCast]
  · intro h
    rw [hlow x h, hlow (-1) le_rfl]
  · intro h
    rw [hhigh x h, hhigh 1 le_rfl]

/-- Witness of C11: the sample -2 is stored as the sample -1 is. -/
theorem quantization_is_clamped_truncation_witness :
    truncate (intSample (-2)) = truncate (intSample (-1)) :=
  (quantization_is_clamped_truncation (-2)).2.2.2.2.2.2.2.2.2.1 (by with_unfolding_all decide)

/-! ## Round trip through the WAV container -/

theorem roundTrip_error (x : ℚ) (h1 : -1 ≤ x) (h2 : x ≤ 1) :
    |specDequantize (truncate (intSample x)) - x| < 1 / 32767 := by
  have hc := clampSample_of_mem x h1 h2
  unfold intSample
  simp only [hc]
  split_ifs with hneg
  · have hy : x * 32768 ≤ 0 := by linarith
    rw [truncate_of_nonpos _ hy]
    have hle := Int.le_ceil (x * 32768)
    have hlt := Int.ceil_lt_add_one (x * 32768)
    have hnonpos : (⌈x * 32768⌉ : ℤ) ≤ 0 := Int.ceil_le.mpr (by simpa using hy)
    unfold specDequantize
    split_ifs with ht
    · rw [abs_lt]
      constructor
      · have : x ≤ (⌈x * 32768⌉ : ℚ) / 32768 := by
          rw [le_div_iff₀ (by norm_num)]; exact hle
        linarith
      · have : (⌈x * 32768⌉ : ℚ) / 32768 < x + 1 / 32768 := by
          rw [div_lt_iff₀ (by norm_num)]; linarith
        have : (1 : ℚ) / 32768 < 1 / 32767 := by norm_num
        linarith
    · have hzero : (⌈x * 32768⌉ : ℤ) = 0 := by omega
      rw [hzero] at hlt ⊢
      simp only [Int.cast_zero, zero_div, zero_sub, abs_neg] at hlt ⊢
      rw [abs_of_neg hneg]
      have : (1 : ℚ) / 32768 < 1 / 32767 := by norm_num
      linarith
  · push_neg at hneg
    have hy : 0 ≤ x * 32767 := by positivity
    rw [truncate_of_nonneg _ hy]
    have hle := Int.floor_le (x * 32767)
    have hlt := Int.lt_floor_add_one (x * 32767)
    have hnn : (0 : ℤ) ≤ ⌊x * 32767⌋ := Int.floor_nonneg.mpr hy
    unfold specDequantize
    rw [if_neg (by omega), abs_lt]
    constructor
    · have : x - 1 / 32767 < (⌊x * 32767⌋ : ℚ) / 32767 := by
        rw [lt_div_iff₀ (by norm_num)]; linarith
      linarith
    · have : (⌊x * 32767⌋ : ℚ) / 32767 ≤ x := by
        rw [div_le_iff₀ (by norm_num)]; exact hle
      linarith

theorem int16Values_flatten (samples : List ℚ) :
    int16Values ((samples.map (fun x => int16Bytes (intSample x))).flatten) =
      samples.map (fun x => truncate (intSample x)) := by
  induction samples with
  | nil => rfl
  | cons x rest ih =>
    have hx := int16Value_int16Bytes (intSample x) (quantized_range x).1 (quantized_range x).2
    simp only [List.map_cons, List.flatten_cons]
    have hbytes : int16Bytes (intSample x) =
        [(truncate (intSample x) % 65536).toNat % 256,
         (truncate (intSample x) % 65536).toNat / 256 % 256] := by
      simp [int16Bytes, leBytes]
    rw [hbytes] at hx ⊢
    simp only [List.cons_append, List.nil_append, int16Values, hx]
    rw [show ([] : List Nat).append ((rest.map (fun x => int16Bytes (intSample x))).flatten) =
      (rest.map (fun x => int16Bytes (intSample x))).flatten from rfl, ih]

theorem deinterleave_mono (decoded : List ℚ) :
    (List.range (decoded.length / 1)).map (fun frame => decoded.getD (frame * 1 + 0) 0) =
      decoded := by
  apply List.ext_getElem
  · simp
  · intro i h1 h2
    simp [List.getD_eq_getElem?_getD, List.getElem?_eq_getElem h2]

theorem deinterleave_stereo (g : ℚ → ℚ) (left : List ℚ) :
    ∀ right : List ℚ, left.length = right.length →
      (List.range left.length).map
          (fun frame => ((interleaveStereo left right).map g).getD (frame * 2 + 0) 0) =
        left.map g
      ∧ (List.range left.length).map
          (fun frame => ((interleaveStereo left right).map g).getD (frame * 2 + 1) 0) =
        right.map g := by
  induction left with
  | nil =>
    intro right h
    cases right with
    | nil => simp
    | cons r rs => simp at h
  | cons l ls ih =>
    intro right h
    cases right with
    | nil => simp at h
    | cons r rs =>
      have hlen : ls.length = rs.length := by simpa using h
      obtain ⟨h0, h1⟩ := ih rs hlen
      simp only [List.length_cons, List.range_succ_eq_map, List.map_cons, List.map_map,
        interleaveStereo]
      constructor
      · rw [← h0]
        simp [Function.comp_def, Nat.succ_mul, List.getD_eq_getElem?_getD]
      · rw [← h1]
        simp [Function.comp_def, Nat.succ_mul, List.getD_eq_getElem?_getD]

theorem combineBuffers_channels (buffers : List AudioBuffer) (numChannels : Nat)
    (hne : buffers ≠ []) (hwf : ∀ b ∈ buffers, b.WF)
    (hch : ∀ b ∈ buffers, b.numberOfChannels = numChannels) :
    ∃ combined, combineBuffers buffers = Except.ok (some combined)
      ∧ combined.channels = (List.range numChannels).map
          (fun c => (buffers.map (fun b => channelSamples b c)).flatten) := by
  match buffers, hne, hwf, hch with
  | [only], _, hwf, hch =>
    have hn : only.channels.length = numChannels := hch only (List.mem_cons_self _ _)
    refine ⟨only, rfl, ?_⟩
    apply List.ext_getElem
    · simp [hn]
    · intro i h1 h2
      simp [channelSamples, AudioBuffer.getChannelData, List.getElem?_eq_getElem h1]
  | first :: second :: rest, _, hwf, hch =>
    exact ⟨_, combineBuffers_many first second rest numChannels hwf hch, rfl⟩

theorem channel_concat_length (buffers : List AudioBuffer) (c : Nat)
    (hall : ∀ b ∈ buffers, b.WF ∧ c < b.numberOfChannels) :
    ((buffers.map (fun b => channelSamples b c)).flatten).length = totalLength buffers := by
  rw [totalLength_eq_sum]
  induction buffers with
  | nil => rfl
  | cons b rest ih =>
    obtain ⟨hb, hc⟩ := hall b (List.mem_cons_self _ _)
    obtain ⟨source, _, hlen, hs⟩ := getChannelData_of_lt b hb c hc
    simp only [List.map_cons, List.flatten_cons, List.length_append, List.sum_cons, hs, hlen,
      ih (fun x hx => hall x (List.mem_cons_of_mem _ hx))]

theorem channel_concat_mem (buffers : List AudioBuffer) (c : Nat) (x : ℚ)
    (hx : x ∈ (buffers.map (fun b => channelSamples b c)).flatten) :
    ∃ b ∈ buffers, ∃ ch ∈ b.channels, x ∈ ch := by
  rw [List.mem_flatten] at hx
  obtain ⟨l, hl, hxl⟩ := hx
  rw [List.mem_map] at hl
  obtain ⟨b, hb, rfl⟩ := hl
  refine ⟨b, hb, ?_⟩
  unfold channelSamples AudioBuffer.getChannelData at hxl
  cases hget : b.channels[c]? with
  | none => simp [hget] at hxl
  | some ch =>
    simp only [hget, Option.getD_some] at hxl
    exact ⟨ch, List.getElem?_mem hget, hxl⟩

theorem wav_data_decoded (buffer : AudioBuffer) (interleaved : List ℚ)
    (h : interleave buffer = some interleaved) :
    ∃ wav, audioBufferToWav buffer = some wav
      ∧ (int16Values (wav.drop 44)).map specDequantize =
          interleaved.map (fun x => specDequantize (truncate (intSample x))) := by
  refine ⟨_, audioBufferToWav_spec buffer interleaved h, ?_⟩
  have hheader :
      ([82, 73, 70, 70] ++ leBytes 4 (36 + interleaved.length * 2) ++ [87, 65, 86, 69]
        ++ [102, 109, 116, 32] ++ leBytes 4 16 ++ leBytes 2 1
        ++ leBytes 2 buffer.numberOfChannels
        ++ leBytes 4 buffer.sampleRate
        ++ leBytes 4 (buffer.sampleRate * (buffer.numberOfChannels * 2))
        ++ leBytes 2 (buffer.numberOfChannels * 2) ++ leBytes 2 16 ++ [100, 97, 116, 97]
        ++ leBytes 4 (interleaved.length * 2)).length = 44 := by
    simp [leBytes_length]
  rw [List.drop_left' hheader, int16Values_flatten, List.map_map]
  rfl

/-- C12 as amended: for every non-empty list of well-formed chunks that are all mono or
all stereo, with samples between -1 and 1, `combineBuffers` returns a buffer,
`audioBufferToWav` encodes it, and reading the data section back (16-bit values, each
divided by 32768 if negative and by 32767 otherwise, de-interleaved) gives on each
channel as many samples as the chunks hold on that channel, in the order of the chunks,
each within less than `1 / 32767` of the original. -/
theorem wav_round_trip (buffers : List AudioBuffer) (numChannels : Nat)
    (hne : buffers ≠ []) (hwf : ∀ b ∈ buffers, b.WF)
    (hch : ∀ b ∈ buffers, b.numberOfChannels = numChannels)
    (hn : numChannels = 1 ∨ numChannels = 2)
    (hrange : ∀ b ∈ buffers, ∀ ch ∈ b.channels, ∀ x ∈ ch, -1 ≤ x ∧ x ≤ 1) :
    ∃ combined wav, combineBuffers buffers = Except.ok (some combined)
      ∧ audioBufferToWav combined = some wav
      ∧ ∀ c, c < numChannels →
          List.Forall₂ (fun decoded original => |decoded - original| < 1 / 32767)
            (specDecodeChannel numChannels c wav)
            ((buffers.map (fun b => channelSamples b c)).flatten) := by
  obtain ⟨combined, hcomb, hchannels⟩ := combineBuffers_channels buffers numChannels hne hwf hch
  have hbound : ∀ c, List.Forall₂ (fun decoded original => |decoded - original| < 1 / 32767)
      (((buffers.map (fun b => channelSamples b c)).flatten).map
        (fun x => specDequantize (truncate (intSample x))))
      ((buffers.map (fun b => channelSamples b c)).flatten) := by
    intro c
    rw [List.forall₂_map_left_iff, List.forall₂_same]
    intro x hx
    obtain ⟨b, hb, ch, hchm, hxch⟩ := channel_concat_mem buffers c x hx
    exact roundTrip_error x (hrange b hb ch hchm x hxch).1 (hrange b hb ch hchm x hxch).2
  rcases hn with hn | hn
  · subst hn
    have hint : interleave combined =
        some ((buffers.map (fun b => channelSamples b 0)).flatten) := by
      simp [interleave, AudioBuffer.numberOfChannels, AudioBuffer.getChannelData, hchannels]
    obtain ⟨wav, hwav, hdata⟩ := wav_data_decoded combined _ hint
    refine ⟨combined, wav, hcomb, hwav, ?_⟩
    intro c hc
    have hc0 : c = 0 := by omega
    subst hc0
    unfold specDecodeChannel
    simp only [hdata]
    rw [deinterleave_mono]
    exact hbound 0
  · subst hn
    have hint : interleave combined =
        some (interleaveStereo ((buffers.map (fun b => channelSamples b 0)).flatten)
          ((buffers.map (fun b => channelSamples b 1)).flatten)) := by
      simp [interleave, AudioBuffer.numberOfChannels, AudioBuffer.getChannelData, hchannels,
        List.range_succ]
    obtain ⟨wav, hwav, hdata⟩ := wav_data_decoded combined _ hint
    have hlen0 := channel_concat_length buffers 0
      (fun b hb => ⟨hwf b hb, by rw [hch b hb]; omega⟩)
    have hlen1 := channel_concat_length buffers 1
      (fun b hb => ⟨hwf b hb, by rw [hch b hb]; omega⟩)
    obtain ⟨hleft, hright⟩ := deinterleave_stereo
      (fun x => specDequantize (truncate (intSample x)))
      ((buffers.map (fun b => channelSamples b 0)).flatten)
      ((buffers.map (fun b => channelSamples b 1)).flatten) (by rw [hlen0, hlen1])
    refine ⟨combined, wav, hcomb, hwav, ?_⟩
    intro c hc
    have hframes : ((interleaveStereo ((buffers.map (fun b => channelSamples b 0)).flatten)
        ((buffers.map (fun b => channelSamples b 1)).flatten)).map
          (fun x => specDequantize (truncate (intSample x)))).length / 2 =
        ((buffers.map (fun b => channelSamples b 0)).flatten).length := by
      rw [List.length_map, interleaveStereo_length]
      omega
    unfold specDecodeChannel
    simp only [hdata, hframes]
    rcases (show c = 0 ∨ c = 1 by omega) with h0 | h1
    · subst h0
      rw [hleft]
      exact hbound 0
    · subst h1
      rw [hright]
      exact hbound 1

/-- Witness of C12 as amended: two stereo chunks of one frame each. -/
theorem wav_round_trip_witness :
    ∃ combined wav, combineBuffers [stereoFrame, stereoFrame] = Except.ok (some combined)
      ∧ audioBufferToWav combined = some wav
      ∧ ∀ c, c < 2 →
          List.Forall₂ (fun decoded original => |decoded - original| < 1 / 32767)
            (specDecodeChannel 2 c wav)
            (([stereoFrame, stereoFrame].map (fun b => channelSamples b c)).flatten) :=
  wav_round_trip [stereoFrame, stereoFrame] 2 (by simp) (by decide) (by decide) (Or.inr rfl)
    (by with_unfolding_all decide)

set_option maxRecDepth 4000 in
/-- C12, evaluated on the code: lists that mix a mono and a stereo chunk, each of one
frame with samples between -1 and 1. With the stereo chunk first, `combineBuffers` asks
the mono chunk for its channel 1 and throws. With the mono chunk first the combined
buffer has the one channel of the first chunk: the encoded file holds two samples, the
mono frame and the left sample of the stereo frame, and the right sample of the stereo
chunk is in no channel of what is read back. -/
theorem mixed_chunks_do_not_round_trip :
    combineBuffers [stereoFrame, monoFrame] = Except.error "IndexSizeError"
    ∧ combineBuffers [monoFrame, stereoFrame] =
        Except.ok (some { sampleRate := 24000, length := 2, channels := [[0, 1 / 2]] })
    ∧ (audioBufferToWav { sampleRate := 24000, length := 2, channels := [[0, 1 / 2]] }).map
        List.length = some 48
    ∧ channelSamples stereoFrame 1 = [-1 / 2] := by
  refine ⟨by with_unfolding_all rfl, by with_unfolding_all rfl, by with_unfolding_all decide,
    by with_unfolding_all rfl⟩

/-! ## Scheduling -/

theorem playNext_of_cons (dom : Dom) (p : Player) (ctx : AudioContext) (buffer : AudioBuffer)
    (queue : List AudioBuffer) (hctx : p.audioContext = some ctx)
    (hq : p.audioQueue = buffer :: queue) :
    (playNext dom p).scheduled =
        p.scheduled ++ [{ buffer := buffer, startAt := max ctx.currentTime p.nextStartTime }]
    ∧ (playNext dom p).nextStartTime = max ctx.currentTime p.nextStartTime + buffer.duration
    ∧ (playNext dom p).currentSource =
        some { buffer := buffer, startAt := max ctx.currentTime p.nextStartTime, stopped := false }
    ∧ (playNext dom p).audioQueue = queue
    ∧ (playNext dom p).isPlaying = true
    ∧ (playNext dom p).playedDuration = p.playedDuration
    ∧ (playNext dom p).playbackStartTime =
        (if p.playbackStartTime = 0 then max ctx.currentTime p.nextStartTime
         else p.playbackStartTime) := by
  obtain ⟨c, q, _, _, _, _, _, _, _, _, _, _, _, _, _, _, _, _, _⟩ := p
  simp only at hctx hq
  subst hctx hq
  simp only [playNext, startProgressUpdates, startWaveformAnimation]
  split_ifs <;> simp_all

/-- C13: when `playNext` runs on a player with an audio context and a non-empty queue,
the head of the queue is started at `startAt = max(currentTime, nextStartTime)`, it
leaves the queue and becomes the current source, and `nextStartTime` becomes
`startAt` plus the duration of that chunk. -/
theorem playNext_schedules_head (dom : Dom) (p : Player) (ctx : AudioContext)
    (buffer : AudioBuffer) (queue : List AudioBuffer) (hctx : p.audioContext = some ctx)
    (hq : p.audioQueue = buffer :: queue) :
    (playNext dom p).scheduled =
        p.scheduled ++ [{ buffer := buffer, startAt := max ctx.currentTime p.nextStartTime }]
    ∧ (playNext dom p).nextStartTime = max ctx.currentTime p.nextStartTime + buffer.duration
    ∧ (playNext dom p).currentSource =
        some { buffer := buffer, startAt := max ctx.currentTime p.nextStartTime, stopped := false }
    ∧ (playNext dom p).audioQueue = queue
    ∧ (playNext dom p).isPlaying = true := by
  obtain ⟨h1, h2, h3, h4, h5, _⟩ := playNext_of_cons dom p ctx buffer queue hctx hq
  exact ⟨h1, h2, h3, h4, h5⟩

/-- Witness of C13: a queue of two chunks on a context whose clock reads 3, with
`nextStartTime` at 5. -/
theorem playNext_schedules_head_witness :
    (playNext fullDom
        { Player.new with audioContext := some { suspended := false, currentTime := 3 },
                          audioQueue := [monoFrame, monoPair], nextStartTime := 5 }).scheduled =
      [] ++ [{ buffer := monoFrame, startAt := max 3 5 }] :=
  (playNext_schedules_head fullDom
    { Player.new with audioContext := some { suspended := false, currentTime := 3 },
                      audioQueue := [monoFrame, monoPair], nextStartTime := 5 }
    { suspended := false, currentTime := 3 } monoFrame [monoPair] rfl rfl).1

theorem onended_starts_next (dom : Dom) (bufferDuration : ℚ) (p : Player) (ctx : AudioContext)
    (buffer : AudioBuffer) (queue : List AudioBuffer) (hctx : p.audioContext = some ctx)
    (hq : p.audioQueue = buffer :: queue) :
    (onended dom bufferDuration p).scheduled =
        p.scheduled ++ [{ buffer := buffer, startAt := max ctx.currentTime p.nextStartTime }]
    ∧ (onended dom bufferDuration p).playedDuration = p.playedDuration + bufferDuration := by
  obtain ⟨h1, _, _, _, _, h6, _⟩ := playNext_of_cons dom
    { p with playedDuration := p.playedDuration + bufferDuration,
             playbackStartTime := ctx.currentTime } ctx buffer queue hctx hq
  have hon : onended dom bufferDuration p =
      playNext dom { p with playedDuration := p.playedDuration + bufferDuration,
                            playbackStartTime := ctx.currentTime } := by
    unfold onended
    simp only [hctx]
  rw [hon]
  exact ⟨h1, h6⟩

/-- C14, evaluated on the code: two chunks of one second. The first is started when the
clock reads 1 and ends at 2; the second is queued while the first plays. The next chunk
is only started inside `onended` of the previous one, with
`startAt = max(currentTime, nextStartTime)`: when the callback runs 10 ms after the end,
the second segment starts at 2.01 and not at 2. Only a callback that runs at the very
end of the chunk gives the start 2. -/
theorem late_callback_leaves_a_gap :
    (runActions timingEnv timingStart
        [Action.advance 1, Action.chunk [] 24000, Action.chunk [] 24000]).audioQueue = [oneSecond]
    ∧ (runActions timingEnv timingStart
        [Action.advance 1, Action.chunk [] 24000, Action.chunk [] 24000]).nextStartTime = 2
    ∧ (runActions timingEnv timingStart
        [Action.advance 1, Action.chunk [] 24000, Action.chunk [] 24000,
         Action.advance (101 / 100), Action.ended]).scheduled =
        [{ buffer := oneSecond, startAt := 1 }, { buffer := oneSecond, startAt := 201 / 100 }]
    ∧ (runActions timingEnv timingStart
        [Action.advance 1, Action.chunk [] 24000, Action.chunk [] 24000,
         Action.advance 1, Action.ended]).scheduled =
        [{ buffer := oneSecond, startAt := 1 }, { buffer := oneSecond, startAt := 2 }] := by
  refine ⟨?_, ?_, ?_, ?_⟩ <;>
    norm_num [runActions, step, timingStart, timingEnv, init, showStreamingUI, Player.new,
      fullDom, advanceClock, addChunk, playNext, startProgressUpdates, startWaveformAnimation,
      onended, endedDue, AudioBuffer.duration, oneSecond]

/-- C15, evaluated on the code: three chunks of one second. The first plays from 1 to 2;
the queue is then empty until the second arrives when the clock reads 5; the third is
queued while the second plays. When the clock reads 6, just before `onended` of the
second chunk, the progress timer reports the position 5; right after the callback, at
the same reading of the clock and with the player still not paused, it reports 2, and
half a second later 2.5. -/
theorem position_drops_at_end_of_chunk :
    progressTick (runActions timingEnv timingStart
        [Action.advance 1, Action.chunk [] 24000, Action.advance 1, Action.ended,
         Action.advance 3, Action.chunk [] 24000, Action.chunk [] 24000,
         Action.advance 1]) = some (5, 3)
    ∧ progressTick (runActions timingEnv timingStart
        [Action.advance 1, Action.chunk [] 24000, Action.advance 1, Action.ended,
         Action.advance 3, Action.chunk [] 24000, Action.chunk [] 24000,
         Action.advance 1, Action.ended]) = some (2, 3)
    ∧ progressTick (runActions timingEnv timingStart
        [Action.advance 1, Action.chunk [] 24000, Action.advance 1, Action.ended,
         Action.advance 3, Action.chunk [] 24000, Action.chunk [] 24000,
         Action.advance 1, Action.ended, Action.advance (1 / 2)]) = some (5 / 2, 3)
    ∧ (runActions timingEnv timingStart
        [Action.advance 1, Action.chunk [] 24000, Action.advance 1, Action.ended,
         Action.advance 3, Action.chunk [] 24000, Action.chunk [] 24000,
         Action.advance 1]).isPaused = false
    ∧ (runActions timingEnv timingStart
        [Action.advance 1, Action.chunk [] 24000, Action.advance 1, Action.ended,
         Action.advance 3, Action.chunk [] 24000, Action.chunk [] 24000,
         Action.advance 1, Action.ended]).isPaused = false := by
  refine ⟨?_, ?_, ?_, ?_, ?_⟩ <;>
    norm_num [runActions, step, timingStart, timingEnv, init, showStreamingUI, Player.new,
      fullDom, advanceClock, addChunk, playNext, startProgressUpdates, startWaveformAnimation,
      onended, endedDue, progressTick, AudioBuffer.duration, oneSecond]

/-- C16, evaluated on the code: two chunks of one second. The first plays from 1 to 2 and
its `onended` runs at 2; the second arrives when the clock reads 5 and is started at 5,
but `playbackStartTime` keeps the value 2 set by the callback. The progress timer then
reports the position 4 against a total duration of 2. -/
theorem position_exceeds_total_after_buffering :
    (runActions timingEnv timingStart
        [Action.advance 1, Action.chunk [] 24000, Action.advance 1, Action.ended,
         Action.advance 3]).isPlaying = false
    ∧ progressTick (runActions timingEnv timingStart
        [Action.advance 1, Action.chunk [] 24000, Action.advance 1, Action.ended,
         Action.advance 3, Action.chunk [] 24000]) = some (4, 2) := by
  refine ⟨?_, ?_⟩ <;>
    norm_num [runActions, step, timingStart, timingEnv, init, showStreamingUI, Player.new,
      fullDom, advanceClock, addChunk, playNext, startProgressUpdates, startWaveformAnimation,
      onended, endedDue, progressTick, AudioBuffer.duration, oneSecond]

/-! ## Pause, resume and stop -/

theorem progressTick_of_paused (p : Player) (h : p.isPaused = true) : progressTick p = none := by
  simp [progressTick, h]

theorem pause_isPaused (p : Player) (ctx : AudioContext) (hctx : p.audioContext = some ctx) :
    (pause p).isPaused = true := by
  unfold pause
  split_ifs with hp
  · exact hp
  · simp only [hctx, stopWaveformAnimation]
    split_ifs <;> rfl

/-- C17: while `isPaused` is true, the callback of the progress timer returns without
updating the display, whatever the clock reads: after any number of ticks the displayed
position is the one shown before them. This is the state in which `pause()` leaves a
player that has an audio context. -/
theorem paused_ticks_change_nothing (p : Player) (clocks : List ℚ) (shown : Option ℚ)
    (h : p.isPaused = true) :
    displayAfterTicks p clocks shown = shown
    ∧ (∀ clock : ℚ, progressTick
        { p with audioContext := p.audioContext.map (fun ctx => { ctx with currentTime := clock }) }
          = none)
    ∧ (∀ (q : Player) (ctx : AudioContext), q.audioContext = some ctx →
        displayAfterTicks (pause q) clocks shown = shown) := by
  have hticks : ∀ (r : Player), r.isPaused = true → ∀ (cs : List ℚ) (s : Option ℚ),
      displayAfterTicks r cs s = s := by
    intro r hr cs
    induction cs with
    | nil => intro s; rfl
    | cons clock rest ih =>
      intro s
      simp only [displayAfterTicks]
      rw [progressTick_of_paused _ (by simpa using hr)]
      exact ih s
  refine ⟨hticks p h clocks shown, fun clock => progressTick_of_paused _ (by simpa using h), ?_⟩
  intro q ctx hctx
  exact hticks (pause q) (pause_isPaused q ctx hctx) clocks shown

/-- Witness of C17: the player of the timing scenario, paused, ticked at three readings
of the clock. -/
theorem paused_ticks_change_nothing_witness :
    displayAfterTicks (pause timingStart) [1, 2, 3] (some (1 / 2)) = some (1 / 2) :=
  (paused_ticks_change_nothing (pause timingStart) [1, 2, 3] (some (1 / 2))
    (by with_unfolding_all decide)).1

/-- C18: for every player, `pause()` applied twice in a row leaves the same player as
`pause()` applied once, and `resume()` applied twice in a row leaves the same player as
`resume()` applied once, on every field. -/
theorem pause_resume_idempotent (dom : Dom) (p : Player) :
    pause (pause p) = pause p ∧ resume dom (resume dom p) = resume dom p := by
  constructor
  · by_cases hp : p.isPaused = true
    · have h1 : pause p = p := by simp [pause, hp]
      rw [h1, h1]
    · cases hctx : p.audioContext with
      | none =>
        have h1 : pause p = p := by simp [pause, hp, hctx]
        rw [h1, h1]
      | some ctx =>
        have h2 := pause_isPaused p ctx hctx
        generalize pause p = q at h2
        simp [pause, h2]
  · by_cases hp : p.isPaused = true
    · cases hctx : p.audioContext with
      | none =>
        have h1 : resume dom p = p := by simp [resume, hp, hctx]
        rw [h1, h1]
      | some ctx =>
        have h2 : (resume dom p).isPaused = false := by
          unfold resume
          simp only [hp, hctx, Bool.not_true, Bool.false_eq_true, if_false,
            startWaveformAnimation]
          split_ifs <;> rfl
        generalize resume dom p = q at h2
        simp [resume, h2]
    · have h1 : resume dom p = p := by simp [resume, hp]
      rw [h1, h1]

theorem stopWaveformAnimation_fields (p : Player) :
    (stopWaveformAnimation p).waveformAnimationFrame = false
    ∧ (stopWaveformAnimation p).audioQueue = p.audioQueue
    ∧ (stopWaveformAnimation p).isPlaying = p.isPlaying
    ∧ (stopWaveformAnimation p).isPaused = p.isPaused
    ∧ (stopWaveformAnimation p).progressInterval = p.progressInterval := by
  unfold stopWaveformAnimation
  split_ifs with h
  · simp
  · simp at h
    simp [h]

theorem hideStreamingUI_fields (dom : Dom) (p : Player) :
    (hideStreamingUI dom p).waveformAnimationFrame = false
    ∧ (hideStreamingUI dom p).progressInterval = false
    ∧ (hideStreamingUI dom p).audioQueue = p.audioQueue
    ∧ (hideStreamingUI dom p).isPlaying = p.isPlaying
    ∧ (hideStreamingUI dom p).isPaused = p.isPaused := by
  have g := stopWaveformAnimation_fields
  simp only [hideStreamingUI, g]
  refine ⟨trivial, ?_, ?_, ?_, ?_⟩ <;> split_ifs <;> simp_all

/-- C20: after `stop()` the pending queue is empty, `isPlaying` and `isPaused` are false,
and the handles of the progress timer and of the waveform animation are `null`. -/
theorem stop_makes_idle (dom : Dom) (p : Player) :
    (stop dom p).audioQueue = []
    ∧ (stop dom p).isPlaying = false
    ∧ (stop dom p).isPaused = false
    ∧ (stop dom p).progressInterval = false
    ∧ (stop dom p).waveformAnimationFrame = false := by
  have h := hideStreamingUI_fields dom
  have g := stopWaveformAnimation_fields
  simp only [stop, h, g]
  refine ⟨?_, ?_, ?_, trivial, trivial⟩ <;> split_ifs <;> rfl

theorem stopWaveformAnimation_keeps (p : Player) :
    (stopWaveformAnimation p).audioContext = p.audioContext
    ∧ (stopWaveformAnimation p).playedDuration = p.playedDuration
    ∧ (stopWaveformAnimation p).playbackStartTime = p.playbackStartTime
    ∧ (stopWaveformAnimation p).totalDuration = p.totalDuration
    ∧ (stopWaveformAnimation p).pausedAtPosition = p.pausedAtPosition := by
  unfold stopWaveformAnimation
  split_ifs <;> simp

theorem startWaveformAnimation_keeps (dom : Dom) (p : Player) :
    (startWaveformAnimation dom p).audioContext = p.audioContext
    ∧ (startWaveformAnimation dom p).playedDuration = p.playedDuration
    ∧ (startWaveformAnimation dom p).playbackStartTime = p.playbackStartTime
    ∧ (startWaveformAnimation dom p).totalDuration = p.totalDuration
    ∧ (startWaveformAnimation dom p).isPaused = p.isPaused
    ∧ (startWaveformAnimation dom p).isPlaying = p.isPlaying := by
  unfold startWaveformAnimation
  split_ifs <;> simp

theorem pause_fields (p : Player) (ctx : AudioContext) (hctx : p.audioContext = some ctx)
    (hpaused : p.isPaused = false) :
    (pause p).audioContext = some { ctx with suspended := true }
    ∧ (pause p).playedDuration = p.playedDuration
    ∧ (pause p).playbackStartTime = p.playbackStartTime
    ∧ (pause p).totalDuration = p.totalDuration
    ∧ (pause p).isPaused = true
    ∧ (pause p).isPlaying = p.isPlaying
    ∧ (p.isPlaying = true → 0 < p.playbackStartTime →
        (pause p).pausedAtPosition = p.playedDuration + (ctx.currentTime - p.playbackStartTime)) := by
  have g := stopWaveformAnimation_fields
  have k := stopWaveformAnimation_keeps
  unfold pause
  simp only [hpaused, hctx, Bool.false_eq_true, if_false, g, k]
  refine ⟨trivial, ?_, ?_, ?_, ?_, ?_, ?_⟩
  · split_ifs <;> rfl
  · split_ifs <;> rfl
  · split_ifs <;> rfl
  · split_ifs <;> rfl
  · split_ifs <;> rfl
  · intro hplay hpos
    simp [hplay, hpos]

theorem advanceClock_of_suspended (dt : ℚ) (p : Player) (ctx : AudioContext)
    (hctx : p.audioContext = some ctx) (hs : ctx.suspended = true) : advanceClock dt p = p := by
  simp [advanceClock, hctx, hs]

theorem resume_fields (dom : Dom) (p : Player) (ctx : AudioContext)
    (hctx : p.audioContext = some ctx) (hpaused : p.isPaused = true) :
    (resume dom p).audioContext = some { ctx with suspended := false }
    ∧ (resume dom p).playedDuration = p.playedDuration
    ∧ (resume dom p).playbackStartTime = p.playbackStartTime
    ∧ (resume dom p).totalDuration = p.totalDuration
    ∧ (resume dom p).isPaused = false
    ∧ (resume dom p).isPlaying = p.isPlaying := by
  have k := startWaveformAnimation_keeps dom
  unfold resume
  simp only [hpaused, hctx, Bool.not_true, Bool.false_eq_true, if_false, k]
  exact ⟨trivial, trivial, trivial, trivial, trivial, trivial⟩

theorem pause_resume_fields (dom : Dom) (p : Player) (ctx : AudioContext) (dt : ℚ)
    (hctx : p.audioContext = some ctx) (hpaused : p.isPaused = false) :
    (resume dom (advanceClock dt (pause p))).audioContext = some { ctx with suspended := false }
    ∧ (resume dom (advanceClock dt (pause p))).playedDuration = p.playedDuration
    ∧ (resume dom (advanceClock dt (pause p))).playbackStartTime = p.playbackStartTime
    ∧ (resume dom (advanceClock dt (pause p))).totalDuration = p.totalDuration
    ∧ (resume dom (advanceClock dt (pause p))).isPaused = false
    ∧ (resume dom (advanceClock dt (pause p))).isPlaying = p.isPlaying
    ∧ (p.isPlaying = true → 0 < p.playbackStartTime →
        (pause p).pausedAtPosition = p.playedDuration + (ctx.currentTime - p.playbackStartTime)) := by
  obtain ⟨a1, a2, a3, a4, a5, a6, a7⟩ := pause_fields p ctx hctx hpaused
  rw [advanceClock_of_suspended dt (pause p) _ a1 rfl]
  obtain ⟨b1, b2, b3, b4, b5, b6⟩ := resume_fields dom (pause p) _ a1 a5
  exact ⟨b1, by rw [b2, a2], by rw [b3, a3], by rw [b4, a4], b5, by rw [b6, a6], a7⟩

/-- C19: for every playing player that is not paused, `pause()`, then any passage of
time, then `resume()` leaves `playedDuration` and `playbackStartTime` as they were and
the output clock at the reading it had at the pause, since the clock of a suspended
context stands still. The position `playedDuration + (currentTime - playbackStartTime)`
computed right after the resume, and the position the progress timer reports, are
those of the moment of the pause; when `playbackStartTime > 0` it is also the value
stored in `pausedAtPosition`. -/
theorem pause_resume_keeps_position (dom : Dom) (p : Player) (ctx : AudioContext) (dt : ℚ)
    (hctx : p.audioContext = some ctx) (hpaused : p.isPaused = false)
    (hplaying : p.isPlaying = true) :
    (∃ ctx1, (resume dom (advanceClock dt (pause p))).audioContext = some ctx1
      ∧ ctx1.currentTime = ctx.currentTime
      ∧ (resume dom (advanceClock dt (pause p))).playedDuration
          + (ctx1.currentTime - (resume dom (advanceClock dt (pause p))).playbackStartTime)
        = p.playedDuration + (ctx.currentTime - p.playbackStartTime))
    ∧ (resume dom (advanceClock dt (pause p))).isPaused = false
    ∧ progressTick (resume dom (advanceClock dt (pause p))) = progressTick p
    ∧ (0 < p.playbackStartTime →
        (pause p).pausedAtPosition = p.playedDuration + (ctx.currentTime - p.playbackStartTime)
        ∧ progressTick p =
            some (p.playedDuration + (ctx.currentTime - p.playbackStartTime), p.totalDuration)) := by
  obtain ⟨h1, h2, h3, h4, h5, h6, h7⟩ := pause_resume_fields dom p ctx dt hctx hpaused
  refine ⟨⟨_, h1, rfl, by rw [h2, h3]⟩, h5, ?_, ?_⟩
  · simp only [progressTick, h1, h2, h3, h4, h5, h6, hctx, hpaused]
  · intro hpos
    refine ⟨h7 hplaying hpos, ?_⟩
    simp [progressTick, hctx, hpaused, hplaying, hpos]

/-- Witness of C19: a chunk of one second started when the clock reads 1, paused half a
second later, resumed after ten seconds: the position is one half before and after. -/
theorem pause_resume_keeps_position_witness :
    progressTick (resume fullDom (advanceClock 10 (pause
        (runActions timingEnv timingStart
          [Action.advance 1, Action.chunk [] 24000, Action.advance (1 / 2)])))) =
      progressTick (runActions timingEnv timingStart
          [Action.advance 1, Action.chunk [] 24000, Action.advance (1 / 2)])
    ∧ progressTick (runActions timingEnv timingStart
          [Action.advance 1, Action.chunk [] 24000, Action.advance (1 / 2)]) = some (1 / 2, 1) :=
  ⟨(pause_resume_keeps_position fullDom
      (runActions timingEnv timingStart
        [Action.advance 1, Action.chunk [] 24000, Action.advance (1 / 2)])
      { suspended := false, currentTime := 3 / 2 } 10
      (by norm_num [runActions, step, timingStart, timingEnv, init, showStreamingUI, Player.new,
        fullDom, advanceClock, addChunk, playNext, startProgressUpdates, startWaveformAnimation])
      (by simp [runActions, step, timingStart, timingEnv, init, showStreamingUI, Player.new,
        fullDom, advanceClock, addChunk, playNext, startProgressUpdates, startWaveformAnimation])
      (by simp [runActions, step, timingStart, timingEnv, init, showStreamingUI, Player.new,
        fullDom, advanceClock, addChunk, playNext, startProgressUpdates,
        startWaveformAnimation])).2.2.1,
   by norm_num [runActions, step, timingStart, timingEnv, init, showStreamingUI, Player.new,
        fullDom, advanceClock, addChunk, playNext, startProgressUpdates, startWaveformAnimation,
        progressTick, AudioBuffer.duration, oneSecond]⟩


/-! ## Runs of a session -/

theorem stopWaveformAnimation_core (p : Player) :
    sessionCore (stopWaveformAnimation p) = sessionCore p
    ∧ (stopWaveformAnimation p).audioContext = p.audioContext := by
  unfold stopWaveformAnimation
  split_ifs <;> exact ⟨rfl, rfl⟩

theorem startWaveformAnimation_core (dom : Dom) (p : Player) :
    sessionCore (startWaveformAnimation dom p) = sessionCore p
    ∧ (startWaveformAnimation dom p).audioContext = p.audioContext := by
  unfold startWaveformAnimation
  split_ifs <;> exact ⟨rfl, rfl⟩

theorem hideStreamingUI_core (dom : Dom) (p : Player) :
    sessionCore (hideStreamingUI dom p) = sessionCore p
    ∧ (hideStreamingUI dom p).audioContext = p.audioContext := by
  have g := stopWaveformAnimation_core
  simp only [hideStreamingUI, g]
  constructor <;> split_ifs <;> rfl

theorem pause_core (p : Player) :
    sessionCore (pause p) = sessionCore p
    ∧ (pause p).audioContext.isSome = p.audioContext.isSome := by
  unfold pause
  split_ifs with hp
  · exact ⟨rfl, rfl⟩
  · cases hctx : p.audioContext with
    | none => simp [hctx]
    | some ctx =>
      have g := stopWaveformAnimation_core
      simp only [g]
      refine ⟨?_, rfl⟩
      split_ifs <;> rfl

theorem resume_core (dom : Dom) (p : Player) :
    sessionCore (resume dom p) = sessionCore p
    ∧ (resume dom p).audioContext.isSome = p.audioContext.isSome := by
  unfold resume
  split_ifs with hp
  · exact ⟨rfl, rfl⟩
  · cases hctx : p.audioContext with
    | none => simp [hctx]
    | some ctx =>
      have g := startWaveformAnimation_core dom
      simp only [g]
      exact ⟨rfl, rfl⟩

theorem advanceClock_core (dt : ℚ) (p : Player) :
    sessionCore (advanceClock dt p) = sessionCore p
    ∧ (advanceClock dt p).audioContext.isSome = p.audioContext.isSome := by
  unfold advanceClock
  cases hctx : p.audioContext with
  | none => simp [hctx]
  | some ctx =>
    simp only []
    split_ifs <;> simp [sessionCore, hctx]

theorem stop_core (dom : Dom) (p : Player) :
    sessionCore (stop dom p) = (p.scheduled, p.nextStartTime, [], p.allBuffers, p.receivedChunks)
    ∧ (stop dom p).audioContext = p.audioContext := by
  have h := hideStreamingUI_core dom
  have g := stopWaveformAnimation_core
  simp only [stop, h, g]
  constructor <;> split_ifs <;> cases p.currentSource <;> rfl

theorem duration_nonneg (b : AudioBuffer) : 0 ≤ b.duration := by
  unfold AudioBuffer.duration
  positivity

theorem playNext_of_nil (dom : Dom) (p : Player) (hq : p.audioQueue = []) :
    playNext dom p = { p with isPlaying := false } := by
  unfold playNext
  rw [hq]

theorem playNext_inv (dom : Dom) (p : Player) (ctx : AudioContext)
    (hctx : p.audioContext = some ctx) :
    (playNext dom p).audioContext = some ctx
    ∧ (NoOverlap p → NoOverlap (playNext dom p))
    ∧ p.nextStartTime ≤ (playNext dom p).nextStartTime
    ∧ (playNext dom p).scheduled.map Segment.buffer ++ (playNext dom p).audioQueue =
        p.scheduled.map Segment.buffer ++ p.audioQueue
    ∧ (playNext dom p).allBuffers = p.allBuffers
    ∧ (playNext dom p).receivedChunks = p.receivedChunks := by
  obtain ⟨k1, _, k3, k4, _⟩ := playNext_keeps dom p
  refine ⟨by rw [k3, hctx], ?_, ?_, ?_, k1, k4⟩
  · cases hq : p.audioQueue with
    | nil =>
      rw [playNext_of_nil dom p hq]
      exact fun h => h
    | cons buffer queue =>
      obtain ⟨h1, h2, _, h4, _⟩ := playNext_of_cons dom p ctx buffer queue hctx hq
      intro hno
      obtain ⟨hchain, hend⟩ := hno
      unfold NoOverlap
      rw [h1, h2]
      refine ⟨?_, ?_⟩
      · rw [List.chain'_append]
        refine ⟨hchain, List.chain'_singleton _, ?_⟩
        intro s hs t ht
        simp only [List.head?_cons, Option.mem_def, Option.some.injEq] at ht
        subst ht
        exact le_trans (hend s (List.mem_of_mem_getLast? hs)) (le_max_right _ _)
      · intro s hs
        rcases List.mem_append.mp hs with hs | hs
        · have := hend s hs
          have := le_max_right ctx.currentTime p.nextStartTime
          have := duration_nonneg buffer
          linarith
        · simp only [List.mem_singleton] at hs
          subst hs
          exact le_rfl
  · cases hq : p.audioQueue with
    | nil =>
      rw [playNext_of_nil dom p hq]
    | cons buffer queue =>
      obtain ⟨h1, h2, _, h4, _⟩ := playNext_of_cons dom p ctx buffer queue hctx hq
      rw [h2]
      have := le_max_right ctx.currentTime p.nextStartTime
      have := duration_nonneg buffer
      linarith
  · cases hq : p.audioQueue with
    | nil =>
      rw [playNext_of_nil dom p hq]
      simp [hq]
    | cons buffer queue =>
      obtain ⟨h1, h2, _, h4, _⟩ := playNext_of_cons dom p ctx buffer queue hctx hq
      rw [h1, h4]
      simp

theorem addChunk_inv (env : Env) (p : Player) (ctx : AudioContext) (audio : List Char)
    (rate : Nat) (hctx : p.audioContext = some ctx) :
    (addChunk env p audio rate).1.audioContext = some ctx
    ∧ (NoOverlap p → NoOverlap (addChunk env p audio rate).1)
    ∧ p.nextStartTime ≤ (addChunk env p audio rate).1.nextStartTime
    ∧ (addChunk env p audio rate).1.scheduled.map Segment.buffer
          ++ (addChunk env p audio rate).1.audioQueue =
        p.scheduled.map Segment.buffer ++ p.audioQueue ++ (decodedBuffer env audio).toList
    ∧ (addChunk env p audio rate).1.allBuffers = p.allBuffers ++ (decodedBuffer env audio).toList
    ∧ (addChunk env p audio rate).1.receivedChunks = p.receivedChunks + 1 := by
  obtain ⟨r1, r2, _, r4⟩ := addChunk_retains env p audio rate ctx hctx
  refine ⟨r1, ?_, ?_, ?_, r2, r4⟩
  all_goals
    cases h : env.decode audio with
    | invalidBase64 message =>
      rw [addChunk_invalidBase64 env p _ _ message h]
      try first
        | exact fun hno => hno
        | exact le_rfl
        | simp [decodedBuffer, h]
    | rejected =>
      rw [addChunk_rejected env p _ _ h]
      try first
        | exact fun hno => hno
        | exact le_rfl
        | simp [decodedBuffer, h]
    | decoded audioBuffer =>
      rw [(addChunk_decoded env p _ _ ctx audioBuffer hctx h).1]
      simp only []
      obtain ⟨_, i2, i3, i4, _⟩ := playNext_inv env.dom
        { p with sampleRate := rate, receivedChunks := p.receivedChunks + 1,
                 allBuffers := p.allBuffers ++ [audioBuffer],
                 totalDuration := p.totalDuration + audioBuffer.duration,
                 audioQueue := p.audioQueue ++ [audioBuffer] } ctx hctx
      split_ifs
      · first
          | exact fun hno => i2 hno
          | exact i3
          | (rw [i4]; simp [decodedBuffer, h])
      · first
          | exact fun hno => hno
          | exact le_rfl
          | simp [decodedBuffer, h]

theorem onended_inv (dom : Dom) (bufferDuration : ℚ) (p : Player) (ctx : AudioContext)
    (hctx : p.audioContext = some ctx) :
    (onended dom bufferDuration p).audioContext = some ctx
    ∧ (NoOverlap p → NoOverlap (onended dom bufferDuration p))
    ∧ p.nextStartTime ≤ (onended dom bufferDuration p).nextStartTime
    ∧ (onended dom bufferDuration p).scheduled.map Segment.buffer
          ++ (onended dom bufferDuration p).audioQueue =
        p.scheduled.map Segment.buffer ++ p.audioQueue
    ∧ (onended dom bufferDuration p).allBuffers = p.allBuffers
    ∧ (onended dom bufferDuration p).receivedChunks = p.receivedChunks := by
  have hon : onended dom bufferDuration p =
      playNext dom { p with playedDuration := p.playedDuration + bufferDuration,
                            playbackStartTime := ctx.currentTime } := by
    unfold onended
    simp only [hctx]
  rw [hon]
  exact playNext_inv dom _ ctx hctx

theorem core_transfers (p q : Player) (h : sessionCore q = sessionCore p) :
    (NoOverlap p → NoOverlap q)
    ∧ p.nextStartTime ≤ q.nextStartTime
    ∧ (OrderKept p → OrderKept q)
    ∧ q.allBuffers = p.allBuffers
    ∧ q.receivedChunks = p.receivedChunks := by
  simp only [sessionCore, Prod.mk.injEq] at h
  obtain ⟨h1, h2, h3, h4, h5⟩ := h
  unfold NoOverlap OrderKept
  rw [h1, h2, h3, h4, h5]
  exact ⟨fun x => x, le_rfl, fun x => x, rfl, rfl⟩

theorem step_inv (env : Env) (p : Player) (a : Action) (hsome : p.audioContext.isSome = true) :
    (step env p a).audioContext.isSome = true
    ∧ (NoOverlap p → NoOverlap (step env p a))
    ∧ p.nextStartTime ≤ (step env p a).nextStartTime
    ∧ (a.isStop = false → OrderKept p → OrderKept (step env p a))
    ∧ (step env p a).allBuffers = p.allBuffers ++ (a.retained env).toList
    ∧ (step env p a).receivedChunks = p.receivedChunks + (if a.isChunk then 1 else 0) := by
  obtain ⟨ctx, hctx⟩ := Option.isSome_iff_exists.mp hsome
  cases a with
  | chunk audio rate =>
    obtain ⟨h1, h2, h3, h4, h5, h6⟩ := addChunk_inv env p ctx audio rate hctx
    refine ⟨by simp [step, h1], h2, h3, ?_, h5, by simpa [step, Action.isChunk] using h6⟩
    intro _ hord
    unfold OrderKept at hord ⊢
    simp only [step]
    rw [h4, h5, hord]
  | ended =>
    have e1 : Action.ended.isChunk = false := rfl
    have e2 : Action.retained env Action.ended = none := rfl
    simp only [step, e1, e2, Bool.false_eq_true, if_false, Option.toList, List.append_nil,
      Nat.add_zero]
    have hid : (p.audioContext.isSome = true
        ∧ (NoOverlap p → NoOverlap p) ∧ p.nextStartTime ≤ p.nextStartTime
        ∧ (Action.ended.isStop = false → OrderKept p → OrderKept p)
        ∧ p.allBuffers = p.allBuffers
        ∧ p.receivedChunks = p.receivedChunks) :=
      ⟨hsome, fun x => x, le_rfl, fun _ x => x, rfl, rfl⟩
    cases hsrc : p.currentSource with
    | none => exact hid
    | some source =>
      simp only []
      by_cases hdue : endedDue p = true
      · rw [if_pos hdue]
        obtain ⟨h1, h2, h3, h4, h5, h6⟩ := onended_inv env.dom source.buffer.duration p ctx hctx
        refine ⟨by simp [h1], h2, h3, ?_, h5, h6⟩
        intro _ hord
        unfold OrderKept at hord ⊢
        rw [h4, h5, hord]
      · rw [if_neg hdue]
        exact hid
  | advance dt =>
    obtain ⟨hc, hs⟩ := advanceClock_core dt p
    obtain ⟨t1, t2, t3, t4, t5⟩ := core_transfers p _ hc
    exact ⟨by simp only [step]; rw [hs]; exact hsome, t1, t2, fun _ => t3,
      by simp [step, Action.retained, t4], by simp [step, Action.isChunk, t5]⟩
  | pause =>
    obtain ⟨hc, hs⟩ := pause_core p
    obtain ⟨t1, t2, t3, t4, t5⟩ := core_transfers p _ hc
    exact ⟨by simp only [step]; rw [hs]; exact hsome, t1, t2, fun _ => t3,
      by simp [step, Action.retained, t4], by simp [step, Action.isChunk, t5]⟩
  | resume =>
    obtain ⟨hc, hs⟩ := resume_core env.dom p
    obtain ⟨t1, t2, t3, t4, t5⟩ := core_transfers p _ hc
    exact ⟨by simp only [step]; rw [hs]; exact hsome, t1, t2, fun _ => t3,
      by simp [step, Action.retained, t4], by simp [step, Action.isChunk, t5]⟩
  | stop =>
    obtain ⟨hc, hs⟩ := stop_core env.dom p
    simp only [sessionCore, Prod.mk.injEq] at hc
    obtain ⟨c1, c2, _, c4, c5⟩ := hc
    refine ⟨by simp only [step]; rw [hs]; exact hsome, ?_, by simp only [step]; rw [c2],
      fun h => by simp [Action.isStop] at h, by simp [step, Action.retained, c4],
      by simp [step, Action.isChunk, c5]⟩
    intro hno
    unfold NoOverlap at hno ⊢
    simp only [step]
    rw [c1, c2]
    exact hno

theorem run_inv (env : Env) (actions : List Action) :
    ∀ p : Player, p.audioContext.isSome = true →
      (runActions env p actions).audioContext.isSome = true
      ∧ (NoOverlap p → NoOverlap (runActions env p actions))
      ∧ p.nextStartTime ≤ (runActions env p actions).nextStartTime
      ∧ ((∀ a ∈ actions, a.isStop = false) → OrderKept p →
          OrderKept (runActions env p actions))
      ∧ (runActions env p actions).allBuffers =
          p.allBuffers ++ actions.filterMap (Action.retained env)
      ∧ (runActions env p actions).receivedChunks =
          p.receivedChunks + (actions.filter Action.isChunk).length := by
  induction actions with
  | nil =>
    intro p hsome
    exact ⟨hsome, fun x => x, le_rfl, fun _ x => x, by simp [runActions], by simp [runActions]⟩
  | cons a rest ih =>
    intro p hsome
    obtain ⟨s1, s2, s3, s4, s5, s6⟩ := step_inv env p a hsome
    obtain ⟨r1, r2, r3, r4, r5, r6⟩ := ih (step env p a) s1
    have hrun : runActions env p (a :: rest) = runActions env (step env p a) rest := rfl
    rw [hrun]
    refine ⟨r1, fun h => r2 (s2 h), le_trans s3 r3, ?_, ?_, ?_⟩
    · intro hstop hord
      exact r4 (fun b hb => hstop b (List.mem_cons_of_mem _ hb))
        (s4 (hstop a (List.mem_cons_self _ _)) hord)
    · rw [r5, s5]
      cases hret : Action.retained env a <;> simp [List.filterMap_cons, hret]
    · rw [r6, s6]
      cases hch : a.isChunk <;> simp [List.filter_cons, hch]
      omega

theorem sessionStart_fields (env : Env) :
    (sessionStart env).audioContext.isSome = true
    ∧ sessionCore (sessionStart env) = ([], 0, [], [], 0) := by
  unfold sessionStart init showStreamingUI
  split_ifs <;> simp [sessionCore, Player.new]

theorem sessionStart_inv (env : Env) :
    (sessionStart env).audioContext.isSome = true
    ∧ NoOverlap (sessionStart env) ∧ OrderKept (sessionStart env)
    ∧ (sessionStart env).allBuffers = [] ∧ (sessionStart env).receivedChunks = 0 := by
  obtain ⟨h1, h2⟩ := sessionStart_fields env
  simp only [sessionCore, Prod.mk.injEq] at h2
  obtain ⟨c1, c2, c3, c4, c5⟩ := h2
  refine ⟨h1, ?_, ?_, c4, c5⟩
  · unfold NoOverlap
    rw [c1]
    exact ⟨List.chain'_nil, fun s hs => by simp at hs⟩
  · unfold OrderKept
    rw [c1, c3, c4]
    rfl

/-- C21: `stop()` is idempotent: for every player and page, `stop()` applied to a stopped
player leaves every field as the first call left it. -/
theorem stop_is_idempotent (dom : Dom) (p : Player) : stop dom (stop dom p) = stop dom p := by
  obtain ⟨_, _, _, _, source, _, _, _, _, _, _, _, _, _, _, interval, frame, handler, _⟩ := p
  obtain ⟨_, btn, _, _, _, _, _⟩ := dom
  cases source <;> cases interval <;> cases frame <;> cases handler <;> cases btn <;>
    simp [stop, hideStreamingUI, stopWaveformAnimation]

/-- C23: in a session in which `stop()` is not called, after any sequence of chunk events,
ends of chunks, clock movements, pauses and resumes, the chunks started by `playNext`,
in the order they were started, followed by the chunks waiting in `audioQueue` are
`allBuffers`, and `allBuffers` holds the decoded chunks in the order of their events. -/
theorem chunk_order_is_kept (env : Env) (actions : List Action)
    (hstop : ∀ a ∈ actions, a.isStop = false) :
    (runActions env (sessionStart env) actions).scheduled.map Segment.buffer
        ++ (runActions env (sessionStart env) actions).audioQueue =
      (runActions env (sessionStart env) actions).allBuffers
    ∧ (runActions env (sessionStart env) actions).allBuffers =
      actions.filterMap (Action.retained env) := by
  obtain ⟨h1, _, h3, h4, _⟩ := sessionStart_inv env
  obtain ⟨_, _, _, r4, r5, _⟩ := run_inv env actions (sessionStart env) h1
  refine ⟨r4 hstop h3, ?_⟩
  rw [r5, h4, List.nil_append]

/-- Witness of C23: two chunks arrive while the clock reads 1, the first ends at 2 and
the second is started. -/
theorem chunk_order_is_kept_witness :
    (runActions timingEnv (sessionStart timingEnv)
        [Action.advance 1, Action.chunk [] 24000, Action.chunk [] 24000, Action.advance 1,
         Action.ended]).allBuffers =
      [Action.advance 1, Action.chunk [] 24000, Action.chunk [] 24000, Action.advance 1,
         Action.ended].filterMap (Action.retained timingEnv) :=
  (chunk_order_is_kept timingEnv
    [Action.advance 1, Action.chunk [] 24000, Action.chunk [] 24000, Action.advance 1,
     Action.ended] (by decide)).2

theorem playNextCalls_inv (dom : Dom) (calls : List (ℚ × List AudioBuffer)) :
    ∀ p : Player, p.audioContext.isSome = true → NoOverlap p →
      NoOverlap (playNextCalls dom p calls)
      ∧ p.nextStartTime ≤ (playNextCalls dom p calls).nextStartTime := by
  induction calls with
  | nil => intro p _ hno; exact ⟨hno, le_rfl⟩
  | cons call rest ih =>
    intro p hsome hno
    obtain ⟨ctx, hctx⟩ := Option.isSome_iff_exists.mp hsome
    obtain ⟨clock, arrived⟩ := call
    have hctx1 : ({ p with
        audioContext := p.audioContext.map (fun ctx => { ctx with currentTime := clock }),
        audioQueue := p.audioQueue ++ arrived } : Player).audioContext =
          some { ctx with currentTime := clock } := by
      simp [hctx]
    obtain ⟨i1, i2, i3, _⟩ := playNext_inv dom _ _ hctx1
    obtain ⟨j1, j2⟩ := ih _ (by rw [i1]; rfl) (i2 hno)
    exact ⟨j1, le_trans i3 j2⟩

/-- C27: segments started by `playNext` never overlap. For every sequence of calls of
`playNext` in a session, at any readings of the clock and with any chunks queued in
between, each started segment begins at or after the start of the previous one plus its
duration, every segment ends by `nextStartTime`, and `nextStartTime` does not decrease
from one call to the next. The same holds after any sequence of actions of a session.
The duration of a chunk is never negative. -/
theorem segments_never_overlap (env : Env) (actions more : List Action)
    (calls later : List (ℚ × List AudioBuffer)) :
    List.Chain' (fun s t : Segment => s.startAt + s.buffer.duration ≤ t.startAt)
        (playNextCalls env.dom (sessionStart env) calls).scheduled
    ∧ (∀ s ∈ (playNextCalls env.dom (sessionStart env) calls).scheduled,
        s.startAt + s.buffer.duration ≤
          (playNextCalls env.dom (sessionStart env) calls).nextStartTime)
    ∧ (playNextCalls env.dom (sessionStart env) calls).nextStartTime ≤
        (playNextCalls env.dom (playNextCalls env.dom (sessionStart env) calls) later).nextStartTime
    ∧ List.Chain' (fun s t : Segment => s.startAt + s.buffer.duration ≤ t.startAt)
        (runActions env (sessionStart env) actions).scheduled
    ∧ (∀ s ∈ (runActions env (sessionStart env) actions).scheduled,
        s.startAt + s.buffer.duration ≤ (runActions env (sessionStart env) actions).nextStartTime)
    ∧ (runActions env (sessionStart env) actions).nextStartTime ≤
        (runActions env (sessionStart env) (actions ++ more)).nextStartTime
    ∧ (∀ b : AudioBuffer, 0 ≤ b.duration) := by
  obtain ⟨h1, h2, _⟩ := sessionStart_inv env
  obtain ⟨r1, r2, _⟩ := run_inv env actions (sessionStart env) h1
  obtain ⟨_, _, m3, _⟩ := run_inv env more (runActions env (sessionStart env) actions) r1
  have happ : runActions env (sessionStart env) (actions ++ more) =
      runActions env (runActions env (sessionStart env) actions) more := by
    simp [runActions, List.foldl_append]
  obtain ⟨c1, _⟩ := playNextCalls_inv env.dom calls (sessionStart env) h1 h2
  have hsome : ∀ (cs : List (ℚ × List AudioBuffer)) (p : Player),
      p.audioContext.isSome = true → (playNextCalls env.dom p cs).audioContext.isSome = true := by
    intro cs
    induction cs with
    | nil => intro p hp; exact hp
    | cons call rest ih =>
      intro p hp
      obtain ⟨ctx, hctx⟩ := Option.isSome_iff_exists.mp hp
      obtain ⟨clock, arrived⟩ := call
      have hctx1 : ({ p with
          audioContext := p.audioContext.map (fun ctx => { ctx with currentTime := clock }),
          audioQueue := p.audioQueue ++ arrived } : Player).audioContext =
            some { ctx with currentTime := clock } := by
        simp [hctx]
      obtain ⟨i1, _⟩ := playNext_inv env.dom _ _ hctx1
      exact ih _ (by rw [i1]; rfl)
  obtain ⟨_, l2⟩ := playNextCalls_inv env.dom later _ (hsome calls _ h1) c1
  exact ⟨c1.1, c1.2, l2, (r2 h2).1, (r2 h2).2, by rw [happ]; exact m3, duration_nonneg⟩

/-! ## Counters of a session -/

theorem addChunk_counts (env : Env) (p : Player) (audio : List Char) (rate : Nat) :
    (addChunk env p audio rate).1.receivedChunks = p.receivedChunks + 1
    ∧ (addChunk env p audio rate).1.sampleRate = rate := by
  cases h : env.decode audio with
  | invalidBase64 message =>
    rw [addChunk_invalidBase64 env p _ _ message h]
    exact ⟨rfl, rfl⟩
  | rejected =>
    rw [addChunk_rejected env p _ _ h]
    exact ⟨rfl, rfl⟩
  | decoded audioBuffer =>
    cases hctx : p.audioContext with
    | none =>
      rw [addChunk_no_context env p _ _ hctx]
      exact ⟨rfl, rfl⟩
    | some ctx =>
      rw [(addChunk_decoded env p _ _ ctx audioBuffer hctx h).1]
      simp only []
      split_ifs
      · obtain ⟨_, _, _, k4, k5⟩ := playNext_keeps env.dom
          { p with sampleRate := rate, receivedChunks := p.receivedChunks + 1,
                   allBuffers := p.allBuffers ++ [audioBuffer],
                   totalDuration := p.totalDuration + audioBuffer.duration,
                   audioQueue := p.audioQueue ++ [audioBuffer] }
        exact ⟨k4, k5⟩
      · exact ⟨rfl, rfl⟩

theorem onended_receivedChunks (dom : Dom) (bufferDuration : ℚ) (p : Player) :
    (onended dom bufferDuration p).receivedChunks = p.receivedChunks := by
  unfold onended
  cases hctx : p.audioContext with
  | none => simp [hctx]
  | some ctx =>
    simp only [hctx]
    exact (playNext_keeps dom _).2.2.2.1

theorem finalize_player (env : Env) (p : Player) :
    (finalize env p).1 = hideStreamingUI env.dom p := by
  unfold finalize
  simp only []
  split
  · rfl
  · rfl
  · split <;> rfl

theorem retained_length_le (env : Env) (actions : List Action) :
    (actions.filterMap (Action.retained env)).length ≤ (actions.filter Action.isChunk).length := by
  induction actions with
  | nil => simp
  | cons a rest ih =>
    cases a with
    | chunk audio rate =>
      cases hd : decodedBuffer env audio <;>
        simp [List.filterMap_cons, List.filter_cons, Action.retained, Action.isChunk, hd] <;>
        omega
    | ended => simpa [List.filterMap_cons, List.filter_cons, Action.retained, Action.isChunk] using ih
    | advance dt => simpa [List.filterMap_cons, List.filter_cons, Action.retained, Action.isChunk] using ih
    | pause => simpa [List.filterMap_cons, List.filter_cons, Action.retained, Action.isChunk] using ih
    | resume => simpa [List.filterMap_cons, List.filter_cons, Action.retained, Action.isChunk] using ih
    | stop => simpa [List.filterMap_cons, List.filter_cons, Action.retained, Action.isChunk] using ih

/-- C30: `receivedChunks` counts the calls of `addChunk`. Every call adds exactly one,
whatever the payload decodes to; `pause`, `resume`, `stop`, `playNext`, the end of a
chunk, `finalize` and `hideStreamingUI` leave it as it is; `init` sets it to zero. So
after `init()` and any sequence of actions it is the number of chunk events so far, it
does not decrease as the session goes on, and it is at least the number of retained
buffers. -/
theorem receivedChunks_counts_addChunk (env : Env) (p q : Player) (audio : List Char)
    (rate : Nat) (bufferDuration : ℚ) (actions more : List Action) :
    (addChunk env p audio rate).1.receivedChunks = p.receivedChunks + 1
    ∧ (pause p).receivedChunks = p.receivedChunks
    ∧ (resume env.dom p).receivedChunks = p.receivedChunks
    ∧ (stop env.dom p).receivedChunks = p.receivedChunks
    ∧ (playNext env.dom p).receivedChunks = p.receivedChunks
    ∧ (onended env.dom bufferDuration p).receivedChunks = p.receivedChunks
    ∧ (finalize env p).1.receivedChunks = p.receivedChunks
    ∧ (hideStreamingUI env.dom p).receivedChunks = p.receivedChunks
    ∧ (init env.dom env.newAudioContext env.performanceNow q).receivedChunks = 0
    ∧ (runActions env (sessionStart env) actions).receivedChunks =
        (actions.filter Action.isChunk).length
    ∧ (runActions env (sessionStart env) actions).receivedChunks ≤
        (runActions env (sessionStart env) (actions ++ more)).receivedChunks
    ∧ (runActions env (sessionStart env) actions).allBuffers.length ≤
        (runActions env (sessionStart env) actions).receivedChunks := by
  have hcore : ∀ (a b : Player), sessionCore a = sessionCore b →
      a.receivedChunks = b.receivedChunks := by
    intro a b h
    simp only [sessionCore, Prod.mk.injEq] at h
    exact h.2.2.2.2
  obtain ⟨h1, _, _, h4, h5⟩ := sessionStart_inv env
  obtain ⟨_, _, _, _, r5, r6⟩ := run_inv env actions (sessionStart env) h1
  obtain ⟨_, _, _, _, _, m6⟩ := run_inv env (actions ++ more) (sessionStart env) h1
  rw [h5, Nat.zero_add] at r6 m6
  rw [h4, List.nil_append] at r5
  have hstop : (stop env.dom p).receivedChunks = p.receivedChunks := by
    have := (stop_core env.dom p).1
    simp only [sessionCore, Prod.mk.injEq] at this
    exact this.2.2.2.2
  have hhide := hcore _ _ (hideStreamingUI_core env.dom p).1
  refine ⟨(addChunk_counts env p audio rate).1, hcore _ _ (pause_core p).1,
    hcore _ _ (resume_core env.dom p).1, hstop, (playNext_keeps env.dom p).2.2.2.1,
    onended_receivedChunks env.dom bufferDuration p, by rw [finalize_player]; exact hhide,
    hhide, (init_fields _ _ _ q).2.2.2, r6, ?_, ?_⟩
  · rw [r6, m6, List.filter_append, List.length_append]
    omega
  · rw [r5, r6]
    exact retained_length_le env actions

/-- C24, evaluated on the code: a chunk event declaring 24000 Hz followed by one declaring
48000 Hz. After the first the player's `sampleRate` is 24000, after the second it is
48000: the later event has changed it. -/
theorem later_chunk_changes_sampleRate :
    (addChunks fixtureEnv (sessionStart fixtureEnv) [("AAAA".data, 24000)]).sampleRate = 24000
    ∧ (addChunks fixtureEnv (sessionStart fixtureEnv)
        [("AAAA".data, 24000), ("BBBB".data, 48000)]).sampleRate = 48000
    ∧ (24000 : Nat) ≠ 48000 :=
  ⟨(addChunk_counts fixtureEnv (sessionStart fixtureEnv) "AAAA".data 24000).2,
   (addChunk_counts fixtureEnv
      (addChunk fixtureEnv (sessionStart fixtureEnv) "AAAA".data 24000).1 "BBBB".data 48000).2,
   by decide⟩

/-- C24 as amended: after every chunk event the player's `sampleRate` is the
`sample_rate` that the event declared, whatever came before and whether or not the
payload decodes; it stays the same through a session exactly as long as the chunk
events declare the same rate. -/
theorem sampleRate_is_last_declared (env : Env) (p : Player) (before : List (List Char × Nat))
    (audio : List Char) (rate : Nat) :
    (addChunks env p (before ++ [(audio, rate)])).sampleRate = rate
    ∧ (addChunk env p audio rate).1.sampleRate = rate := by
  refine ⟨?_, (addChunk_counts env p audio rate).2⟩
  have happ : addChunks env p (before ++ [(audio, rate)]) =
      (addChunk env (addChunks env p before) audio rate).1 := by
    simp [addChunks, List.foldl_append]
  rw [happ]
  exact (addChunk_counts env _ audio rate).2

/-- C25, evaluated on the code: a page whose global player is playing a chunk, with a
second chunk in its queue and its progress timer running, on which a new session is
started. After the call the earlier player is exactly as it was: still playing, its
queue not empty, its timer installed. -/
theorem earlier_player_is_not_stopped :
    (startSession timingEnv
        { streamingPlayer := some (runActions timingEnv timingStart
            [Action.advance 1, Action.chunk [] 24000, Action.chunk [] 24000]),
          replaced := [] } (Response.body [] none)).1.replaced =
      [runActions timingEnv timingStart
        [Action.advance 1, Action.chunk [] 24000, Action.chunk [] 24000]]
    ∧ (runActions timingEnv timingStart
        [Action.advance 1, Action.chunk [] 24000, Action.chunk [] 24000]).isPlaying = true
    ∧ (runActions timingEnv timingStart
        [Action.advance 1, Action.chunk [] 24000, Action.chunk [] 24000]).audioQueue.length = 1
    ∧ (runActions timingEnv timingStart
        [Action.advance 1, Action.chunk [] 24000, Action.chunk [] 24000]).progressInterval = true
    ∧ (stop timingEnv.dom (runActions timingEnv timingStart
        [Action.advance 1, Action.chunk [] 24000, Action.chunk [] 24000])).isPlaying = false := by
  refine ⟨rfl, ?_, ?_, ?_, ?_⟩ <;>
    norm_num [runActions, step, timingStart, timingEnv, init, showStreamingUI, Player.new,
      fullDom, advanceClock, addChunk, playNext, startProgressUpdates, startWaveformAnimation,
      stop, hideStreamingUI, stopWaveformAnimation, AudioBuffer.duration, oneSecond]

/-- C25 as amended: a call of `generateWithStreaming` makes the global `streamingPlayer`
a newly constructed and initialised player; the player the global referred to before is
not stopped or changed in any way, and stays on the page next to the new one. -/
theorem new_session_replaces_global (env : Env) (page : Page) (response : Response) :
    (startSession env page response).1.streamingPlayer =
        some (generateWithStreaming env response).1
    ∧ (startSession env page response).1.replaced =
        page.replaced ++ page.streamingPlayer.toList
    ∧ (∀ earlier, page.streamingPlayer = some earlier →
        earlier ∈ (startSession env page response).1.replaced) := by
  refine ⟨rfl, rfl, ?_⟩
  intro earlier h
  simp [startSession, h]

theorem stop_fields (dom : Dom) (p : Player) :
    (stop dom p).isPlaying = false
    ∧ (stop dom p).audioQueue = []
    ∧ (stop dom p).audioContext = p.audioContext
    ∧ (stop dom p).scheduled = p.scheduled
    ∧ (stop dom p).nextStartTime = p.nextStartTime
    ∧ (stop dom p).allBuffers = p.allBuffers := by
  obtain ⟨hc, hctx⟩ := stop_core dom p
  simp only [sessionCore, Prod.mk.injEq] at hc
  obtain ⟨c1, c2, c3, c4, _⟩ := hc
  refine ⟨?_, c3, hctx, c1, c2, c4⟩
  have h := hideStreamingUI_fields dom
  have g := stopWaveformAnimation_fields
  simp only [stop, h, g]
  split_ifs <;> rfl

theorem addChunkFinish_decoded (env : Env) (s : Player) (ctx : AudioContext)
    (audioBuffer : AudioBuffer) (hctx : s.audioContext = some ctx)
    (hidle : s.isPlaying = false) :
    (addChunkFinish env s (DecodeOutcome.decoded audioBuffer)).1 =
      playNext env.dom
        { s with allBuffers := s.allBuffers ++ [audioBuffer],
                 totalDuration := s.totalDuration + audioBuffer.duration,
                 audioQueue := s.audioQueue ++ [audioBuffer] } := by
  unfold addChunkFinish
  simp [hctx, hidle]

theorem addChunkFinish_rejected (env : Env) (s : Player) :
    (addChunkFinish env s DecodeOutcome.rejected).1 = s := by
  unfold addChunkFinish
  cases s.audioContext <;> rfl

/-- C26, evaluated on the code: a player is playing a first chunk when a second chunk
event starts `addChunk`; `stop()` is called while `decodeAudioData` is pending; the decode
then completes. The rest of `addChunk` runs as usual: the buffer is retained, started at
once as a second segment, and `isPlaying` is true again. -/
theorem late_decode_restarts_playback :
    (addChunkFinish timingEnv
        (stop timingEnv.dom (addChunkStart (runActions timingEnv timingStart
          [Action.advance 1, Action.chunk [] 24000]) 24000))
        (DecodeOutcome.decoded oneSecond)).1.isPlaying = true
    ∧ (addChunkFinish timingEnv
        (stop timingEnv.dom (addChunkStart (runActions timingEnv timingStart
          [Action.advance 1, Action.chunk [] 24000]) 24000))
        (DecodeOutcome.decoded oneSecond)).1.scheduled =
        [{ buffer := oneSecond, startAt := 1 }, { buffer := oneSecond, startAt := 2 }]
    ∧ (stop timingEnv.dom (addChunkStart (runActions timingEnv timingStart
          [Action.advance 1, Action.chunk [] 24000]) 24000)).isPlaying = false := by
  refine ⟨?_, ?_, ?_⟩ <;>
    norm_num [runActions, step, timingStart, timingEnv, init, showStreamingUI, Player.new,
      fullDom, advanceClock, addChunk, playNext, startProgressUpdates, startWaveformAnimation,
      stop, hideStreamingUI, stopWaveformAnimation, addChunkStart, addChunkFinish,
      AudioBuffer.duration, oneSecond]

/-- C26 as amended: `addChunk` is the part before the decode followed by the part after
it, and `stop()` sets no mark that the second part looks at. When `stop()` is applied
between the two and the payload then decodes, the buffer is retained and, the stopped
player being idle, started at once at `max(currentTime, nextStartTime)`, and `isPlaying`
becomes true. Only a decode that fails after the stop has no playback effect. -/
theorem late_decode_after_stop_is_played (env : Env) (p : Player) (ctx : AudioContext)
    (rate : Nat) (audioBuffer : AudioBuffer) (hctx : p.audioContext = some ctx) :
    (∀ audio, addChunk env p audio rate =
        addChunkFinish env (addChunkStart p rate) (env.decode audio))
    ∧ (addChunkFinish env (stop env.dom (addChunkStart p rate))
        (DecodeOutcome.decoded audioBuffer)).1.allBuffers = p.allBuffers ++ [audioBuffer]
    ∧ (addChunkFinish env (stop env.dom (addChunkStart p rate))
        (DecodeOutcome.decoded audioBuffer)).1.scheduled =
        p.scheduled ++ [{ buffer := audioBuffer, startAt := max ctx.currentTime p.nextStartTime }]
    ∧ (addChunkFinish env (stop env.dom (addChunkStart p rate))
        (DecodeOutcome.decoded audioBuffer)).1.audioQueue = []
    ∧ (addChunkFinish env (stop env.dom (addChunkStart p rate))
        (DecodeOutcome.decoded audioBuffer)).1.isPlaying = true
    ∧ (addChunkFinish env (stop env.dom (addChunkStart p rate)) DecodeOutcome.rejected).1 =
        stop env.dom (addChunkStart p rate) := by
  obtain ⟨s1, s2, s3, s4, s5, s6⟩ := stop_fields env.dom (addChunkStart p rate)
  have hctx1 : (stop env.dom (addChunkStart p rate)).audioContext = some ctx := by
    rw [s3]; exact hctx
  rw [addChunkFinish_decoded env _ ctx audioBuffer hctx1 s1]
  obtain ⟨h1, _, _, h4, h5, _⟩ := playNext_of_cons env.dom
    { stop env.dom (addChunkStart p rate) with
        allBuffers := (stop env.dom (addChunkStart p rate)).allBuffers ++ [audioBuffer],
        totalDuration := (stop env.dom (addChunkStart p rate)).totalDuration + audioBuffer.duration,
        audioQueue := (stop env.dom (addChunkStart p rate)).audioQueue ++ [audioBuffer] }
    ctx audioBuffer [] hctx1 (by simp [s2])
  obtain ⟨k1, _⟩ := playNext_keeps env.dom
    { stop env.dom (addChunkStart p rate) with
        allBuffers := (stop env.dom (addChunkStart p rate)).allBuffers ++ [audioBuffer],
        totalDuration := (stop env.dom (addChunkStart p rate)).totalDuration + audioBuffer.duration,
        audioQueue := (stop env.dom (addChunkStart p rate)).audioQueue ++ [audioBuffer] }
  refine ⟨fun _ => rfl, ?_, ?_, h4, h5, addChunkFinish_rejected env _⟩
  · rw [k1]
    simp only [s6]
    rfl
  · rw [h1]
    simp only [s4, s5]
    rfl

/-- Witness of C26 as amended: the player of the timing scenario while it plays its
first chunk. -/
theorem late_decode_after_stop_is_played_witness :
    (addChunkFinish timingEnv
        (stop timingEnv.dom (addChunkStart (runActions timingEnv timingStart
          [Action.advance 1, Action.chunk [] 24000]) 24000))
        (DecodeOutcome.decoded oneSecond)).1.isPlaying = true :=
  (late_decode_after_stop_is_played timingEnv
    (runActions timingEnv timingStart [Action.advance 1, Action.chunk [] 24000])
    { suspended := false, currentTime := 1 } 24000 oneSecond
    (by norm_num [runActions, step, timingStart, timingEnv, init, showStreamingUI, Player.new,
      fullDom, advanceClock, addChunk, playNext, startProgressUpdates,
      startWaveformAnimation])).2.2.2.2.1

/-- C29, evaluated on the code: a chunk of one second started when the clock reads 1 and
paused when it reads 1.5. After `resume()` the output clock still reads 1.5 and
`isPaused` is false, but `playbackStartTime` is 1 as before, not the reading of the
clock. -/
theorem resume_leaves_playbackStartTime :
    (resume fullDom (pause (runActions timingEnv timingStart
        [Action.advance 1, Action.chunk [] 24000, Action.advance (1 / 2)]))).playbackStartTime = 1
    ∧ (resume fullDom (pause (runActions timingEnv timingStart
        [Action.advance 1, Action.chunk [] 24000, Action.advance (1 / 2)]))).audioContext =
        some { suspended := false, currentTime := 3 / 2 }
    ∧ (resume fullDom (pause (runActions timingEnv timingStart
        [Action.advance 1, Action.chunk [] 24000, Action.advance (1 / 2)]))).isPaused = false
    ∧ (1 : ℚ) ≠ 3 / 2 := by
  refine ⟨?_, ?_, ?_, by norm_num⟩ <;>
    norm_num [runActions, step, timingStart, timingEnv, init, showStreamingUI, Player.new,
      fullDom, advanceClock, addChunk, playNext, startProgressUpdates, startWaveformAnimation,
      pause, resume, stopWaveformAnimation, AudioBuffer.duration, oneSecond]

/-- C29 as amended: `resume()` applied to a paused player that has an audio context sets
`isPaused` to false and resumes the context, and leaves `playbackStartTime` and
`playedDuration` as they were; the clock reads what it read before the call. -/
theorem resume_keeps_playbackStartTime (dom : Dom) (p : Player) (ctx : AudioContext)
    (hctx : p.audioContext = some ctx) (hpaused : p.isPaused = true) :
    (resume dom p).isPaused = false
    ∧ (resume dom p).playbackStartTime = p.playbackStartTime
    ∧ (resume dom p).playedDuration = p.playedDuration
    ∧ (resume dom p).audioContext = some { ctx with suspended := false } := by
  obtain ⟨h1, h2, h3, _, h5, _⟩ := resume_fields dom p ctx hctx hpaused
  exact ⟨h5, h3, h2, h1⟩

/-- Witness of C29 as amended: the player of the timing scenario, paused half a second
into its first chunk. -/
theorem resume_keeps_playbackStartTime_witness :
    (resume fullDom (pause (runActions timingEnv timingStart
        [Action.advance 1, Action.chunk [] 24000, Action.advance (1 / 2)]))).playbackStartTime =
      (pause (runActions timingEnv timingStart
        [Action.advance 1, Action.chunk [] 24000, Action.advance (1 / 2)])).playbackStartTime :=
  (resume_keeps_playbackStartTime fullDom
    (pause (runActions timingEnv timingStart
      [Action.advance 1, Action.chunk [] 24000, Action.advance (1 / 2)]))
    { suspended := true, currentTime := 3 / 2 }
    (by norm_num [runActions, step, timingStart, timingEnv, init, showStreamingUI, Player.new,
      fullDom, advanceClock, addChunk, playNext, startProgressUpdates, startWaveformAnimation,
      pause, stopWaveformAnimation, AudioBuffer.duration, oneSecond])
    (by norm_num [runActions, step, timingStart, timingEnv, init, showStreamingUI, Player.new,
      fullDom, advanceClock, addChunk, playNext, startProgressUpdates, startWaveformAnimation,
      pause, stopWaveformAnimation, AudioBuffer.duration, oneSecond])).2.1

/-! ## The end of the stream -/

theorem splitNewline_line_append (line rest : List Char) (hline : '\n' ∉ line) :
    splitNewline (line ++ '\n' :: rest) = line :: splitNewline rest := by
  induction line with
  | nil => simp [splitNewline]
  | cons c cs ih =>
    have hc : c ≠ '\n' := fun h => hline (by simp [h])
    have hcs : '\n' ∉ cs := fun h => hline (List.mem_cons_of_mem _ h)
    exact splitNewline_cons_other c (cs ++ '\n' :: rest) hc cs (splitNewline rest) (ih hcs)

theorem splitNewline_lines_tail (lines : List (List Char)) (tail : List Char)
    (hlines : ∀ line ∈ lines, '\n' ∉ line) (htail : '\n' ∉ tail) :
    splitNewline ((lines.map (fun line => line ++ ['\n'])).flatten ++ tail) = lines ++ [tail] := by
  induction lines with
  | nil => simpa using splitNewline_of_not_mem tail htail
  | cons line rest ih =>
    have h1 := hlines line (List.mem_cons_self _ _)
    have h2 : ∀ l ∈ rest, '\n' ∉ l := fun l hl => hlines l (List.mem_cons_of_mem _ hl)
    simp only [List.map_cons, List.flatten_cons, List.append_assoc, List.singleton_append,
      List.cons_append]
    rw [splitNewline_line_append line _ h1, List.nil_append, ih h2]

/-- C28: when the reader reports the end of the stream, the text after the last newline
is dropped without being parsed. For a stream made of complete lines followed by a tail
without newline, however it is cut into fragments, the call ends with the player and
the effects of the complete lines alone, the tail being the text left in `buffer`; a
tail that is a whole `done` or `chunk` record changes nothing. -/
theorem unterminated_tail_is_discarded (env : Env) (fragments : List (List Char))
    (lines : List (List Char)) (tail : List Char)
    (hflat : fragments.flatten = (lines.map (fun line => line ++ ['\n'])).flatten ++ tail)
    (hlines : ∀ line ∈ lines, '\n' ∉ line) (htail : '\n' ∉ tail) :
    readLoop (handleLine env) (sessionStart env, []) [] fragments =
        (lines.foldl (handleLine env) (sessionStart env, []), tail)
    ∧ generateWithStreaming env (Response.body fragments none) =
        generateWithStreaming env
          (Response.body [(lines.map (fun line => line ++ ['\n'])).flatten] none) := by
  have hnil : '\n' ∉ ([] : List Char) := by simp
  have hsplit := splitNewline_lines_tail lines tail hlines htail
  have hsplit0 := splitNewline_lines_tail lines [] hlines hnil
  have hloop : ∀ s : Player × List Effect,
      readLoop (handleLine env) s [] fragments = (lines.foldl (handleLine env) s, tail) := by
    intro s
    rw [readLoop_eq (handleLine env) fragments s [] hnil]
    simp only [List.nil_append, terminatedLines, unterminatedTail, hflat, hsplit]
    simp
  have hloop0 : ∀ s : Player × List Effect,
      readLoop (handleLine env) s [] [(lines.map (fun line => line ++ ['\n'])).flatten] =
        (lines.foldl (handleLine env) s, []) := by
    intro s
    rw [readLoop_eq (handleLine env) _ s [] hnil]
    simp only [List.nil_append, terminatedLines, unterminatedTail, List.flatten_cons,
      List.flatten_nil]
    rw [hsplit0]
    simp
  refine ⟨hloop _, ?_⟩
  unfold generateWithStreaming
  simp only [hloop, hloop0]

/-- Witness of C28: a `start` line followed by a whole `done` record without newline. -/
theorem unterminated_tail_is_discarded_witness :
    generateWithStreaming fixtureEnv (Response.body [startLine ++ ['\n'] ++ doneLine] none) =
      generateWithStreaming fixtureEnv
        (Response.body [([startLine].map (fun line => line ++ ['\n'])).flatten] none) :=
  (unterminated_tail_is_discarded fixtureEnv [startLine ++ ['\n'] ++ doneLine] [startLine]
    doneLine (by simp) (by decide) (by decide)).2

/-! ## Rounding of durations -/

theorem roundHalfEven_near (y : ℚ) : |(roundHalfEven y : ℚ) - y| ≤ 1 / 2 := by
  have h1 : (⌊y⌋ : ℚ) ≤ y := Int.floor_le y
  have h2 : y < ⌊y⌋ + 1 := Int.lt_floor_add_one y
  unfold roundHalfEven
  split_ifs with a b c
  · rw [abs_le]; constructor <;> linarith
  · push_cast; rw [abs_le]; constructor <;> linarith
  · push_neg at a b
    rw [abs_le]; constructor <;> linarith
  · push_neg at a b
    push_cast; rw [abs_le]; constructor <;> linarith

theorem log_eq_of_bounds (x : ℚ) (e : ℤ) (hx : 0 < x) (h1 : (2 : ℚ) ^ e ≤ x)
    (h2 : x < (2 : ℚ) ^ (e + 1)) : Int.log 2 |x| = e := by
  rw [abs_of_pos hx]
  have a : e ≤ Int.log 2 x := by
    have := (Int.zpow_le_iff_le_log (b := 2) (by norm_num) hx (x := e)).mp (by exact_mod_cast h1)
    exact this
  have b : Int.log 2 x < e + 1 := by
    have := (Int.lt_zpow_iff_log_lt (b := 2) (by norm_num) hx (x := e + 1)).mp (by exact_mod_cast h2)
    exact this
  omega

theorem roundDouble_eval (x : ℚ) (e f : ℤ) (hx : 0 < x) (h1 : (2 : ℚ) ^ e ≤ x)
    (h2 : x < (2 : ℚ) ^ (e + 1)) (hf1 : (f : ℚ) ≤ x / 2 ^ (e - 52))
    (hf2 : x / 2 ^ (e - 52) < f + 1) :
    roundDouble x =
      ((if x / 2 ^ (e - 52) - f < 1 / 2 then f
        else if 1 / 2 < x / 2 ^ (e - 52) - f then f + 1
        else if f % 2 = 0 then f else f + 1 : ℤ) : ℚ) * 2 ^ (e - 52) := by
  have hfloor : ⌊x / 2 ^ (e - 52)⌋ = f := Int.floor_eq_iff.mpr ⟨hf1, hf2⟩
  unfold roundDouble
  rw [if_neg (ne_of_gt hx), log_eq_of_bounds x e hx h1 h2]
  unfold roundHalfEven
  rw [hfloor]

theorem roundDouble_nonneg (x : ℚ) (hx : 0 ≤ x) :
    (1 - 1 / 2 ^ 53) * x ≤ roundDouble x ∧ roundDouble x ≤ (1 + 1 / 2 ^ 53) * x := by
  rcases eq_or_lt_of_le hx with h0 | hpos
  · subst h0
    simp [roundDouble]
  · have hlog : (2 : ℚ) ^ Int.log 2 |x| ≤ x := by
      rw [abs_of_pos hpos]
      exact_mod_cast Int.zpow_log_le_self (b := 2) (by norm_num) hpos
    have hnear := roundHalfEven_near (x / 2 ^ (Int.log 2 |x| - 52))
    have hs : (0 : ℚ) < 2 ^ (Int.log 2 |x| - 52) := by positivity
    have hsplit : (2 : ℚ) ^ (Int.log 2 |x| - 52) = 2 ^ Int.log 2 |x| / 2 ^ 52 := by
      rw [zpow_sub₀ (by norm_num)]
      norm_num
    unfold roundDouble
    rw [if_neg (ne_of_gt hpos)]
    generalize Int.log 2 |x| = e at *
    generalize roundHalfEven (x / 2 ^ (e - 52)) = m at *
    rw [abs_le] at hnear
    obtain ⟨n1, n2⟩ := hnear
    have k1 : (m : ℚ) * 2 ^ (e - 52) - x ≤ 2 ^ (e - 52) / 2 := by
      have : (m : ℚ) * 2 ^ (e - 52) - x = ((m : ℚ) - x / 2 ^ (e - 52)) * 2 ^ (e - 52) := by
        field_simp
      rw [this]
      nlinarith
    have k2 : - (2 ^ (e - 52) / 2) ≤ (m : ℚ) * 2 ^ (e - 52) - x := by
      have : (m : ℚ) * 2 ^ (e - 52) - x = ((m : ℚ) - x / 2 ^ (e - 52)) * 2 ^ (e - 52) := by
        field_simp
      rw [this]
      nlinarith
    have k3 : (2 : ℚ) ^ (e - 52) / 2 ≤ 1 / 2 ^ 53 * x := by
      rw [hsplit]
      have : (2 : ℚ) ^ e / 2 ^ 52 / 2 = 1 / 2 ^ 53 * 2 ^ e := by ring
      rw [this]
      exact mul_le_mul_of_nonneg_left hlog (by positivity)
    constructor <;> linarith
theorem roundDouble_tenth : roundDouble (1 / 10) = 7205759403792794 / 2 ^ 56 := by
  rw [roundDouble_eval (1 / 10) (-4) 7205759403792793 (by norm_num) (by norm_num) (by norm_num)
    (by norm_num) (by norm_num)]
  norm_num

theorem roundDouble_fifth : roundDouble (1 / 5) = 7205759403792794 / 2 ^ 55 := by
  rw [roundDouble_eval (1 / 5) (-3) 7205759403792793 (by norm_num) (by norm_num) (by norm_num)
    (by norm_num) (by norm_num)]
  norm_num

theorem roundDouble_three_tenths : roundDouble (3 / 10) = 5404319552844595 / 2 ^ 54 := by
  rw [roundDouble_eval (3 / 10) (-2) 5404319552844595 (by norm_num) (by norm_num) (by norm_num)
    (by norm_num) (by norm_num)]
  norm_num

theorem roundDouble_tenth_again :
    roundDouble (7205759403792794 / 2 ^ 56) = 7205759403792794 / 2 ^ 56 := by
  rw [roundDouble_eval (7205759403792794 / 2 ^ 56) (-4) 7205759403792794 (by norm_num)
    (by norm_num) (by norm_num) (by norm_num) (by norm_num)]
  norm_num

theorem roundDouble_tenth_plus_fifth :
    roundDouble (7205759403792794 / 2 ^ 56 + 7205759403792794 / 2 ^ 55) =
      5404319552844596 / 2 ^ 54 := by
  rw [roundDouble_eval (7205759403792794 / 2 ^ 56 + 7205759403792794 / 2 ^ 55) (-2)
    5404319552844595 (by norm_num) (by norm_num) (by norm_num) (by norm_num) (by norm_num)]
  norm_num

theorem totalDurationNumber_bounds (buffers : List AudioBuffer) :
    (1 - 1 / 2 ^ 53) ^ (buffers.length + 1) * ((buffers.map AudioBuffer.duration).sum) ≤
        totalDurationNumber buffers
    ∧ totalDurationNumber buffers ≤
        (1 + 1 / 2 ^ 53) ^ (buffers.length + 1) * ((buffers.map AudioBuffer.duration).sum) := by
  have hgen : ∀ (bs : List AudioBuffer) (total exact : ℚ) (k : Nat), 0 ≤ exact →
      (1 - 1 / 2 ^ 53) ^ (k + 1) * exact ≤ total →
      total ≤ (1 + 1 / 2 ^ 53) ^ (k + 1) * exact →
      (1 - 1 / 2 ^ 53) ^ (k + bs.length + 1) * (exact + (bs.map AudioBuffer.duration).sum) ≤
          bs.foldl (fun total b => doubleAdd total b.durationNumber) total
      ∧ bs.foldl (fun total b => doubleAdd total b.durationNumber) total ≤
          (1 + 1 / 2 ^ 53) ^ (k + bs.length + 1) * (exact + (bs.map AudioBuffer.duration).sum) := by
    intro bs
    induction bs with
    | nil =>
      intro total exact k _ h1 h2
      simp only [List.length_nil, List.map_nil, List.sum_nil, add_zero, List.foldl_nil]
      exact ⟨h1, h2⟩
    | cons b rest ih =>
      intro total exact k hexact h1 h2
      have hd : 0 ≤ b.duration := duration_nonneg b
      obtain ⟨d1, d2⟩ := roundDouble_nonneg b.duration hd
      have hlo : (0 : ℚ) ≤ 1 - 1 / 2 ^ 53 := by norm_num
      have hlo1 : (1 : ℚ) - 1 / 2 ^ 53 ≤ 1 := by norm_num
      have hhi : (1 : ℚ) ≤ 1 + 1 / 2 ^ 53 := by norm_num
      have hpl : (1 - 1 / 2 ^ 53 : ℚ) ^ (k + 1) ≤ 1 - 1 / 2 ^ 53 := by
        calc (1 - 1 / 2 ^ 53 : ℚ) ^ (k + 1) = (1 - 1 / 2 ^ 53) ^ k * (1 - 1 / 2 ^ 53) := pow_succ _ _
          _ ≤ 1 * (1 - 1 / 2 ^ 53) :=
            mul_le_mul_of_nonneg_right (pow_le_one₀ hlo hlo1) hlo
          _ = 1 - 1 / 2 ^ 53 := one_mul _
      have hph : (1 + 1 / 2 ^ 53 : ℚ) ≤ (1 + 1 / 2 ^ 53) ^ (k + 1) := by
        calc (1 + 1 / 2 ^ 53 : ℚ) = 1 * (1 + 1 / 2 ^ 53) := (one_mul _).symm
          _ ≤ (1 + 1 / 2 ^ 53) ^ k * (1 + 1 / 2 ^ 53) :=
            mul_le_mul_of_nonneg_right (one_le_pow₀ hhi) (by norm_num)
          _ = (1 + 1 / 2 ^ 53) ^ (k + 1) := (pow_succ _ _).symm
      have hdn : b.durationNumber = roundDouble b.duration := rfl
      have hsum_lo : (1 - 1 / 2 ^ 53) ^ (k + 1) * (exact + b.duration) ≤ total + b.durationNumber := by
        rw [hdn]
        have : (1 - 1 / 2 ^ 53 : ℚ) ^ (k + 1) * b.duration ≤ (1 - 1 / 2 ^ 53) * b.duration :=
          mul_le_mul_of_nonneg_right hpl hd
        linarith
      have hsum_hi : total + b.durationNumber ≤ (1 + 1 / 2 ^ 53) ^ (k + 1) * (exact + b.duration) := by
        rw [hdn]
        have : (1 + 1 / 2 ^ 53 : ℚ) * b.duration ≤ (1 + 1 / 2 ^ 53) ^ (k + 1) * b.duration :=
          mul_le_mul_of_nonneg_right hph hd
        linarith
      have hnn : 0 ≤ total + b.durationNumber :=
        le_trans (mul_nonneg (pow_nonneg hlo _) (add_nonneg hexact hd)) hsum_lo
      obtain ⟨r1, r2⟩ := roundDouble_nonneg (total + b.durationNumber) hnn
      have step_lo : (1 - 1 / 2 ^ 53) ^ (k + 1 + 1) * (exact + b.duration) ≤
          doubleAdd total b.durationNumber := by
        calc (1 - 1 / 2 ^ 53 : ℚ) ^ (k + 1 + 1) * (exact + b.duration)
            = (1 - 1 / 2 ^ 53) * ((1 - 1 / 2 ^ 53) ^ (k + 1) * (exact + b.duration)) := by ring
          _ ≤ (1 - 1 / 2 ^ 53) * (total + b.durationNumber) :=
            mul_le_mul_of_nonneg_left hsum_lo hlo
          _ ≤ doubleAdd total b.durationNumber := r1
      have step_hi : doubleAdd total b.durationNumber ≤
          (1 + 1 / 2 ^ 53) ^ (k + 1 + 1) * (exact + b.duration) := by
        calc doubleAdd total b.durationNumber ≤ (1 + 1 / 2 ^ 53) * (total + b.durationNumber) := r2
          _ ≤ (1 + 1 / 2 ^ 53) * ((1 + 1 / 2 ^ 53) ^ (k + 1) * (exact + b.duration)) :=
            mul_le_mul_of_nonneg_left hsum_hi (by norm_num)
          _ = (1 + 1 / 2 ^ 53) ^ (k + 1 + 1) * (exact + b.duration) := by ring
      have := ih (doubleAdd total b.durationNumber) (exact + b.duration) (k + 1)
        (add_nonneg hexact hd) step_lo step_hi
      simp only [List.foldl_cons, List.length_cons, List.map_cons, List.sum_cons]
      have e1 : k + (rest.length + 1) + 1 = k + 1 + rest.length + 1 := by omega
      rw [e1, ← add_assoc]
      exact this
  have := hgen buffers 0 0 0 (le_refl _) (by simp) (by simp)
  simpa [totalDurationNumber] using this

theorem durationNumber_eq (b : AudioBuffer) : b.durationNumber = roundDouble b.duration := rfl

theorem silence_wf (sampleRate length : Nat) (hlength : 0 < length) :
    AudioBuffer.WF
      { sampleRate := sampleRate, length := length, channels := [List.replicate length 0] } := by
  refine ⟨Nat.zero_lt_one, hlength, ?_⟩
  intro ch hch
  rw [List.mem_singleton.mp hch, List.length_replicate]

/-- C5, evaluated on the code: chunks of 2400 and 4800 frames at 24000 Hz, as the script
computes with binary64 Numbers. The durations are the Numbers nearest to 1/10 and 1/5,
and their sum in `totalDuration` rounds to 5404319552844596 / 2 ^ 54, which prints as
0.30000000000000004. The combined buffer has 7200 frames at 24000 Hz, and its duration
is the Number nearest to 3/10, 5404319552844595 / 2 ^ 54, which prints as 0.3. The two
are not equal. -/
theorem totalDuration_differs_from_combined_duration :
    (addChunks roundingEnv (sessionStart roundingEnv)
        [("AAAA".data, 24000), ("BBBB".data, 24000)]).allBuffers = [tenthSecond, fifthSecond]
    ∧ totalDurationNumber [tenthSecond, fifthSecond] = 5404319552844596 / 2 ^ 54
    ∧ (∃ combined, combineBuffers [tenthSecond, fifthSecond] = Except.ok (some combined)
        ∧ combined.length = 7200 ∧ combined.sampleRate = 24000
        ∧ combined.durationNumber = 5404319552844595 / 2 ^ 54)
    ∧ (5404319552844596 : ℚ) / 2 ^ 54 ≠ 5404319552844595 / 2 ^ 54 := by
  refine ⟨?_, ?_, ?_, by norm_num⟩
  · obtain ⟨hctx, hbuf, _, _⟩ := init_fields roundingEnv.dom roundingEnv.newAudioContext
      roundingEnv.performanceNow Player.new
    obtain ⟨ctx, hctx⟩ := hctx
    have hall := (addChunks_retains roundingEnv [("AAAA".data, 24000), ("BBBB".data, 24000)]
      _ ctx hctx).2.1
    unfold sessionStart
    rw [hall, hbuf]
    rfl
  · have d1 : tenthSecond.durationNumber = 7205759403792794 / 2 ^ 56 := by
      rw [durationNumber_eq, ← roundDouble_tenth]
      have : tenthSecond.duration = 2400 / 24000 := by
        simp only [AudioBuffer.duration]
        rfl
      rw [this]
      norm_num
    have d2 : fifthSecond.durationNumber = 7205759403792794 / 2 ^ 55 := by
      rw [durationNumber_eq, ← roundDouble_fifth]
      have : fifthSecond.duration = 4800 / 24000 := by
        simp only [AudioBuffer.duration]
        rfl
      rw [this]
      norm_num
    simp only [totalDurationNumber, List.foldl_cons, List.foldl_nil, doubleAdd, d1, d2, zero_add]
    rw [roundDouble_tenth_again, roundDouble_tenth_plus_fifth]
  · have hwf : ∀ b ∈ [tenthSecond, fifthSecond], b.WF := by
      intro b hb
      simp only [List.mem_cons, List.mem_singleton, List.not_mem_nil, or_false] at hb
      rcases hb with rfl | rfl
      · exact silence_wf 24000 2400 (by norm_num)
      · exact silence_wf 24000 4800 (by norm_num)
    have hch : ∀ b ∈ [tenthSecond, fifthSecond], b.numberOfChannels = 1 := by
      intro b hb
      simp only [List.mem_cons, List.mem_singleton, List.not_mem_nil, or_false] at hb
      rcases hb with rfl | rfl <;> rfl
    have hlen : totalLength [tenthSecond, fifthSecond] = 7200 := rfl
    refine ⟨_, combineBuffers_many tenthSecond fifthSecond [] 1 hwf hch, hlen, rfl, ?_⟩
    rw [durationNumber_eq, ← roundDouble_three_tenths]
    simp only [AudioBuffer.duration, hlen]
    have : tenthSecond.sampleRate = 24000 := rfl
    rw [this]
    norm_num

/-- C5 as amended: after `init()` and any sequence of chunk events, `allBuffers` holds the
buffers of the chunks that decoded, in order of arrival, and `totalDuration` is the sum
of their durations, added one after the other. When they share one sample rate, a buffer
returned by `combineBuffers` has as many frames as they have together, so that without
rounding its duration, the frames divided by the rate, is that sum. As binary64 Numbers
the two agree up to rounding: for `n` retained buffers the running sum lies within the
factors `(1 - 2^-53)^(n+1)` and `(1 + 2^-53)^(n+1)` of the exact sum, and the duration of
the combined buffer within `1 - 2^-53` and `1 + 2^-53` of it. -/
theorem totalDuration_is_sum_of_decoded (env : Env) (q : Player) (chunks : List (List Char × Nat))
    (rate : Nat) :
    (addChunks env (init env.dom env.newAudioContext env.performanceNow q) chunks).allBuffers =
        chunks.filterMap (fun chunk => decodedBuffer env chunk.1)
    ∧ (addChunks env (init env.dom env.newAudioContext env.performanceNow q) chunks).totalDuration =
        (((addChunks env (init env.dom env.newAudioContext env.performanceNow q) chunks).allBuffers).map
          AudioBuffer.duration).sum
    ∧ (1 - 1 / 2 ^ 53) ^
          ((addChunks env (init env.dom env.newAudioContext env.performanceNow q) chunks).allBuffers.length
            + 1) *
          (addChunks env (init env.dom env.newAudioContext env.performanceNow q) chunks).totalDuration ≤
        totalDurationNumber
          (addChunks env (init env.dom env.newAudioContext env.performanceNow q) chunks).allBuffers
    ∧ totalDurationNumber
          (addChunks env (init env.dom env.newAudioContext env.performanceNow q) chunks).allBuffers ≤
        (1 + 1 / 2 ^ 53) ^
          ((addChunks env (init env.dom env.newAudioContext env.performanceNow q) chunks).allBuffers.length
            + 1) *
          (addChunks env (init env.dom env.newAudioContext env.performanceNow q) chunks).totalDuration
    ∧ ((∀ b ∈ (addChunks env (init env.dom env.newAudioContext env.performanceNow q) chunks).allBuffers,
          b.sampleRate = rate) →
        ∀ combined,
          combineBuffers
            (addChunks env (init env.dom env.newAudioContext env.performanceNow q) chunks).allBuffers =
              Except.ok (some combined) →
          combined.length =
            totalLength
              (addChunks env (init env.dom env.newAudioContext env.performanceNow q) chunks).allBuffers
          ∧ combined.duration =
            (addChunks env (init env.dom env.newAudioContext env.performanceNow q) chunks).totalDuration
          ∧ combined.duration =
            ((totalLength
              (addChunks env (init env.dom env.newAudioContext env.performanceNow q) chunks).allBuffers
                : Nat) : ℚ) / (rate : ℚ)
          ∧ (1 - 1 / 2 ^ 53) *
              (addChunks env (init env.dom env.newAudioContext env.performanceNow q) chunks).totalDuration ≤
            combined.durationNumber
          ∧ combined.durationNumber ≤
            (1 + 1 / 2 ^ 53) *
              (addChunks env (init env.dom env.newAudioContext env.performanceNow q) chunks).totalDuration) := by
  obtain ⟨hctx, hbuf, hdur, _⟩ := init_fields env.dom env.newAudioContext env.performanceNow q
  obtain ⟨ctx, hctx⟩ := hctx
  obtain ⟨_, hall, htot, _⟩ := addChunks_retains env chunks _ ctx hctx
  rw [hbuf, List.nil_append] at hall
  rw [hdur, zero_add, ← hall] at htot
  obtain ⟨b1, b2⟩ := totalDurationNumber_bounds
    (addChunks env (init env.dom env.newAudioContext env.performanceNow q) chunks).allBuffers
  refine ⟨hall, htot, by rw [htot]; exact b1, by rw [htot]; exact b2, ?_⟩
  intro hrate combined hcomb
  rw [htot]
  generalize (addChunks env (init env.dom env.newAudioContext env.performanceNow q) chunks).allBuffers
    = buffers at hrate hcomb
  have hsum := duration_sum_same_rate rate buffers hrate
  have hexact : combined.length = totalLength buffers
      ∧ combined.duration = (buffers.map AudioBuffer.duration).sum := by
    match buffers, hcomb, hrate, hsum with
    | [], hcomb, _, _ => simp [combineBuffers] at hcomb
    | [only], hcomb, hrate, hsum =>
      simp only [combineBuffers, Except.ok.injEq, Option.some.injEq] at hcomb
      subst hcomb
      simp [totalLength]
    | first :: second :: rest, hcomb, hrate, hsum =>
      obtain ⟨hr, hl⟩ := combineBuffers_shape first second rest combined hcomb
      rw [hsum]
      have hfirst : first.sampleRate = rate := hrate first (List.mem_cons_self _ _)
      exact ⟨hl, by simp [AudioBuffer.duration, hr, hl, hfirst]⟩
  obtain ⟨r1, r2⟩ := roundDouble_nonneg combined.duration (duration_nonneg combined)
  rw [← durationNumber_eq, hexact.2] at r1 r2
  exact ⟨hexact.1, hexact.2, by rw [hexact.2, hsum], r1, r2⟩

set_option maxRecDepth 4000 in
/-- Witness of C5 as amended: two chunks of one and two frames at 24000 Hz combine to
three frames, whose duration without rounding is the accumulated `totalDuration`. -/
theorem totalDuration_is_sum_of_decoded_witness :
    ({ sampleRate := 24000, length := 3, channels := [[0, 1 / 2, -1]] } : AudioBuffer).duration =
      (addChunks fixtureEnv
        (init fixtureEnv.dom fixtureEnv.newAudioContext fixtureEnv.performanceNow Player.new)
        [("AAAA".data, 24000), ("BBBB".data, 24000)]).totalDuration :=
  ((totalDuration_is_sum_of_decoded fixtureEnv Player.new
      [("AAAA".data, 24000), ("BBBB".data, 24000)] 24000).2.2.2.2
    (by with_unfolding_all decide) _ (by with_unfolding_all rfl)).2.1

/-! ## Metrics of `finalize` -/

theorem hideStreamingUI_times (dom : Dom) (p : Player) :
    (hideStreamingUI dom p).startTime = p.startTime
    ∧ (hideStreamingUI dom p).totalDuration = p.totalDuration := by
  simp only [hideStreamingUI, stopWaveformAnimation]
  constructor <;> split_ifs <;> rfl

theorem finalize_effects (env : Env) (p : Player) (numChannels : Nat)
    (hne : p.allBuffers ≠ []) (hwf : ∀ b ∈ p.allBuffers, b.WF)
    (hch : ∀ b ∈ p.allBuffers, b.numberOfChannels = numChannels) :
    ∃ wav, finalize env p =
      (hideStreamingUI env.dom p,
       [Effect.objectURL wav] ++
       (if env.dom.audioPlayer then [Effect.playerSrc] else []) ++
       (if env.dom.metricTime then
          [Effect.metricTime
            (toFixed env.numberToString 2 ((env.finalizeNow - p.startTime) / 1000) ++ ['s'])]
        else []) ++
       (if env.dom.metricDuration then
          [Effect.metricDuration (toFixed env.numberToString 1 p.totalDuration ++ ['s'])]
        else []) ++
       (if env.dom.metricRtf && decide (p.totalDuration > 0)
            && decide ((env.finalizeNow - p.startTime) / 1000 > 0) then
          [Effect.metricRtf
            (toFixed env.numberToString 2
              ((env.finalizeNow - p.startTime) / 1000 / p.totalDuration) ++ ['x'])]
        else []),
       none) := by
  obtain ⟨combined, hcomb, hchannels⟩ :=
    combineBuffers_channels p.allBuffers numChannels hne hwf hch
  have hpos : 0 < combined.numberOfChannels := by
    obtain ⟨first, hfirst⟩ := List.exists_mem_of_ne_nil _ hne
    have h1 := (hwf first hfirst).1
    rw [hch first hfirst] at h1
    simp [AudioBuffer.numberOfChannels, hchannels, h1]
  obtain ⟨interleaved, hint⟩ := interleave_of_channels combined hpos
  obtain ⟨wav, hwav⟩ : ∃ wav, audioBufferToWav combined = some wav :=
    ⟨_, audioBufferToWav_spec combined interleaved hint⟩
  obtain ⟨t1, t2⟩ := hideStreamingUI_times env.dom p
  refine ⟨wav, ?_⟩
  unfold finalize
  simp only [hideStreamingUI_allBuffers, hcomb, hwav, t1, t2]

theorem finalize_of_combine_error (env : Env) (p : Player) (message : String)
    (h : combineBuffers p.allBuffers = Except.error message) :
    finalize env p = (hideStreamingUI env.dom p, [], some message) := by
  unfold finalize
  simp only [hideStreamingUI_allBuffers, h]

theorem playNext_startTime (dom : Dom) (p : Player) :
    (playNext dom p).startTime = p.startTime := by
  obtain ⟨ctx, queue, _, _, _, _, _, _, _, _, _, _, _, _, _, _, _, _, _⟩ := p
  cases queue with
  | nil => simp [playNext]
  | cons buffer rest =>
    cases ctx with
    | none => simp [playNext]
    | some c =>
      simp only [playNext, startProgressUpdates, startWaveformAnimation]
      split_ifs <;> simp

theorem addChunk_startTime (env : Env) (p : Player) (base64Audio : List Char)
    (sampleRate : Nat) :
    (addChunk env p base64Audio sampleRate).1.startTime = p.startTime := by
  cases h : env.decode base64Audio with
  | invalidBase64 message => rw [addChunk_invalidBase64 env p _ _ message h]
  | rejected => rw [addChunk_rejected env p _ _ h]
  | decoded audioBuffer =>
    cases hctx : p.audioContext with
    | none => rw [addChunk_no_context env p _ _ hctx]
    | some ctx =>
      rw [(addChunk_decoded env p _ _ ctx audioBuffer hctx h).1]
      simp only []
      split_ifs
      · rw [playNext_startTime]
      · rfl

theorem addChunks_startTime (env : Env) (chunks : List (List Char × Nat)) :
    ∀ p : Player, (addChunks env p chunks).startTime = p.startTime := by
  induction chunks with
  | nil => intro p; rfl
  | cons chunk rest ih =>
    intro p
    have hfold : addChunks env p (chunk :: rest) =
        addChunks env (addChunk env p chunk.1 chunk.2).1 rest := rfl
    rw [hfold, ih, addChunk_startTime]

theorem session_totalDuration (env : Env) (chunks : List (List Char × Nat))
    (hdecode : ∀ audio b, env.decode audio = DecodeOutcome.decoded b →
      b.WF ∧ 0 < b.sampleRate) :
    ((addChunks env (sessionStart env) chunks).allBuffers = [] →
        (addChunks env (sessionStart env) chunks).totalDuration = 0)
    ∧ ((addChunks env (sessionStart env) chunks).allBuffers ≠ [] →
        0 < (addChunks env (sessionStart env) chunks).totalDuration) := by
  obtain ⟨hctx, hbuf, hdur, _⟩ := init_fields env.dom env.newAudioContext env.performanceNow
    Player.new
  obtain ⟨ctx, hctx⟩ := hctx
  obtain ⟨_, hall, htot, _⟩ := addChunks_retains env chunks _ ctx hctx
  rw [hbuf, List.nil_append] at hall
  rw [hdur, zero_add, ← hall] at htot
  unfold sessionStart
  rw [htot]
  have hpos : ∀ b ∈ (addChunks env (init env.dom env.newAudioContext env.performanceNow
      Player.new) chunks).allBuffers, 0 < b.duration := by
    intro b hb
    rw [hall, List.mem_filterMap] at hb
    obtain ⟨chunk, _, hchunk⟩ := hb
    have hdec : env.decode chunk.1 = DecodeOutcome.decoded b := by
      unfold decodedBuffer at hchunk
      cases hd : env.decode chunk.1 with
      | invalidBase64 message => rw [hd] at hchunk; cases hchunk
      | rejected => rw [hd] at hchunk; cases hchunk
      | decoded audioBuffer =>
        rw [hd] at hchunk
        simp only [Option.some.injEq] at hchunk
        rw [hchunk]
    obtain ⟨hwf, hrate⟩ := hdecode chunk.1 b hdec
    unfold AudioBuffer.duration
    have h1 : (0 : ℚ) < b.length := by exact_mod_cast hwf.2.1
    have h2 : (0 : ℚ) < b.sampleRate := by exact_mod_cast hrate
    exact div_pos h1 h2
  generalize (addChunks env (init env.dom env.newAudioContext env.performanceNow Player.new)
    chunks).allBuffers = buffers at hpos
  constructor
  · intro h
    rw [h]
    rfl
  · intro h
    match buffers, h, hpos with
    | first :: rest, _, hpos =>
      have h1 := hpos first (List.mem_cons_self _ _)
      have h2 : 0 ≤ (rest.map AudioBuffer.duration).sum :=
        List.sum_nonneg (by
          intro x hx
          rw [List.mem_map] at hx
          obtain ⟨b, _, rfl⟩ := hx
          exact duration_nonneg b)
      simp only [List.map_cons, List.sum_cons]
      linarith

/-- C22, evaluated on the code: a session in which a chunk on two channels is followed by
a chunk on one channel. Both are retained. In `finalize()`, `combineBuffers` asks the
second chunk for its channel 1 and throws, so `finalize()` is left by the exception
before the metrics: the generation time is not written, although the page has the
element for it. -/
theorem mixed_channel_counts_stop_finalize :
    (addChunks fixtureEnv (sessionStart fixtureEnv)
        [("CCCC".data, 24000), ("AAAA".data, 24000)]).allBuffers = [stereoFrame, monoFrame]
    ∧ (finalize fixtureEnv (addChunks fixtureEnv (sessionStart fixtureEnv)
        [("CCCC".data, 24000), ("AAAA".data, 24000)])).2.2 = some "IndexSizeError"
    ∧ (finalize fixtureEnv (addChunks fixtureEnv (sessionStart fixtureEnv)
        [("CCCC".data, 24000), ("AAAA".data, 24000)])).2.1 = []
    ∧ fixtureEnv.dom.metricTime = true := by
  have hall : (addChunks fixtureEnv (sessionStart fixtureEnv)
      [("CCCC".data, 24000), ("AAAA".data, 24000)]).allBuffers = [stereoFrame, monoFrame] := by
    obtain ⟨hctx, hbuf, _, _⟩ := init_fields fixtureEnv.dom fixtureEnv.newAudioContext
      fixtureEnv.performanceNow Player.new
    obtain ⟨ctx, hctx⟩ := hctx
    have hall := (addChunks_retains fixtureEnv [("CCCC".data, 24000), ("AAAA".data, 24000)]
      _ ctx hctx).2.1
    unfold sessionStart
    rw [hall, hbuf]
    rfl
  have hcomb : combineBuffers (addChunks fixtureEnv (sessionStart fixtureEnv)
      [("CCCC".data, 24000), ("AAAA".data, 24000)]).allBuffers =
        Except.error "IndexSizeError" := by
    rw [hall]
    with_unfolding_all rfl
  have hfin := finalize_of_combine_error fixtureEnv _ _ hcomb
  exact ⟨hall, by rw [hfin], by rw [hfin], rfl⟩

/-- C22 as amended: when `finalize()` runs on a player whose retained chunks are well
formed and share a channel count, so that `combineBuffers` and the encoder return, it
ends without an exception and writes the metric elements that the page has. The time
element gets the generation time `(performance.now() - startTime) / 1000` with two
decimals and an `s`. The element of the realtime factor is written exactly when
`totalDuration > 0` and the generation time is positive, with the generation time
divided by `totalDuration`, two decimals and an `x`. In a session `totalDuration` is
zero only when no chunk has been retained, and then `finalize()` returns after the log
`No buffers to combine`, before the metrics: no division is made and no time is
written. -/
theorem finalize_reports_metrics (env : Env) (p : Player) (numChannels : Nat)
    (chunks : List (List Char × Nat))
    (hne : p.allBuffers ≠ []) (hwf : ∀ b ∈ p.allBuffers, b.WF)
    (hch : ∀ b ∈ p.allBuffers, b.numberOfChannels = numChannels)
    (hdecode : ∀ audio b, env.decode audio = DecodeOutcome.decoded b →
      b.WF ∧ 0 < b.sampleRate) :
    (finalize env p).2.2 = none
    ∧ (∀ text, Effect.metricTime text ∈ (finalize env p).2.1 ↔
        (env.dom.metricTime = true
          ∧ text = toFixed env.numberToString 2 ((env.finalizeNow - p.startTime) / 1000)
              ++ ['s']))
    ∧ (∀ text, Effect.metricRtf text ∈ (finalize env p).2.1 ↔
        (env.dom.metricRtf = true ∧ 0 < p.totalDuration
          ∧ 0 < (env.finalizeNow - p.startTime) / 1000
          ∧ text = toFixed env.numberToString 2
              ((env.finalizeNow - p.startTime) / 1000 / p.totalDuration) ++ ['x']))
    ∧ ((addChunks env (sessionStart env) chunks).totalDuration = 0 ↔
        (addChunks env (sessionStart env) chunks).allBuffers = [])
    ∧ ((addChunks env (sessionStart env) chunks).totalDuration = 0 →
        (finalize env (addChunks env (sessionStart env) chunks)).2.1 =
          [Effect.consoleError "[Streaming] No buffers to combine"]) := by
  obtain ⟨wav, hfin⟩ := finalize_effects env p numChannels hne hwf hch
  obtain ⟨s1, s2⟩ := session_totalDuration env chunks hdecode
  have hzero : (addChunks env (sessionStart env) chunks).totalDuration = 0 ↔
      (addChunks env (sessionStart env) chunks).allBuffers = [] := by
    constructor
    · intro h
      by_contra hcon
      have := s2 hcon
      rw [h] at this
      exact lt_irrefl _ this
    · exact s1
  refine ⟨by rw [hfin], ?_, ?_, hzero, ?_⟩
  · intro text
    rw [hfin]
    simp only [List.mem_append, List.mem_singleton]
    constructor
    · intro h
      rcases h with (((h | h) | h) | h) | h
      · cases h
      · split_ifs at h <;> simp at h
      · split_ifs at h with hc
        · simp only [List.mem_singleton, Effect.metricTime.injEq] at h
          exact ⟨hc, h⟩
        · simp at h
      · split_ifs at h <;> simp at h
      · split_ifs at h <;> simp at h
    · rintro ⟨h1, h2⟩
      left; left; right
      rw [if_pos h1]
      simp [h2]
  · intro text
    rw [hfin]
    simp only [List.mem_append, List.mem_singleton]
    constructor
    · intro h
      rcases h with (((h | h) | h) | h) | h
      · cases h
      · split_ifs at h <;> simp at h
      · split_ifs at h <;> simp at h
      · split_ifs at h <;> simp at h
      · split_ifs at h with hc
        · simp only [List.mem_singleton, Effect.metricRtf.injEq] at h
          simp only [Bool.and_eq_true, decide_eq_true_eq, gt_iff_lt] at hc
          exact ⟨hc.1.1, hc.1.2, hc.2, h⟩
        · simp at h
    · rintro ⟨h1, h2, h3, h4⟩
      right
      rw [if_pos (by simp [h1, h2, h3])]
      simp [h4]
  · intro h
    rw [finalize_of_no_buffers env _ (hzero.mp h)]

/-- Witness of C22 as amended: a session of the timing scenario with one chunk of one
second, finalised when `performance.now()` reads 1500 ms after the reading of `init()`:
the time element shows `1.50s` and the element of the realtime factor `1.50x`. -/
theorem finalize_reports_metrics_witness :
    Effect.metricTime "1.50s".data ∈
        (finalize timingEnv (addChunks timingEnv (sessionStart timingEnv) [([], 24000)])).2.1
    ∧ Effect.metricRtf "1.50x".data ∈
        (finalize timingEnv (addChunks timingEnv (sessionStart timingEnv) [([], 24000)])).2.1 := by
  obtain ⟨hctx, hbuf, hdur, _⟩ := init_fields timingEnv.dom timingEnv.newAudioContext
    timingEnv.performanceNow Player.new
  obtain ⟨ctx, hctx⟩ := hctx
  obtain ⟨_, hall, htot, _⟩ := addChunks_retains timingEnv [([], 24000)] _ ctx hctx
  have hall1 : (addChunks timingEnv (sessionStart timingEnv) [([], 24000)]).allBuffers =
      [oneSecond] := by
    unfold sessionStart
    rw [hall, hbuf]
    rfl
  have htot1 : (addChunks timingEnv (sessionStart timingEnv) [([], 24000)]).totalDuration = 1 := by
    unfold sessionStart
    rw [htot, hdur]
    have : ([([], 24000)] : List (List Char × Nat)).filterMap
        (fun chunk => decodedBuffer timingEnv chunk.1) = [oneSecond] := rfl
    rw [this]
    norm_num [AudioBuffer.duration, oneSecond]
  have hstart : (addChunks timingEnv (sessionStart timingEnv) [([], 24000)]).startTime = 0 := by
    rw [addChunks_startTime]
    rfl
  have hgen : (timingEnv.finalizeNow -
      (addChunks timingEnv (sessionStart timingEnv) [([], 24000)]).startTime) / 1000 = 3 / 2 := by
    rw [hstart]
    norm_num [timingEnv]
  have hthm := finalize_reports_metrics timingEnv
    (addChunks timingEnv (sessionStart timingEnv) [([], 24000)]) 1 []
    (by rw [hall1]; simp)
    (by
      rw [hall1]
      intro b hb
      rw [List.mem_singleton.mp hb]
      exact silence_wf 24000 24000 (by norm_num))
    (by
      rw [hall1]
      intro b hb
      rw [List.mem_singleton.mp hb]
      rfl)
    (by
      intro audio b h
      have hb : DecodeOutcome.decoded oneSecond = DecodeOutcome.decoded b := h
      simp only [DecodeOutcome.decoded.injEq] at hb
      rw [← hb]
      exact ⟨silence_wf 24000 24000 (by norm_num), by norm_num [oneSecond]⟩)
  have htext : toFixed timingEnv.numberToString 2 (3 / 2) = "1.50".data := by
    with_unfolding_all decide
  constructor
  · exact (hthm.2.1 _).mpr ⟨rfl, by rw [hgen, htext]; rfl⟩
  · exact (hthm.2.2.1 _).mpr ⟨rfl, by rw [htot1]; norm_num, by rw [hgen]; norm_num,
      by rw [hgen, htot1, div_one, htext]; rfl⟩

end StreamingTTS
